import Mathlib

/-!
The franz_flow single-producer / single-consumer ring buffer.

Shallow embedding of `src/ring_buffer.h` (the variable-length record ring
buffer: `try_ring_buffer_sp_claim`, `ring_buffer_commit`,
`ring_buffer_batch_read`) and verification of its specification.

Modelling conventions.

* The backing buffer `uint8_t *buffer` is a byte memory `Nat → Nat` (address to
  byte; a byte is read modulo 256).  The three position words live inside the
  buffer, at the indices stored in the `ring_buffer_header`, exactly as in the
  source.  64-bit words are laid out little-endian.
* `uint64_t` values are natural numbers reduced modulo `2^64`, `uint32_t` and
  `index_t` values are natural numbers reduced modulo `2^32`, at every place
  where the C expression is evaluated in that type.
* Acquire / release accesses are modelled as plain loads and stores: every
  statement below is about sequential executions.
* `record_descriptor.h`, `index.h` and `bytes_utils.h` are not part of the
  available sources; what the ring buffer uses from them is modelled from the
  specification and marked as such.  The value of the reserved padding type id
  is not fixed by the specification and is a parameter
  (`RECORD_PADDING_MSG_TYPE_ID`, `PAD` in the theorems) of the definitions that
  use it.
* Functions with out parameters return the values of the out parameters next to
  the returned flag.  The `while` loop of `ring_buffer_batch_read` runs on fuel:
  the call is `none` when the fuel does not suffice, and the theorems say which
  fuel does.  The callback is a function of its arguments and of the `context`,
  returning the flag and the new context; the loop also keeps the log of the
  callback invocations.
* Sequential use of one buffer is the inductive predicate `Reachable`: the
  producer's claims, payload writes and commits and the consumer's batch reads,
  in any interleaving, from the all-zero buffer.  Any number of claims may be
  waiting for their commit; a parameter of `Reachable` says whether the claims
  are committed in claim order or in any order.
-/

set_option autoImplicit false

namespace FranzFlow

/-! ## Machine arithmetic -/

/-- Truncation of a natural number to `uint32_t` (also `index_t`). -/
def u32 (x : Nat) : Nat := x % 4294967296

/-- Truncation of a natural number to `uint64_t`. -/
def u64 (x : Nat) : Nat := x % 18446744073709551616

/-- The C expression `a - b` evaluated in `uint32_t`. -/
def sub_u32 (a b : Nat) : Nat := (u32 a + 4294967296 - u32 b) % 4294967296

/-- The C expression `a - b` evaluated in `uint64_t`. -/
def sub_u64 (a b : Nat) : Nat :=
  (u64 a + 18446744073709551616 - u64 b) % 18446744073709551616

/-! ## Byte memory -/

/-- The backing store `uint8_t *buffer`, as a map from byte offsets to bytes. -/
abbrev Buffer := Nat → Nat

/-- The byte at offset `i`. -/
def load_u8 (buffer : Buffer) (i : Nat) : Nat := buffer i % 256

/-- Load of the 64-bit word at byte offset `i` (little-endian). -/
def load_u64 (buffer : Buffer) (i : Nat) : Nat :=
  load_u8 buffer i
    + 256 * load_u8 buffer (i + 1)
    + 65536 * load_u8 buffer (i + 2)
    + 16777216 * load_u8 buffer (i + 3)
    + 4294967296 * load_u8 buffer (i + 4)
    + 1099511627776 * load_u8 buffer (i + 5)
    + 281474976710656 * load_u8 buffer (i + 6)
    + 72057594037927936 * load_u8 buffer (i + 7)

/-- Store of the 64-bit word `v` at byte offset `i` (little-endian). -/
def store_u64 (buffer : Buffer) (i v : Nat) : Buffer :=
  fun a => if i ≤ a ∧ a < i + 8 then (v / 256 ^ (a - i)) % 256 else buffer a

/-- The C library call `memset(buffer + start, value, n)`. -/
def memset (buffer : Buffer) (start value n : Nat) : Buffer :=
  fun a => if start ≤ a ∧ a < start + n then value % 256 else buffer a

/-- The buffer whose every byte is zero. -/
def zero_buffer : Buffer := fun _ => 0

/-! ## Record descriptor (`record_descriptor.h`, `bytes_utils.h`) -/

/-- Modelled from the spec: `RECORD_HEADER_LENGTH` of the missing
`record_descriptor.h`; the record header is one 64-bit word. -/
def RECORD_HEADER_LENGTH : Nat := 8

/-- Modelled from the spec: `RECORD_ALIGNMENT` of the missing
`record_descriptor.h`; "the record alignment (an implementation constant,
typically 8)". -/
def RECORD_ALIGNMENT : Nat := 8

/-- Modelled from the spec: `align` of the missing `bytes_utils.h`; the value
rounded up to a multiple of the alignment, computed in `index_t`. -/
def align (value alignment : Nat) : Nat :=
  u32 ((value + (alignment - 1)) / alignment * alignment)

/-- Modelled from the spec: `required_record_capacity` of the missing
`record_descriptor.h`; "header_bytes + payload_bytes rounded up to the record
alignment". -/
def required_record_capacity (record_length : Nat) : Nat :=
  align (u32 (record_length + RECORD_HEADER_LENGTH)) RECORD_ALIGNMENT

/-- Modelled from the spec: `make_header` of the missing `record_descriptor.h`;
"low 32 bits = record length in bytes (payload + header); high 32 bits =
message type id". -/
def make_header (msg_type_id length : Nat) : Nat :=
  u32 msg_type_id * 4294967296 + u32 length

/-- Modelled from the spec: `record_length` of the missing
`record_descriptor.h`; the low 32 bits of the header word. -/
def record_length (header : Nat) : Nat := u32 header

/-- Modelled from the spec: `message_type_id` of the missing
`record_descriptor.h`; the high 32 bits of the header word. -/
def message_type_id (header : Nat) : Nat := u32 (u64 header / 4294967296)

/-- Modelled from the spec: `check_msg_type_id` of the missing
`record_descriptor.h`; "validates `type_id ≠ PADDING` and `type_id > 0`". -/
def check_msg_type_id (RECORD_PADDING_MSG_TYPE_ID msg_type_id : Nat) : Bool :=
  decide (msg_type_id ≠ RECORD_PADDING_MSG_TYPE_ID) && decide (msg_type_id > 0)

/-! ## `ring_buffer.h` -/

/-- The C `struct ring_buffer_header`. -/
structure ring_buffer_header where
  max_msg_length : Nat
  producer_position_index : Nat
  consumer_cache_position_index : Nat
  consumer_position_index : Nat
  capacity : Nat

/-- C `load_consumer_position`. -/
def load_consumer_position (header : ring_buffer_header) (buffer : Buffer) : Nat :=
  load_u64 buffer header.consumer_position_index

/-- C `load_acquire_consumer_position`. -/
def load_acquire_consumer_position (header : ring_buffer_header) (buffer : Buffer) : Nat :=
  load_u64 buffer header.consumer_position_index

/-- C `store_release_consumer_position`. -/
def store_release_consumer_position (header : ring_buffer_header) (buffer : Buffer)
    (value : Nat) : Buffer :=
  store_u64 buffer header.consumer_position_index value

/-- C `load_consumer_cache_position`. -/
def load_consumer_cache_position (header : ring_buffer_header) (buffer : Buffer) : Nat :=
  load_u64 buffer header.consumer_cache_position_index

/-- C `store_consumer_cache_position`. -/
def store_consumer_cache_position (header : ring_buffer_header) (buffer : Buffer)
    (value : Nat) : Buffer :=
  store_u64 buffer header.consumer_cache_position_index value

/-- C `load_producer_position`. -/
def load_producer_position (header : ring_buffer_header) (buffer : Buffer) : Nat :=
  load_u64 buffer header.producer_position_index

/-- C `load_acquire_producer_position`. -/
def load_acquire_producer_position (header : ring_buffer_header) (buffer : Buffer) : Nat :=
  load_u64 buffer header.producer_position_index

/-- C `load_acquire_msg_reader`. -/
def load_acquire_msg_reader (buffer : Buffer) (index : Nat) : Nat :=
  load_u64 buffer index

/-- C `store_release_msg_header`. -/
def store_release_msg_header (buffer : Buffer) (index msg_header : Nat) : Buffer :=
  store_u64 buffer index msg_header

/-- C `store_release_producer_position`. -/
def store_release_producer_position (header : ring_buffer_header) (buffer : Buffer)
    (value : Nat) : Buffer :=
  store_u64 buffer header.producer_position_index value

/-- C `try_claim_when_full`.  The result is the returned flag, the buffer after
the call and the value of the in/out parameter `*consumer_position`. -/
def try_claim_when_full (header : ring_buffer_header) (buffer : Buffer)
    (producer_position required_capacity consumer_position : Nat) : Bool × Buffer × Nat :=
  let last_consumer_position := load_acquire_consumer_position header buffer
  let size := u32 (sub_u64 producer_position last_consumer_position)
  if required_capacity > sub_u32 header.capacity size then
    (false, buffer, consumer_position)
  else
    (true, store_consumer_cache_position header buffer last_consumer_position,
      last_consumer_position)

/-- C `try_acquire_from_start_of_buffer`. -/
def try_acquire_from_start_of_buffer (header : ring_buffer_header) (buffer : Buffer)
    (required_capacity mask : Nat) : Bool × Buffer :=
  let consumer_position := load_acquire_consumer_position header buffer
  let consumer_index := u32 (consumer_position &&& mask)
  if required_capacity > consumer_index then
    (false, buffer)
  else
    (true, store_consumer_cache_position header buffer consumer_position)

/-- C `try_claim_when_need_pad`. -/
def try_claim_when_need_pad (header : ring_buffer_header) (buffer : Buffer)
    (consumer_position required_capacity mask : Nat) : Bool × Buffer :=
  let consumer_index := u32 (consumer_position &&& mask)
  if required_capacity > consumer_index then
    try_acquire_from_start_of_buffer header buffer required_capacity mask
  else
    (true, buffer)

/-- Outcome of `try_ring_buffer_sp_claim`: the returned flag, the buffer after
the call and the values of the out parameters `*claimed_position` and
`*claimed_index`. -/
structure ClaimResult where
  ok : Bool
  buffer : Buffer
  claimed_position : Nat
  claimed_index : Nat

/-- C `try_ring_buffer_sp_claim`.  The arguments `claimed_position` and
`claimed_index` are the values the out parameters hold before the call. -/
def try_ring_buffer_sp_claim (RECORD_PADDING_MSG_TYPE_ID : Nat)
    (header : ring_buffer_header) (buffer : Buffer)
    (required_capacity claimed_position claimed_index : Nat) : ClaimResult :=
  if required_capacity > header.max_msg_length then
    ⟨false, buffer, claimed_position, claimed_index⟩
  else
    let capacity := header.capacity
    let mask := sub_u32 capacity 1
    let consumer_position := load_consumer_cache_position header buffer
    let producer_position := load_producer_position header buffer
    let required_msg_capacity := required_record_capacity required_capacity
    let size := u32 (sub_u64 producer_position consumer_position)
    let available_capacity := sub_u32 capacity size
    let full : Bool × Buffer × Nat :=
      if required_msg_capacity > available_capacity then
        try_claim_when_full header buffer producer_position required_msg_capacity
          consumer_position
      else (true, buffer, consumer_position)
    if !full.1 then
      ⟨false, full.2.1, claimed_position, claimed_index⟩
    else
      let buffer := full.2.1
      let consumer_position := full.2.2
      let producer_index := u32 (producer_position &&& mask)
      let bytes_until_end_of_buffer := sub_u32 capacity producer_index
      let pad : Bool × Buffer :=
        if required_msg_capacity > bytes_until_end_of_buffer then
          try_claim_when_need_pad header buffer consumer_position required_msg_capacity mask
        else (true, buffer)
      if !pad.1 then
        ⟨false, pad.2, claimed_position, claimed_index⟩
      else
        let buffer := pad.2
        let padding :=
          if required_msg_capacity > bytes_until_end_of_buffer then bytes_until_end_of_buffer
          else 0
        let new_producer_position := u64 (producer_position + required_msg_capacity + padding)
        let buffer := store_release_producer_position header buffer new_producer_position
        if padding ≠ 0 then
          let buffer := store_release_msg_header buffer producer_index
            (make_header RECORD_PADDING_MSG_TYPE_ID padding)
          let msg_position := u64 (producer_position + padding)
          let msg_index := u32 (msg_position &&& mask)
          ⟨true, buffer, msg_position, msg_index⟩
        else
          ⟨true, buffer, producer_position, producer_index⟩

/-- C `ring_buffer_commit`: the returned flag and the buffer after the call. -/
def ring_buffer_commit (RECORD_PADDING_MSG_TYPE_ID : Nat) (buffer : Buffer)
    (msg_index msg_type_id msg_content_length : Nat) : Bool × Buffer :=
  if !check_msg_type_id RECORD_PADDING_MSG_TYPE_ID msg_type_id then
    (false, buffer)
  else
    (true, store_release_msg_header buffer msg_index
      (make_header msg_type_id (u32 (msg_content_length + RECORD_HEADER_LENGTH))))

/-- One invocation of the `message_consumer` callback: its arguments
`(msg_type_id, buffer, msg_content_index, msg_content_length)`. -/
structure Call where
  msg_type_id : Nat
  buffer : Buffer
  msg_content_index : Nat
  msg_content_length : Nat

/-- The type of the `message_consumer` callback: the arguments are the type
id, the buffer, the payload index, the payload length and the `context`; the
result is the returned flag and the context after the call. -/
abbrev MessageConsumer (γ : Type) := Nat → Buffer → Nat → Nat → γ → Bool × γ

/-- The local variables of the `while` loop of `ring_buffer_batch_read`,
together with the callback's context and the (ghost) log of the callback
invocations made so far. -/
structure BatchLoop (γ : Type) where
  stop : Bool
  bytes_consumed : Nat
  msg_read : Nat
  context : γ
  calls : List Call

/-- The guard of the `while` loop of `ring_buffer_batch_read`. -/
def batch_read_guard {γ : Type} (remaining_bytes count : Nat) (s : BatchLoop γ) : Bool :=
  !s.stop && decide (s.bytes_consumed < remaining_bytes) && decide (s.msg_read < count)

/-- The body of the `while` loop of `ring_buffer_batch_read`. -/
def batch_read_body {γ : Type} (RECORD_PADDING_MSG_TYPE_ID : Nat) (buffer : Buffer)
    (message_consumer : MessageConsumer γ) (consumer_index : Nat) (s : BatchLoop γ) :
    BatchLoop γ :=
  let msg_index := u32 (consumer_index + s.bytes_consumed)
  let msg_header := load_acquire_msg_reader buffer msg_index
  let msg_length := record_length msg_header
  if msg_length ≤ 0 then
    { s with stop := true }
  else
    let required_msg_length := align msg_length RECORD_ALIGNMENT
    let bytes_consumed := u32 (s.bytes_consumed + required_msg_length)
    let msg_type_id := message_type_id msg_header
    if msg_type_id ≠ RECORD_PADDING_MSG_TYPE_ID then
      let msg_read := u32 (s.msg_read + 1)
      let msg_content_length := sub_u32 msg_length RECORD_HEADER_LENGTH
      let msg_content_index := u32 (msg_index + RECORD_HEADER_LENGTH)
      let r := message_consumer msg_type_id buffer msg_content_index msg_content_length
        s.context
      { stop := !r.1, bytes_consumed := bytes_consumed, msg_read := msg_read,
        context := r.2,
        calls := s.calls ++ [⟨msg_type_id, buffer, msg_content_index, msg_content_length⟩] }
    else
      { s with bytes_consumed := bytes_consumed }

/-- The `while` loop of `ring_buffer_batch_read`, run for at most `fuel`
iterations: the loop variables when the guard first fails, or after `fuel`
iterations. -/
def batch_read_loop {γ : Type} (RECORD_PADDING_MSG_TYPE_ID : Nat) (buffer : Buffer)
    (message_consumer : MessageConsumer γ) (consumer_index remaining_bytes count : Nat) :
    Nat → BatchLoop γ → BatchLoop γ
  | 0, s => s
  | fuel + 1, s =>
    if batch_read_guard remaining_bytes count s then
      batch_read_loop RECORD_PADDING_MSG_TYPE_ID buffer message_consumer consumer_index
        remaining_bytes count fuel
        (batch_read_body RECORD_PADDING_MSG_TYPE_ID buffer message_consumer consumer_index s)
    else s

/-- Outcome of `ring_buffer_batch_read`: the returned count, the buffer and the
callback context after the call, and the log of the callback invocations. -/
structure BatchResult (γ : Type) where
  msg_read : Nat
  buffer : Buffer
  context : γ
  calls : List Call

/-- The loop variables of `ring_buffer_batch_read` after at most `fuel`
iterations of its `while` loop. -/
def ring_buffer_batch_read_loop {γ : Type} (RECORD_PADDING_MSG_TYPE_ID fuel : Nat)
    (header : ring_buffer_header) (buffer : Buffer) (message_consumer : MessageConsumer γ)
    (count : Nat) (context : γ) : BatchLoop γ :=
  let consumer_position := load_consumer_position header buffer
  let capacity := header.capacity
  let consumer_index := u32 (consumer_position &&& sub_u32 capacity 1)
  let remaining_bytes := sub_u32 capacity consumer_index
  batch_read_loop RECORD_PADDING_MSG_TYPE_ID buffer message_consumer consumer_index
    remaining_bytes count fuel
    { stop := false, bytes_consumed := 0, msg_read := 0, context := context, calls := [] }

/-- C `ring_buffer_batch_read`.  The `while` loop is run with `fuel`; the
result is `none` when the loop has not left after `fuel` iterations. -/
def ring_buffer_batch_read {γ : Type} (RECORD_PADDING_MSG_TYPE_ID fuel : Nat)
    (header : ring_buffer_header) (buffer : Buffer) (message_consumer : MessageConsumer γ)
    (count : Nat) (context : γ) : Option (BatchResult γ) :=
  let consumer_position := load_consumer_position header buffer
  let capacity := header.capacity
  let consumer_index := u32 (consumer_position &&& sub_u32 capacity 1)
  let remaining_bytes := sub_u32 capacity consumer_index
  let s := ring_buffer_batch_read_loop RECORD_PADDING_MSG_TYPE_ID fuel header buffer
    message_consumer count context
  if batch_read_guard remaining_bytes count s then
    none
  else
    let buffer :=
      if s.bytes_consumed ≠ 0 then
        store_release_consumer_position header (memset buffer consumer_index 0 s.bytes_consumed)
          (u64 (consumer_position + s.bytes_consumed))
      else buffer
    some ⟨s.msg_read, buffer, s.context, s.calls⟩

/-- The `do ... while` loop of `ring_buffer_size`, run for at most `fuel`
iterations from the given value of `consumerPosition`: the values of
`producerPosition` and `consumerPosition` when the loop is left, or `none` when
it has not been left after `fuel` iterations. -/
def ring_buffer_size_loop (header : ring_buffer_header) (buffer : Buffer) :
    Nat → Nat → Option (Nat × Nat)
  | 0, _ => none
  | fuel + 1, consumerPosition =>
    let previousConsumerPosition := consumerPosition
    let producerPosition := load_acquire_producer_position header buffer
    let consumerPosition := load_acquire_consumer_position header buffer
    if consumerPosition ≠ previousConsumerPosition then
      ring_buffer_size_loop header buffer fuel consumerPosition
    else some (producerPosition, consumerPosition)

/-- C `ring_buffer_size`.  The function makes no store, so the result is the
returned value alone; the loop is run with `fuel`, and the result is `none` when
the loop has not been left after `fuel` iterations. -/
def ring_buffer_size (fuel : Nat) (header : ring_buffer_header) (buffer : Buffer) :
    Option Nat :=
  let consumerPosition := load_acquire_consumer_position header buffer
  match ring_buffer_size_loop header buffer fuel consumerPosition with
  | none => none
  | some (producerPosition, consumerPosition) =>
    some (u32 (sub_u64 producerPosition consumerPosition))

/-! ## Auxiliary predicates -/

/-- What the loop of `ring_buffer_batch_read` maintains about the callback log. -/
def calls_ok {γ : Type} (PAD count : Nat) (s : BatchLoop γ) : Prop :=
  (∀ c ∈ s.calls, c.msg_type_id ≠ PAD) ∧ s.msg_read = s.calls.length ∧ s.msg_read ≤ count

/-- Every length field that can be read from the buffer is at most `2^31`. -/
def lengths_bounded (buffer : Buffer) : Prop :=
  ∀ i, record_length (load_u64 buffer i) ≤ 2147483648

/-- The position words of the header do not overlap each other and start at
least 8 bytes after the data region `[0, capacity)` (the layout that
`init_ring_buffer_header` sets up: data region, then the three words two cache
lines apart). -/
def header_layout (header : ring_buffer_header) : Prop :=
  header.capacity + 8 ≤ header.producer_position_index
  ∧ header.producer_position_index + 8 ≤ header.consumer_cache_position_index
  ∧ header.consumer_cache_position_index + 8 ≤ header.consumer_position_index

/-- The capacity is a power of two that fits `index_t`. -/
def capacity_pow2 (header : ring_buffer_header) : Prop :=
  ∃ k, k ≤ 31 ∧ header.capacity = 2 ^ k

/-- The layout of a header can be checked by computation. -/
instance header_layout_decidable (header : ring_buffer_header) :
    Decidable (header_layout header) :=
  inferInstanceAs (Decidable (header.capacity + 8 ≤ header.producer_position_index
    ∧ header.producer_position_index + 8 ≤ header.consumer_cache_position_index
    ∧ header.consumer_cache_position_index + 8 ≤ header.consumer_position_index))

/-- Whether the capacity is a power of two can be checked by computation. -/
instance capacity_pow2_decidable (header : ring_buffer_header) :
    Decidable (capacity_pow2 header) :=
  decidable_of_iff (∃ k, k < 32 ∧ header.capacity = 2 ^ k)
    ⟨fun ⟨k, hk, he⟩ => ⟨k, Nat.le_of_lt_succ hk, he⟩,
      fun ⟨k, hk, he⟩ => ⟨k, Nat.lt_succ_of_le hk, he⟩⟩

/-- The decisions `try_ring_buffer_sp_claim` takes, as a function of the
capacity, the three positions read from the buffer and the record capacity:
whether the claim succeeds, whether `consumer_cache_position` is refreshed and
how many padding bytes precede the record.  The definition repeats the
comparisons of the C code; `try_ring_buffer_sp_claim_eq` relates it to the
embedding of the code. -/
structure ClaimOutcome where
  ok : Bool
  refreshed : Bool
  padding : Nat

/-- See `ClaimOutcome`. -/
def claim_outcome (capacity ccp cp pp S : Nat) : ClaimOutcome :=
  let mask := sub_u32 capacity 1
  let full := decide (S > sub_u32 capacity (u32 (sub_u64 pp ccp)))
  if full = true ∧ S > sub_u32 capacity (u32 (sub_u64 pp cp)) then
    ⟨false, false, 0⟩
  else
    let c := if full = true then cp else ccp
    let until_end := sub_u32 capacity (u32 (pp &&& mask))
    if S > until_end then
      if S > u32 (c &&& mask) then
        if S > u32 (cp &&& mask) then ⟨false, full, 0⟩ else ⟨true, true, until_end⟩
      else ⟨true, full, until_end⟩
    else ⟨true, full, 0⟩

/-- A record as the consumer finds it in the buffer: the type id and the
length field of its header word. -/
abbrev Rec := Nat × Nat

/-- The number of bytes a record occupies: its length rounded up to the record
alignment. -/
def rec_size (r : Rec) : Nat := align r.2 RECORD_ALIGNMENT

/-- The number of bytes a sequence of records occupies. -/
def span : List Rec → Nat
  | [] => 0
  | r :: rs => rec_size r + span rs

/-- The records `rs` lie back to back in the data region, the first one at
position `p` (index `p % capacity`): each header word holds the type id and the
length of its record, the length is at least the header length, and no record
extends past the end of the data region. -/
def laid_out (capacity : Nat) (buffer : Buffer) : Nat → List Rec → Prop
  | _, [] => True
  | p, r :: rs =>
    load_u64 buffer (p % capacity) = make_header r.1 r.2
    ∧ r.1 < 4294967296 ∧ 8 ≤ r.2 ∧ r.2 ≤ capacity
    ∧ p % capacity + rec_size r ≤ capacity
    ∧ laid_out capacity buffer (p + rec_size r) rs

/-- The callback invocations that walking the records `rs`, the first one at
position `p`, gives rise to: one for each record whose type id is not the
padding id. -/
def calls_of (PAD capacity : Nat) (buffer : Buffer) : Nat → List Rec → List Call
  | _, [] => []
  | p, r :: rs =>
    (if r.1 ≠ PAD then [(⟨r.1, buffer, p % capacity + 8, r.2 - 8⟩ : Call)] else [])
      ++ calls_of PAD capacity buffer (p + rec_size r) rs

/-- Whether records are laid out at a position can be computed. -/
instance laid_out_decidable (capacity : Nat) (buffer : Buffer) :
    ∀ (p : Nat) (rs : List Rec), Decidable (laid_out capacity buffer p rs)
  | _, [] => isTrue trivial
  | p, r :: rs =>
    have := laid_out_decidable capacity buffer (p + rec_size r) rs
    inferInstanceAs (Decidable (load_u64 buffer (p % capacity) = make_header r.1 r.2
      ∧ r.1 < 4294967296 ∧ 8 ≤ r.2 ∧ r.2 ≤ capacity
      ∧ p % capacity + rec_size r ≤ capacity
      ∧ laid_out capacity buffer (p + rec_size r) rs))

/-! ## Initialisation -/

/-- Modelled from the spec: `CACHE_LINE_LENGTH` of the missing `bytes_utils.h`;
the control words are "each placed on its own cache line, minimum 64-byte
isolation from neighbours". -/
def CACHE_LINE_LENGTH : Nat := 64

/-- Modelled from the spec: `is_pow_2` of the missing `bytes_utils.h`; the
value is a power of two (representable in `index_t`). -/
def is_pow_2 (value : Nat) : Bool := decide (∃ k, k < 32 ∧ value = 2 ^ k)

/-- C `RING_BUFFER_PRODUCER_POSITION_OFFSET`. -/
def RING_BUFFER_PRODUCER_POSITION_OFFSET : Nat := u32 (CACHE_LINE_LENGTH * 2)

/-- C `RING_BUFFER_CONSUMER_CACHE_POSITION_OFFSET`. -/
def RING_BUFFER_CONSUMER_CACHE_POSITION_OFFSET : Nat := u32 (CACHE_LINE_LENGTH * 4)

/-- C `RING_BUFFER_CONSUMER_POSITION_OFFSET`. -/
def RING_BUFFER_CONSUMER_POSITION_OFFSET : Nat := u32 (CACHE_LINE_LENGTH * 6)

/-- C `RING_BUFFER_TRAILER_LENGTH`. -/
def RING_BUFFER_TRAILER_LENGTH : Nat := u32 (CACHE_LINE_LENGTH * 8)

/-- C `ring_buffer_check_capacity`. -/
def ring_buffer_check_capacity (capacity : Nat) : Bool :=
  is_pow_2 (sub_u32 capacity RING_BUFFER_TRAILER_LENGTH)

/-- The search of `next_pow_2`: the first of `p, 2 p, 4 p, ...` that is at least
`value`, among the first `fuel + 1` of them. -/
def next_pow_2_from (value : Nat) : Nat → Nat → Nat
  | 0, p => p
  | fuel + 1, p => if value ≤ p then p else next_pow_2_from value fuel (2 * p)

/-- Modelled from the spec: `next_pow_2` of the missing `bytes_utils.h`; "the
data region size is rounded up to the next power of two": the least power of
two that is at least the value, as an `index_t`. -/
def next_pow_2 (value : Nat) : Nat := u32 (next_pow_2_from value 32 1)

/-- C `ring_buffer_capacity`. -/
def ring_buffer_capacity (requested_capacity : Nat) : Nat :=
  u32 (next_pow_2 requested_capacity + RING_BUFFER_TRAILER_LENGTH)

/-- C `init_ring_buffer_header`: the returned flag and the header after the
call; the argument `header` is the header before the call. -/
def init_ring_buffer_header (header : ring_buffer_header) (length : Nat) :
    Bool × ring_buffer_header :=
  if !ring_buffer_check_capacity length then
    (false, header)
  else
    let capacity := sub_u32 length RING_BUFFER_TRAILER_LENGTH
    let max_msg_length := sub_u32 capacity RECORD_HEADER_LENGTH
    let producer_position_index := u32 (capacity + RING_BUFFER_PRODUCER_POSITION_OFFSET)
    let consumer_cache_position_index :=
      u32 (capacity + RING_BUFFER_CONSUMER_CACHE_POSITION_OFFSET)
    let consumer_position_index := u32 (capacity + RING_BUFFER_CONSUMER_POSITION_OFFSET)
    (true,
      { capacity := capacity, max_msg_length := max_msg_length,
        producer_position_index := producer_position_index,
        consumer_cache_position_index := consumer_cache_position_index,
        consumer_position_index := consumer_position_index })

/-! ## Sequential runs -/

/-- The observable part of a callback invocation: type id, payload index and
payload length. -/
def Call.triple (c : Call) : Nat × Nat × Nat :=
  (c.msg_type_id, c.msg_content_index, c.msg_content_length)

/-- The producer writing one payload byte of the slot it has claimed: byte `k`
of the payload of the record whose header is at `claimed_index`. -/
def write_payload (buffer : Buffer) (claimed_index k value : Nat) : Buffer :=
  fun a => if a = claimed_index + RECORD_HEADER_LENGTH + k then value % 256 else buffer a

/-- A slot of the data region between the consumer position and the producer
position: a slot that the producer has claimed and not yet committed, with its
payload length, or a slot whose header word is written, which is a committed
data record or a padding record, with the type id and the length field of the
header. -/
inductive Slot where
  | claimed (n : Nat)
  | written (r : Rec)

/-- The number of bytes of a slot. -/
def Slot.size : Slot → Nat
  | Slot.claimed n => required_record_capacity n
  | Slot.written r => rec_size r

/-- The number of bytes a sequence of slots occupies. -/
def slots_span : List Slot → Nat
  | [] => 0
  | x :: xs => x.size + slots_span xs

/-- The slots `xs` lie back to back in the data region, the first one at
position `p` (index `p % capacity`).  The header word of a claimed slot is still
zero and its payload length is at most `max_msg_length`; the header word of a
written slot holds the type id and the length of its record, and the length is
at least the header length; no slot extends past the end of the data region. -/
def slots_ok (max_msg_length capacity : Nat) (buffer : Buffer) : Nat → List Slot → Prop
  | _, [] => True
  | p, Slot.claimed n :: xs =>
    n ≤ max_msg_length
    ∧ (∀ k, k < 8 → buffer (p % capacity + k) = 0)
    ∧ p % capacity + required_record_capacity n ≤ capacity
    ∧ slots_ok max_msg_length capacity buffer (p + required_record_capacity n) xs
  | p, Slot.written r :: xs =>
    load_u64 buffer (p % capacity) = make_header r.1 r.2
    ∧ r.1 < 4294967296 ∧ 8 ≤ r.2 ∧ r.2 ≤ capacity
    ∧ p % capacity + rec_size r ≤ capacity
    ∧ slots_ok max_msg_length capacity buffer (p + rec_size r) xs

/-- The claims that are not yet committed among the slots `xs`, the first slot
at position `p`: claimed index and payload length, in position order. -/
def claimed_of (capacity : Nat) : Nat → List Slot → List (Nat × Nat)
  | _, [] => []
  | p, Slot.claimed n :: xs =>
    (p % capacity, n) :: claimed_of capacity (p + required_record_capacity n) xs
  | p, Slot.written r :: xs => claimed_of capacity (p + rec_size r) xs

/-- The records at the front of the slots `xs` whose header word is written:
what the consumer can walk before it meets a claimed slot. -/
def written_front : List Slot → List Rec
  | Slot.written r :: xs => r :: written_front xs
  | _ => []

/-- The callback arguments `(type id, payload index, payload length)` of the
data records among the slots `xs`, the first slot at position `p`, in position
order. -/
def deliveries_slots (PAD capacity : Nat) : Nat → List Slot → List (Nat × Nat × Nat)
  | _, [] => []
  | p, Slot.claimed n :: xs =>
    deliveries_slots PAD capacity (p + required_record_capacity n) xs
  | p, Slot.written r :: xs =>
    (if r.1 ≠ PAD then [(r.1, p % capacity + 8, r.2 - 8)] else [])
      ++ deliveries_slots PAD capacity (p + rec_size r) xs

/-- Every written slot that comes after a claimed slot is a padding record. -/
def pads_after_claim (PAD : Nat) : List Slot → Prop
  | [] => True
  | Slot.written _ :: xs => pads_after_claim PAD xs
  | Slot.claimed _ :: xs => ∀ r, Slot.written r ∈ xs → r.1 = PAD

/-- A state of a sequential run: the buffer, the claims that are not yet
committed (claimed index and payload length, in claim order), and two logs kept
for the statements below: the records committed so far `(type id, payload index,
payload length)` in commit order, and the arguments of the callback invocations
made so far, in invocation order. -/
structure RunState where
  buffer : Buffer
  claimed : List (Nat × Nat)
  committed : List (Nat × Nat × Nat)
  delivered : List (Nat × Nat × Nat)

/-- The states of well-formed sequential use of a ring buffer with the given
header, starting from the all-zero buffer.  The producer calls
`try_ring_buffer_sp_claim` (of any size, also while earlier claims are not yet
committed; a failed claim leaves no claim), writes to the payload bytes of any
claim that is not yet committed, and commits such a claim with
`ring_buffer_commit` at its claimed index, with its payload length and a valid
type id; the consumer calls `ring_buffer_batch_read` with any count and
callback, at any point of the producer's sequence.  With `in_order = true` the
producer commits its claims in the order in which it made them; with `in_order =
false` it commits them in any order.  A claim is only attempted while
`producer_position + capacity` is below `2^64`, that is, position words do not
wrap around. -/
inductive Reachable (PAD : Nat) (header : ring_buffer_header) (in_order : Bool) :
    RunState → Prop
  | init : Reachable PAD header in_order ⟨zero_buffer, [], [], []⟩
  | claim (s : RunState) (n x y : Nat) :
      Reachable PAD header in_order s →
      load_producer_position header s.buffer + header.capacity < 18446744073709551616 →
      Reachable PAD header in_order
        ⟨(try_ring_buffer_sp_claim PAD header s.buffer n x y).buffer,
          if (try_ring_buffer_sp_claim PAD header s.buffer n x y).ok = true then
            s.claimed
              ++ [((try_ring_buffer_sp_claim PAD header s.buffer n x y).claimed_index, n)]
          else s.claimed,
          s.committed, s.delivered⟩
  | write (s : RunState) (i n k v : Nat) :
      Reachable PAD header in_order s → (i, n) ∈ s.claimed → k < n →
      Reachable PAD header in_order
        ⟨write_payload s.buffer i k v, s.claimed, s.committed, s.delivered⟩
  | commit (s : RunState) (i n t : Nat) :
      Reachable PAD header in_order s → (i, n) ∈ s.claimed →
      (in_order = true → s.claimed.head? = some (i, n)) →
      check_msg_type_id PAD t = true → t < 4294967296 →
      Reachable PAD header in_order
        ⟨(ring_buffer_commit PAD s.buffer i t n).2, s.claimed.erase (i, n),
          s.committed ++ [(t, i + RECORD_HEADER_LENGTH, n)], s.delivered⟩
  | read {γ : Type} (s : RunState) (fuel count : Nat) (cb : MessageConsumer γ) (context : γ)
      (r : BatchResult γ) :
      Reachable PAD header in_order s → count < 4294967296 →
      ring_buffer_batch_read PAD fuel header s.buffer cb count context = some r →
      Reachable PAD header in_order
        ⟨r.buffer, s.claimed, s.committed, s.delivered ++ r.calls.map Call.triple⟩

/-- The callback arguments `(type id, payload index, payload length)` that
walking the records `rs`, the first one at position `p`, gives rise to. -/
def deliveries_of (PAD capacity : Nat) : Nat → List Rec → List (Nat × Nat × Nat)
  | _, [] => []
  | p, r :: rs =>
    (if r.1 ≠ PAD then [(r.1, p % capacity + 8, r.2 - 8)] else [])
      ++ deliveries_of PAD capacity (p + rec_size r) rs

/-- The invariant of sequential runs, for a given sequence `slots` of the slots
(claimed, committed and padding) that lie between the consumer position and the
producer position: the positions are ordered, bounded and aligned; the slots are
laid out from the consumer position up to the producer position; the bytes from
the producer position up to one capacity past the consumer position are zero;
the claims of the state are the claimed slots; and, when the claims are
committed in claim order, the committed log is the delivered log followed by the
data records among the slots. -/
def run_inv (PAD : Nat) (header : ring_buffer_header) (in_order : Bool) (s : RunState)
    (slots : List Slot) : Prop :=
  load_consumer_cache_position header s.buffer ≤ load_consumer_position header s.buffer
  ∧ load_consumer_position header s.buffer ≤ load_producer_position header s.buffer
  ∧ load_producer_position header s.buffer
      ≤ load_consumer_cache_position header s.buffer + header.capacity
  ∧ load_consumer_position header s.buffer % 8 = 0
  ∧ load_producer_position header s.buffer % 8 = 0
  ∧ slots_ok header.max_msg_length header.capacity s.buffer
      (load_consumer_position header s.buffer) slots
  ∧ (∀ q, load_producer_position header s.buffer ≤ q →
      q < load_consumer_position header s.buffer + header.capacity →
      s.buffer (q % header.capacity) = 0)
  ∧ load_consumer_position header s.buffer + slots_span slots
      = load_producer_position header s.buffer
  ∧ s.claimed = claimed_of header.capacity (load_consumer_position header s.buffer) slots
  ∧ (in_order = true →
      pads_after_claim PAD slots
      ∧ s.committed
        = s.delivered ++ deliveries_slots PAD header.capacity
            (load_consumer_position header s.buffer) slots)

/-- A header as `init_ring_buffer_header` sets it up for a data region of at
least one record header: power-of-two capacity of at least 8 bytes,
`max_msg_length = capacity - RECORD_HEADER_LENGTH`, position words behind the
data region. -/
def header_ok (header : ring_buffer_header) : Prop :=
  header_layout header ∧ capacity_pow2 header ∧ 8 ≤ header.capacity
  ∧ header.max_msg_length + RECORD_HEADER_LENGTH = header.capacity

/-- The producer making `k` consecutive claims of `n` bytes, stopping at the
first that fails: whether all of them succeeded, the buffer afterwards and the
claimed indices, in claim order. -/
def claim_repeat (PAD : Nat) (header : ring_buffer_header) (n : Nat) :
    Nat → Buffer → Bool × Buffer × List Nat
  | 0, buffer => (true, buffer, [])
  | k + 1, buffer =>
    if (try_ring_buffer_sp_claim PAD header buffer n 0 0).ok = true then
      ((claim_repeat PAD header n k
          (try_ring_buffer_sp_claim PAD header buffer n 0 0).buffer).1,
        (claim_repeat PAD header n k
          (try_ring_buffer_sp_claim PAD header buffer n 0 0).buffer).2.1,
        (try_ring_buffer_sp_claim PAD header buffer n 0 0).claimed_index ::
          (claim_repeat PAD header n k
            (try_ring_buffer_sp_claim PAD header buffer n 0 0).buffer).2.2)
    else (false, (try_ring_buffer_sp_claim PAD header buffer n 0 0).buffer, [])

/-- The producer committing the claims at the given indices, in order, each
with type id `t` and payload length `n`: whether every commit returned true,
and the buffer afterwards. -/
def commit_all (PAD t n : Nat) : List Nat → Buffer → Bool × Buffer
  | [], buffer => (true, buffer)
  | i :: rest, buffer =>
    ((ring_buffer_commit PAD buffer i t n).1
        && (commit_all PAD t n rest (ring_buffer_commit PAD buffer i t n).2).1,
      (commit_all PAD t n rest (ring_buffer_commit PAD buffer i t n).2).2)

/-! ## Sample data -/

/-- The header of a ring buffer with a data region of 64 bytes and the position
words at offsets 192, 320 and 448. -/
def sample_header : ring_buffer_header :=
  { max_msg_length := 56, producer_position_index := 192,
    consumer_cache_position_index := 320, consumer_position_index := 448, capacity := 64 }

/-- A buffer holding a padding record of 16 bytes at offset 0 followed by a data
record of type 7 with 16 payload bytes at offset 16 (padding id `0xFFFFFFFF`). -/
def pad_then_data : Buffer :=
  store_u64 (store_u64 zero_buffer 0 (make_header 4294967295 16)) 16 (make_header 7 24)

/-- The buffer with the three position words set to the given values. -/
def buffer_with_positions (header : ring_buffer_header) (buffer : Buffer)
    (producer_position consumer_cache_position consumer_position : Nat) : Buffer :=
  store_release_consumer_position header
    (store_consumer_cache_position header
      (store_release_producer_position header buffer producer_position)
      consumer_cache_position)
    consumer_position

/-- A state of the 64-byte buffer in which the producer is at position 48 and
the consumer (and the producer's cache of it) at position 24. -/
def wrap_state : Buffer := buffer_with_positions sample_header zero_buffer 48 24 24

/-- The header of a ring buffer with a data region of 128 bytes and the position
words at offsets 256, 384 and 512. -/
def sample_header_128 : ring_buffer_header :=
  { max_msg_length := 120, producer_position_index := 256,
    consumer_cache_position_index := 384, consumer_position_index := 512, capacity := 128 }

/-- Ten records of type 7 with an empty payload (record length 8), back to
back from offset 0; all three positions are zero. -/
def ten_records : Buffer :=
  (List.range 10).foldl (fun b i => store_u64 b (8 * i) (make_header 7 8)) zero_buffer

/-- A callback that accepts every record and counts its invocations. -/
def accept_all : MessageConsumer Nat := fun _ _ _ _ n => (true, n + 1)

/-- The 64-byte buffer after a successful claim of 16 bytes on the all-zero
buffer. -/
def sample_claimed : Buffer :=
  (try_ring_buffer_sp_claim 4294967295 sample_header zero_buffer 16 0 0).buffer

/-- The buffer `sample_claimed` after the claim has been committed with type
id 7. -/
def sample_committed : Buffer := (ring_buffer_commit 4294967295 sample_claimed 0 7 16).2

/-- The outcome of a batch read of one record on `sample_committed`. -/
def sample_read_result : BatchResult Nat :=
  (ring_buffer_batch_read 4294967295 1 sample_header sample_committed accept_all 1 0).getD
    ⟨0, zero_buffer, 0, []⟩

/-- The state of the run: claim 16 bytes, commit with type id 7, read one
record. -/
def sample_run : RunState :=
  ⟨sample_read_result.buffer, [], [(7, 8, 16)],
    [] ++ sample_read_result.calls.map Call.triple⟩

/-- The second claim of 16 bytes on the 64-byte buffer, after the first record
has been claimed, committed and read. -/
def wrap_claim_2 : ClaimResult :=
  try_ring_buffer_sp_claim 4294967295 sample_header sample_read_result.buffer 16 0 0

/-- The buffer after the second claim has been committed with type id 7 at its
claimed index. -/
def wrap_committed_2 : Buffer :=
  (ring_buffer_commit 4294967295 wrap_claim_2.buffer wrap_claim_2.claimed_index 7 16).2

/-- The outcome of a batch read of one record on `wrap_committed_2`. -/
def wrap_read_2 : BatchResult Nat :=
  (ring_buffer_batch_read 4294967295 1 sample_header wrap_committed_2 accept_all 1 0).getD
    ⟨0, zero_buffer, 0, []⟩

/-- The third claim of 16 bytes, after the second record has been committed and
read. -/
def wrap_claim_3 : ClaimResult :=
  try_ring_buffer_sp_claim 4294967295 sample_header wrap_read_2.buffer 16 0 0

/-- A callback that accepts the first record it is given and rejects every
later one; the context counts the invocations. -/
def accept_first : MessageConsumer Nat := fun _ _ _ _ n => (decide (n = 0), n + 1)

/-- The buffer after the third claim has been committed with type id 7 at its
claimed index. -/
def wrap_committed_3 : Buffer :=
  (ring_buffer_commit 4294967295 wrap_claim_3.buffer wrap_claim_3.claimed_index 7 16).2

/-- The outcome of a batch read of at most two records on `wrap_committed_3`:
the consumer is at index 48 and walks the padding record. -/
def wrap_read_3 : BatchResult Nat :=
  (ring_buffer_batch_read 4294967295 2 sample_header wrap_committed_3 accept_all 2 0).getD
    ⟨0, zero_buffer, 0, []⟩

/-- The outcome of a further batch read of at most two records: the consumer is
at index 0 and reads the third record. -/
def wrap_read_4 : BatchResult Nat :=
  (ring_buffer_batch_read 4294967295 2 sample_header wrap_read_3.buffer accept_all 2 0).getD
    ⟨0, zero_buffer, 0, []⟩

/-- The state of the run in which three records of 16 payload bytes have been
claimed, committed and read one after the other on the 64-byte buffer, but for
the reads that follow the third commit; the third claim wraps. -/
def wrap_run_3 : RunState :=
  ⟨wrap_committed_3, [], [(7, 8, 16), (7, 32, 16), (7, 8, 16)], [(7, 8, 16), (7, 32, 16)]⟩

/-- The state of the run `wrap_run_3` after two more batch reads: everything
committed has been read. -/
def wrap_run : RunState :=
  ⟨wrap_read_4.buffer, [], [(7, 8, 16), (7, 32, 16), (7, 8, 16)],
    [(7, 8, 16), (7, 32, 16), (7, 8, 16)]⟩

/-- The 64-byte buffer after a successful claim of an empty payload (a record
of 8 bytes) on the all-zero buffer. -/
def small_claimed : Buffer :=
  (try_ring_buffer_sp_claim 4294967295 sample_header zero_buffer 0 0 0).buffer

/-- The buffer `small_claimed` after the claim has been committed with type
id 7. -/
def small_committed : Buffer := (ring_buffer_commit 4294967295 small_claimed 0 7 0).2

/-- The outcome of a batch read of one record on `small_committed`. -/
def small_read_result : BatchResult Nat :=
  (ring_buffer_batch_read 4294967295 1 sample_header small_committed accept_all 1 0).getD
    ⟨0, zero_buffer, 0, []⟩

/-- A claim of 56 payload bytes (`max_msg_length` of the 64-byte buffer) after
the 8-byte record has been claimed, committed and read. -/
def refused_claim : ClaimResult :=
  try_ring_buffer_sp_claim 4294967295 sample_header small_read_result.buffer 56 5 6

/-- The buffer after `refused_claim`: the buffer is empty, all three positions
are 8. -/
def empty_at_8 : Buffer := refused_claim.buffer

/-- The outcome of a first claim of 16 payload bytes on the all-zero 64-byte
buffer. -/
def two_claim_1 : ClaimResult :=
  try_ring_buffer_sp_claim 4294967295 sample_header zero_buffer 16 0 0

/-- The outcome of a second claim of 16 payload bytes, made while the first
claim is not yet committed. -/
def two_claim_2 : ClaimResult :=
  try_ring_buffer_sp_claim 4294967295 sample_header two_claim_1.buffer 16 0 0

/-- The buffer after both claims have been committed in claim order, the first
with type id 1 and the second with type id 2. -/
def two_committed : Buffer :=
  (ring_buffer_commit 4294967295
    (ring_buffer_commit 4294967295 two_claim_2.buffer two_claim_1.claimed_index 1 16).2
    two_claim_2.claimed_index 2 16).2

/-- The outcome of a batch read of at most two records on `two_committed`. -/
def two_read_result : BatchResult Nat :=
  (ring_buffer_batch_read 4294967295 2 sample_header two_committed accept_all 2 0).getD
    ⟨0, zero_buffer, 0, []⟩

/-- The state of the run: two claims, then their commits in claim order with
type ids 1 and 2, then one batch read of both records. -/
def two_run : RunState :=
  ⟨two_read_result.buffer, [], [(1, 8, 16), (2, 32, 16)], [(1, 8, 16), (2, 32, 16)]⟩

/-- The header that `init_ring_buffer_header` sets up for the length 516: a data
region of 4 bytes, less than one record header. -/
def tiny_header : ring_buffer_header := (init_ring_buffer_header sample_header 516).2

/-- The outcome of a claim of 4294967287 payload bytes on the all-zero buffer
with the header `tiny_header`. -/
def tiny_claim : ClaimResult :=
  try_ring_buffer_sp_claim 4294967295 tiny_header zero_buffer 4294967287 0 0

/-- The buffer after `tiny_claim` has been committed with type id 7 at its
claimed index. -/
def tiny_committed : Buffer :=
  (ring_buffer_commit 4294967295 tiny_claim.buffer tiny_claim.claimed_index 7 4294967287).2

/-- The outcome of a batch read of at most three records on `tiny_committed`. -/
def tiny_read_result : BatchResult Nat :=
  (ring_buffer_batch_read 4294967295 3 tiny_header tiny_committed accept_all 3 0).getD
    ⟨0, zero_buffer, 0, []⟩

/-- The state of the run on the 4-byte buffer after the claim of 4294967287
payload bytes. -/
def tiny_claimed_state : RunState := ⟨tiny_claim.buffer, [(0, 4294967287)], [], []⟩

/-- The state of the run on the 4-byte buffer after claim and commit. -/
def tiny_committed_state : RunState :=
  ⟨tiny_committed, [], [(7, 8, 4294967287)], []⟩

/-- The state of the run on the 4-byte buffer after claim, commit and one batch
read of at most three records. -/
def tiny_run : RunState :=
  ⟨tiny_read_result.buffer, [], [(7, 8, 4294967287)],
    [(7, 8, 4294967287), (7, 8, 4294967287), (7, 8, 4294967287)]⟩

/-- The outcome of a claim of 4294967288 payload bytes on the all-zero buffer
with the header `tiny_header`. -/
def tiny_claim_8 : ClaimResult :=
  try_ring_buffer_sp_claim 4294967295 tiny_header zero_buffer 4294967288 0 0

/-- The buffer after `tiny_claim_8` has been committed with type id 7 at its
claimed index. -/
def tiny_committed_8 : Buffer :=
  (ring_buffer_commit 4294967295 tiny_claim_8.buffer tiny_claim_8.claimed_index 7
    4294967288).2

/-- A callback that rejects every record; the context counts the invocations. -/
def reject_all : MessageConsumer Nat := fun _ _ _ _ n => (false, n + 1)

/-- The all-zero buffer after a commit at index 0 with type id 7 and payload
length 4294967281: the length field of the header is `0xFFFFFFF9`. -/
def long_record : Buffer := (ring_buffer_commit 4294967295 zero_buffer 0 7 4294967281).2

/-- The outcome of a batch read on `long_record` with the callback
`reject_all`. -/
def long_record_read : BatchResult Nat :=
  (ring_buffer_batch_read 4294967295 1 sample_header long_record reject_all 5 0).getD
    ⟨0, zero_buffer, 0, []⟩

/-- The all-zero buffer after a commit at index 0 with type id 7 and payload
length 504: a record of 512 bytes, which on the 64-byte buffer reaches over the
position words. -/
def wide_record : Buffer := (ring_buffer_commit 4294967295 zero_buffer 0 7 504).2

/-- The outcome of a batch read on `wide_record` with the callback
`reject_all`. -/
def wide_record_read : BatchResult Nat :=
  (ring_buffer_batch_read 4294967295 1 sample_header wide_record reject_all 5 0).getD
    ⟨0, zero_buffer, 0, []⟩

/-- The outcome of a batch read of one record on `tiny_committed_8`. -/
def tiny_read_8 : BatchResult Nat :=
  (ring_buffer_batch_read 4294967295 1 tiny_header tiny_committed_8 accept_all 1 0).getD
    ⟨0, zero_buffer, 0, []⟩

/-! ## Theorems -/

/-! ### Byte memory -/

theorem load_u64_lt (b : Buffer) (i : Nat) : load_u64 b i < 18446744073709551616 := by
  unfold load_u64 load_u8
  omega

theorem load_u64_congr (b1 b2 : Buffer) (j : Nat)
    (h : ∀ k, k < 8 → b1 (j + k) = b2 (j + k)) : load_u64 b1 j = load_u64 b2 j := by
  unfold load_u64 load_u8
  have h0 := h 0 (by omega)
  rw [h 1 (by omega), h 2 (by omega), h 3 (by omega), h 4 (by omega), h 5 (by omega),
    h 6 (by omega), h 7 (by omega)]
  simp only [Nat.add_zero] at h0
  rw [h0]

theorem store_u64_apply_out (b : Buffer) (i v a : Nat) (h : a < i ∨ i + 8 ≤ a) :
    store_u64 b i v a = b a := by
  unfold store_u64
  rw [if_neg]
  omega

theorem load_u64_store_u64_disj (b : Buffer) (i v j : Nat) (h : j + 8 ≤ i ∨ i + 8 ≤ j) :
    load_u64 (store_u64 b i v) j = load_u64 b j := by
  apply load_u64_congr
  intro k hk
  apply store_u64_apply_out
  omega

theorem load_u64_store_u64_same (b : Buffer) (i v : Nat) :
    load_u64 (store_u64 b i v) i = u64 v := by
  unfold load_u64 load_u8 store_u64 u64
  have e0 : i - i = 0 := by omega
  have e1 : i + 1 - i = 1 := by omega
  have e2 : i + 2 - i = 2 := by omega
  have e3 : i + 3 - i = 3 := by omega
  have e4 : i + 4 - i = 4 := by omega
  have e5 : i + 5 - i = 5 := by omega
  have e6 : i + 6 - i = 6 := by omega
  have e7 : i + 7 - i = 7 := by omega
  simp only [e0, e1, e2, e3, e4, e5, e6, e7]
  norm_num
  omega

theorem memset_apply_out (b : Buffer) (start value n a : Nat)
    (h : a < start ∨ start + n ≤ a) : memset b start value n a = b a := by
  unfold memset
  rw [if_neg]
  omega

theorem memset_apply_in (b : Buffer) (start n a : Nat)
    (h : start ≤ a ∧ a < start + n) : memset b start 0 n a = 0 := by
  unfold memset
  rw [if_pos h]

theorem load_u64_memset_disj (b : Buffer) (start value n j : Nat)
    (h : j + 8 ≤ start ∨ start + n ≤ j) :
    load_u64 (memset b start value n) j = load_u64 b j := by
  apply load_u64_congr
  intro k hk
  apply memset_apply_out
  omega

theorem load_u64_zero (b : Buffer) (j : Nat) (h : ∀ k, k < 8 → b (j + k) = 0) :
    load_u64 b j = 0 := by
  unfold load_u64 load_u8
  have h0 := h 0 (by omega)
  simp only [Nat.add_zero] at h0
  rw [h0, h 1 (by omega), h 2 (by omega), h 3 (by omega), h 4 (by omega), h 5 (by omega),
    h 6 (by omega), h 7 (by omega)]

/-! ### Oversized claims and reserved type ids -/

theorem try_ring_buffer_sp_claim_oversized (PAD : Nat) (header : ring_buffer_header)
    (buffer : Buffer) (required_capacity claimed_position claimed_index : Nat)
    (h : required_capacity > header.max_msg_length) :
    try_ring_buffer_sp_claim PAD header buffer required_capacity claimed_position
      claimed_index = ⟨false, buffer, claimed_position, claimed_index⟩ := by
  unfold try_ring_buffer_sp_claim
  rw [if_pos h]

/-- C6: a claim of more than `max_msg_length` bytes returns false and modifies
nothing: the three position words, every byte of the buffer and the out
parameters `claimed_position` / `claimed_index` keep their values. -/
theorem claim_oversized_rejected (PAD : Nat) (header : ring_buffer_header) (buffer : Buffer)
    (required_capacity claimed_position claimed_index : Nat)
    (h : required_capacity > header.max_msg_length) :
    (try_ring_buffer_sp_claim PAD header buffer required_capacity claimed_position
        claimed_index).ok = false
    ∧ load_producer_position header
        (try_ring_buffer_sp_claim PAD header buffer required_capacity claimed_position
          claimed_index).buffer = load_producer_position header buffer
    ∧ load_consumer_position header
        (try_ring_buffer_sp_claim PAD header buffer required_capacity claimed_position
          claimed_index).buffer = load_consumer_position header buffer
    ∧ load_consumer_cache_position header
        (try_ring_buffer_sp_claim PAD header buffer required_capacity claimed_position
          claimed_index).buffer = load_consumer_cache_position header buffer
    ∧ (∀ i, (try_ring_buffer_sp_claim PAD header buffer required_capacity claimed_position
        claimed_index).buffer i = buffer i)
    ∧ (try_ring_buffer_sp_claim PAD header buffer required_capacity claimed_position
        claimed_index).claimed_position = claimed_position
    ∧ (try_ring_buffer_sp_claim PAD header buffer required_capacity claimed_position
        claimed_index).claimed_index = claimed_index := by
  rw [try_ring_buffer_sp_claim_oversized PAD header buffer required_capacity claimed_position
    claimed_index h]
  exact ⟨rfl, rfl, rfl, rfl, fun _ => rfl, rfl, rfl⟩

/-- C7: `ring_buffer_commit` returns false and leaves every byte of the buffer
as it was when the type id is 0 or the padding id; it returns true for every
other type id. -/
theorem commit_rejects_reserved_type_ids (PAD : Nat) (buffer : Buffer)
    (msg_index msg_type_id msg_content_length : Nat) :
    ((msg_type_id = 0 ∨ msg_type_id = PAD) →
      (ring_buffer_commit PAD buffer msg_index msg_type_id msg_content_length).1 = false
      ∧ (∀ i, (ring_buffer_commit PAD buffer msg_index msg_type_id msg_content_length).2 i
            = buffer i)
      ∧ load_u64 (ring_buffer_commit PAD buffer msg_index msg_type_id msg_content_length).2
            msg_index = load_u64 buffer msg_index)
    ∧ (¬ (msg_type_id = 0 ∨ msg_type_id = PAD) →
      (ring_buffer_commit PAD buffer msg_index msg_type_id msg_content_length).1 = true) := by
  constructor
  · intro h
    have hc : check_msg_type_id PAD msg_type_id = false := by
      unfold check_msg_type_id
      rcases h with h | h
      · subst h; simp
      · subst h; simp
    have e : ring_buffer_commit PAD buffer msg_index msg_type_id msg_content_length
        = (false, buffer) := by
      unfold ring_buffer_commit
      simp [hc]
    rw [e]
    exact ⟨rfl, fun _ => rfl, rfl⟩
  · intro h
    have hc : check_msg_type_id PAD msg_type_id = true := by
      unfold check_msg_type_id
      simp only [Bool.and_eq_true, decide_eq_true_eq]
      constructor
      · intro e; exact h (Or.inr e)
      · rcases Nat.eq_zero_or_pos msg_type_id with e | e
        · exact absurd (Or.inl e) h
        · exact e
    unfold ring_buffer_commit
    simp [hc]

/-- Witness of C6: a claim of 57 bytes on a buffer whose `max_msg_length` is 56. -/
theorem claim_oversized_rejected_witness :
    57 > sample_header.max_msg_length
    ∧ (try_ring_buffer_sp_claim 4294967295 sample_header zero_buffer 57 3 5).ok = false
    ∧ (∀ i, (try_ring_buffer_sp_claim 4294967295 sample_header zero_buffer 57 3 5).buffer i
        = zero_buffer i)
    ∧ (try_ring_buffer_sp_claim 4294967295 sample_header zero_buffer 57 3 5).claimed_position
        = 3
    ∧ (try_ring_buffer_sp_claim 4294967295 sample_header zero_buffer 57 3 5).claimed_index
        = 5 :=
  have h := claim_oversized_rejected 4294967295 sample_header zero_buffer 57 3 5 (by decide)
  ⟨by decide, h.1, h.2.2.2.2.1, h.2.2.2.2.2.1, h.2.2.2.2.2.2⟩

/-- Witness of C7: committing with the padding id is refused, committing with
type id 7 is accepted. -/
theorem commit_rejects_reserved_type_ids_witness :
    (ring_buffer_commit 4294967295 zero_buffer 0 4294967295 16).1 = false
    ∧ (ring_buffer_commit 4294967295 zero_buffer 0 7 16).1 = true :=
  ⟨((commit_rejects_reserved_type_ids 4294967295 zero_buffer 0 4294967295 16).1
      (Or.inr rfl)).1,
    (commit_rejects_reserved_type_ids 4294967295 zero_buffer 0 7 16).2 (by decide)⟩

/-! ### The batch read loop -/

theorem batch_read_loop_of_not_guard {γ : Type} (PAD : Nat) (buffer : Buffer)
    (cb : MessageConsumer γ) (ci rem count fuel : Nat) (s : BatchLoop γ)
    (h : batch_read_guard rem count s = false) :
    batch_read_loop PAD buffer cb ci rem count fuel s = s := by
  cases fuel with
  | zero => rfl
  | succ n => simp [batch_read_loop, h]

theorem batch_read_body_calls_ok {γ : Type} (PAD : Nat) (buffer : Buffer)
    (cb : MessageConsumer γ) (ci rem count : Nat) (s : BatchLoop γ)
    (hcount : count < 4294967296)
    (hg : batch_read_guard rem count s = true) (hs : calls_ok PAD count s) :
    calls_ok PAD count (batch_read_body PAD buffer cb ci s) := by
  obtain ⟨h1, h2, h3⟩ := hs
  have hlt : s.msg_read < count := by
    simp only [batch_read_guard, Bool.and_eq_true, decide_eq_true_eq] at hg
    exact hg.2
  unfold batch_read_body
  simp only []
  split
  · exact ⟨h1, h2, h3⟩
  · split
    · rename_i hne
      refine ⟨?_, ?_, ?_⟩
      · intro c hc
        simp only [List.mem_append, List.mem_singleton] at hc
        rcases hc with hc | hc
        · exact h1 c hc
        · subst hc; exact hne
      · simp only [List.length_append, List.length_singleton, u32]
        omega
      · simp only [u32]
        omega
    · exact ⟨h1, h2, h3⟩

theorem batch_read_loop_calls_ok {γ : Type} (PAD : Nat) (buffer : Buffer)
    (cb : MessageConsumer γ) (ci rem count : Nat) (hcount : count < 4294967296) :
    ∀ (fuel : Nat) (s : BatchLoop γ), calls_ok PAD count s →
      calls_ok PAD count (batch_read_loop PAD buffer cb ci rem count fuel s) := by
  intro fuel
  induction fuel with
  | zero => intro s hs; exact hs
  | succ n ih =>
    intro s hs
    unfold batch_read_loop
    split
    · rename_i hg
      exact ih _ (batch_read_body_calls_ok PAD buffer cb ci rem count s hcount hg hs)
    · exact hs

theorem batch_read_body_progress {γ : Type} (PAD : Nat) (buffer : Buffer)
    (cb : MessageConsumer γ) (ci rem count : Nat) (s : BatchLoop γ)
    (hrem : rem ≤ 2147483648) (hb : lengths_bounded buffer)
    (hg : batch_read_guard rem count s = true) :
    (batch_read_body PAD buffer cb ci s).stop = true
    ∨ s.bytes_consumed + 8 ≤ (batch_read_body PAD buffer cb ci s).bytes_consumed := by
  have hlt : s.bytes_consumed < rem := by
    simp only [batch_read_guard, Bool.and_eq_true, decide_eq_true_eq] at hg
    exact hg.1.2
  have hlen := hb (u32 (ci + s.bytes_consumed))
  unfold batch_read_body
  simp only [load_acquire_msg_reader]
  split
  · left; rfl
  · rename_i hpos
    right
    have e : s.bytes_consumed + 8
        ≤ u32 (s.bytes_consumed
            + align (record_length (load_u64 buffer (u32 (ci + s.bytes_consumed))))
                RECORD_ALIGNMENT) := by
      unfold align RECORD_ALIGNMENT u32
      unfold u32 at hlen hpos
      omega
    split
    · exact e
    · exact e

theorem batch_read_loop_terminates {γ : Type} (PAD : Nat) (buffer : Buffer)
    (cb : MessageConsumer γ) (ci rem count : Nat)
    (hrem : rem ≤ 2147483648) (hb : lengths_bounded buffer) :
    ∀ (fuel : Nat) (s : BatchLoop γ), rem ≤ s.bytes_consumed + 8 * fuel →
      batch_read_guard rem count (batch_read_loop PAD buffer cb ci rem count fuel s)
        = false := by
  intro fuel
  induction fuel with
  | zero =>
    intro s hs
    simp only [batch_read_loop, batch_read_guard]
    have : ¬ s.bytes_consumed < rem := by omega
    simp [this]
  | succ n ih =>
    intro s hs
    unfold batch_read_loop
    split
    · rename_i hg
      rcases batch_read_body_progress PAD buffer cb ci rem count s hrem hb hg with h | h
      · have hg2 : batch_read_guard rem count (batch_read_body PAD buffer cb ci s)
            = false := by
          simp [batch_read_guard, h]
        rw [batch_read_loop_of_not_guard PAD buffer cb ci rem count n _ hg2]
        exact hg2
      · apply ih
        omega
    · rename_i hg
      simpa using hg

theorem sub_u32_le_of_pos (capacity x : Nat) (hc : 1 ≤ capacity)
    (hc2 : capacity ≤ 2147483648) :
    sub_u32 capacity (u32 (x &&& sub_u32 capacity 1)) ≤ capacity := by
  have hm : sub_u32 capacity 1 = capacity - 1 := by
    unfold sub_u32 u32; omega
  rw [hm]
  have h1 : x &&& (capacity - 1) ≤ capacity - 1 := Nat.and_le_right
  unfold sub_u32 u32
  omega

/-- C9: padding is neither delivered nor counted.  After any number of
iterations of the loop of `ring_buffer_batch_read`, on any buffer content, no
logged callback invocation carries the padding type id, and the counter
`msg_read` equals the number of invocations and is at most `count`; when the
call returns, its return value is that counter and its log is that log; and the
call does return (with fuel `capacity`) whenever the capacity is in
`[1, 2^31]` and no length field of the buffer exceeds `2^31`. -/
theorem batch_read_padding_not_delivered {γ : Type} (PAD fuel : Nat)
    (header : ring_buffer_header) (buffer : Buffer) (cb : MessageConsumer γ)
    (count : Nat) (context : γ) (hcount : count < 4294967296) :
    (∀ c ∈ (ring_buffer_batch_read_loop PAD fuel header buffer cb count context).calls,
        c.msg_type_id ≠ PAD)
    ∧ (ring_buffer_batch_read_loop PAD fuel header buffer cb count context).msg_read
        = (ring_buffer_batch_read_loop PAD fuel header buffer cb count context).calls.length
    ∧ (ring_buffer_batch_read_loop PAD fuel header buffer cb count context).msg_read ≤ count
    ∧ (∀ r, ring_buffer_batch_read PAD fuel header buffer cb count context = some r →
        (∀ c ∈ r.calls, c.msg_type_id ≠ PAD) ∧ r.msg_read = r.calls.length
        ∧ r.msg_read ≤ count)
    ∧ (1 ≤ header.capacity → header.capacity ≤ 2147483648 → lengths_bounded buffer →
        ∃ r, ring_buffer_batch_read PAD header.capacity header buffer cb count context
          = some r) := by
  have hok : ∀ f, calls_ok PAD count
      (ring_buffer_batch_read_loop PAD f header buffer cb count context) := by
    intro f
    unfold ring_buffer_batch_read_loop
    apply batch_read_loop_calls_ok PAD buffer cb _ _ count hcount
    exact ⟨(by intro c hc; cases hc), rfl, Nat.zero_le _⟩
  refine ⟨(hok fuel).1, (hok fuel).2.1, (hok fuel).2.2, ?_, ?_⟩
  · intro r hr
    unfold ring_buffer_batch_read at hr
    simp only [] at hr
    split at hr
    · cases hr
    · cases hr
      exact hok fuel
  · intro h1 h2 hb
    have hrem := sub_u32_le_of_pos header.capacity (load_consumer_position header buffer) h1 h2
    have ht : batch_read_guard
        (sub_u32 header.capacity
          (u32 (load_consumer_position header buffer &&& sub_u32 header.capacity 1))) count
        (ring_buffer_batch_read_loop PAD header.capacity header buffer cb count context)
          = false := by
      unfold ring_buffer_batch_read_loop
      apply batch_read_loop_terminates PAD buffer cb _ _ count (by omega) hb
      simp only []
      omega
    cases hr : ring_buffer_batch_read PAD header.capacity header buffer cb count context with
    | some r => exact ⟨r, rfl⟩
    | none =>
      exfalso
      unfold ring_buffer_batch_read at hr
      simp [ht] at hr

/-- Witness of C9: a padding record of 16 bytes followed by a data record of
type 7 with 16 payload bytes; one record is delivered and counted. -/
theorem batch_read_padding_not_delivered_witness :
    (5 < 4294967296)
    ∧ (ring_buffer_batch_read 4294967295 3 sample_header pad_then_data accept_all 5 0).map
        (fun r => (r.msg_read,
          r.calls.map (fun c => (c.msg_type_id, c.msg_content_index, c.msg_content_length))))
        = some (1, [(7, 24, 16)])
    ∧ (∀ c ∈ (ring_buffer_batch_read_loop 4294967295 3 sample_header pad_then_data
          accept_all 5 0).calls, c.msg_type_id ≠ 4294967295) :=
  ⟨by decide, by rfl,
    (batch_read_padding_not_delivered 4294967295 3 sample_header pad_then_data accept_all 5 0
      (by decide)).1⟩

/-! ### The claim, in terms of its decisions -/

theorem store_u64_store_u64_same (b : Buffer) (i v w : Nat) :
    store_u64 (store_u64 b i v) i w = store_u64 b i w := by
  funext a
  unfold store_u64
  split <;> rfl

theorem try_ring_buffer_sp_claim_eq (PAD : Nat) (header : ring_buffer_header)
    (buffer : Buffer) (required_capacity x y : Nat) (hl : header_layout header)
    (hrc : required_capacity ≤ header.max_msg_length) :
    try_ring_buffer_sp_claim PAD header buffer required_capacity x y =
      (if (claim_outcome header.capacity (load_consumer_cache_position header buffer)
            (load_consumer_position header buffer) (load_producer_position header buffer)
            (required_record_capacity required_capacity)).ok = true then
        (if (claim_outcome header.capacity (load_consumer_cache_position header buffer)
            (load_consumer_position header buffer) (load_producer_position header buffer)
            (required_record_capacity required_capacity)).padding ≠ 0 then
          ⟨true,
            store_release_msg_header
              (store_release_producer_position header
                (if (claim_outcome header.capacity (load_consumer_cache_position header buffer)
                    (load_consumer_position header buffer)
                    (load_producer_position header buffer)
                    (required_record_capacity required_capacity)).refreshed = true then
                  store_consumer_cache_position header buffer
                    (load_consumer_position header buffer)
                else buffer)
                (u64 (load_producer_position header buffer
                  + required_record_capacity required_capacity
                  + (claim_outcome header.capacity (load_consumer_cache_position header buffer)
                    (load_consumer_position header buffer)
                    (load_producer_position header buffer)
                    (required_record_capacity required_capacity)).padding)))
              (u32 (load_producer_position header buffer &&& sub_u32 header.capacity 1))
              (make_header PAD
                (claim_outcome header.capacity (load_consumer_cache_position header buffer)
                    (load_consumer_position header buffer)
                    (load_producer_position header buffer)
                    (required_record_capacity required_capacity)).padding),
            u64 (load_producer_position header buffer
              + (claim_outcome header.capacity (load_consumer_cache_position header buffer)
                    (load_consumer_position header buffer)
                    (load_producer_position header buffer)
                    (required_record_capacity required_capacity)).padding),
            u32 (u64 (load_producer_position header buffer
              + (claim_outcome header.capacity (load_consumer_cache_position header buffer)
                    (load_consumer_position header buffer)
                    (load_producer_position header buffer)
                    (required_record_capacity required_capacity)).padding)
              &&& sub_u32 header.capacity 1)⟩
        else
          ⟨true,
            store_release_producer_position header
              (if (claim_outcome header.capacity (load_consumer_cache_position header buffer)
                  (load_consumer_position header buffer)
                  (load_producer_position header buffer)
                  (required_record_capacity required_capacity)).refreshed = true then
                store_consumer_cache_position header buffer
                  (load_consumer_position header buffer)
              else buffer)
              (u64 (load_producer_position header buffer
                + required_record_capacity required_capacity
                + (claim_outcome header.capacity (load_consumer_cache_position header buffer)
                  (load_consumer_position header buffer)
                  (load_producer_position header buffer)
                  (required_record_capacity required_capacity)).padding)),
            load_producer_position header buffer,
            u32 (load_producer_position header buffer &&& sub_u32 header.capacity 1)⟩)
      else
        ⟨false,
          (if (claim_outcome header.capacity (load_consumer_cache_position header buffer)
              (load_consumer_position header buffer) (load_producer_position header buffer)
              (required_record_capacity required_capacity)).refreshed = true then
            store_consumer_cache_position header buffer (load_consumer_position header buffer)
          else buffer), x, y⟩) := by
  obtain ⟨h1, h2, h3⟩ := hl
  have hcp : ∀ v, load_u64 (store_u64 buffer header.consumer_cache_position_index v)
      header.consumer_position_index = load_u64 buffer header.consumer_position_index := by
    intro v
    apply load_u64_store_u64_disj
    omega
  unfold try_ring_buffer_sp_claim
  rw [if_neg (by omega)]
  unfold claim_outcome try_claim_when_full try_claim_when_need_pad
    try_acquire_from_start_of_buffer
  simp only [load_acquire_consumer_position, load_consumer_position,
    store_consumer_cache_position, load_consumer_cache_position, load_producer_position]
  by_cases hf : required_record_capacity required_capacity
      > sub_u32 header.capacity (u32 (sub_u64 (load_u64 buffer header.producer_position_index)
          (load_u64 buffer header.consumer_cache_position_index)))
  · by_cases hf2 : required_record_capacity required_capacity
        > sub_u32 header.capacity (u32 (sub_u64 (load_u64 buffer header.producer_position_index)
            (load_u64 buffer header.consumer_position_index)))
    · simp [hf, hf2]
    · by_cases hu : required_record_capacity required_capacity
          > sub_u32 header.capacity
              (u32 (load_u64 buffer header.producer_position_index &&& sub_u32 header.capacity 1))
      · by_cases hc : required_record_capacity required_capacity
            > u32 (load_u64 buffer header.consumer_position_index &&& sub_u32 header.capacity 1)
        · simp [hf, hf2, hu, hc, hcp]
        · simp [hf, hf2, hu, hc, hcp]
      · simp [hf, hf2, hu]
  · by_cases hu : required_record_capacity required_capacity
        > sub_u32 header.capacity
            (u32 (load_u64 buffer header.producer_position_index &&& sub_u32 header.capacity 1))
    · by_cases hc : required_record_capacity required_capacity
          > u32 (load_u64 buffer header.consumer_cache_position_index
              &&& sub_u32 header.capacity 1)
      · by_cases hc2 : required_record_capacity required_capacity
            > u32 (load_u64 buffer header.consumer_position_index &&& sub_u32 header.capacity 1)
        · simp [hf, hu, hc, hc2]
        · simp [hf, hu, hc, hc2]
      · simp [hf, hu, hc]
    · simp [hf, hu]

/-! ### Arithmetic of a power-of-two capacity -/

theorem pow2_bounds (cap : Nat) (h : ∃ k, k ≤ 31 ∧ cap = 2 ^ k) :
    1 ≤ cap ∧ cap ≤ 2147483648 := by
  obtain ⟨k, hk, rfl⟩ := h
  constructor
  · exact Nat.one_le_two_pow
  · calc 2 ^ k ≤ 2 ^ 31 := Nat.pow_le_pow_right (by decide) hk
      _ = 2147483648 := by norm_num

theorem index_eq_mod (cap x : Nat) (h : ∃ k, k ≤ 31 ∧ cap = 2 ^ k) :
    u32 (x &&& sub_u32 cap 1) = x % cap := by
  have hb := pow2_bounds cap h
  obtain ⟨k, hk, rfl⟩ := h
  have hm : sub_u32 (2 ^ k) 1 = 2 ^ k - 1 := by
    unfold sub_u32 u32; omega
  rw [hm, Nat.and_pow_two_sub_one_eq_mod]
  have : x % 2 ^ k < 2 ^ k := Nat.mod_lt _ (by omega)
  unfold u32
  omega

theorem mul_div_add_mod_le (cap q c : Nat) (h : cap * q ≤ c) : cap * q + c % cap ≤ c := by
  rcases Nat.eq_zero_or_pos cap with h0 | h0
  · subst h0; simp
  · have h1 : q ≤ c / cap := (Nat.le_div_iff_mul_le h0).2 (by rw [Nat.mul_comm] at h; exact h)
    have h2 : cap * q ≤ cap * (c / cap) := Nat.mul_le_mul_left cap h1
    have h3 := Nat.div_add_mod c cap
    omega

theorem claim_outcome_bound (cap ccp cp pp S : Nat) (hpow : ∃ k, k ≤ 31 ∧ cap = 2 ^ k)
    (h1 : ccp ≤ cp) (h2 : cp ≤ pp) (h3 : pp ≤ ccp + cap) (hpp : pp < 18446744073709551616)
    (hok : (claim_outcome cap ccp cp pp S).ok = true) :
    pp + S + (claim_outcome cap ccp cp pp S).padding ≤ cp + cap := by
  have hb := pow2_bounds cap hpow
  have e1 : u32 (sub_u64 pp ccp) = pp - ccp := by unfold sub_u64 u64 u32; omega
  have e2 : u32 (sub_u64 pp cp) = pp - cp := by unfold sub_u64 u64 u32; omega
  have e3 : sub_u32 cap (pp - ccp) = cap - (pp - ccp) := by unfold sub_u32 u32; omega
  have e4 : sub_u32 cap (pp - cp) = cap - (pp - cp) := by unfold sub_u32 u32; omega
  have hpi : pp % cap < cap := Nat.mod_lt _ (by omega)
  have e5 : sub_u32 cap (pp % cap) = cap - pp % cap := by unfold sub_u32 u32; omega
  have hdm := Nat.div_add_mod pp cap
  unfold claim_outcome at hok ⊢
  simp only [index_eq_mod cap _ hpow, e1, e2, e3, e4, e5, decide_eq_true_eq] at hok ⊢
  have hw : ∀ c, cap * (pp / cap) ≤ c → cap * (pp / cap) + c % cap ≤ c :=
    fun c => mul_div_add_mod_le cap (pp / cap) c
  have hw1 := hw ccp
  have hw2 := hw cp
  by_cases hA : S > cap - (pp - ccp) <;> by_cases hB : S > cap - (pp - cp) <;>
    by_cases hU : S > cap - pp % cap <;> by_cases hC : S > ccp % cap <;>
    by_cases hD : S > cp % cap <;>
    simp only [hA, hB, hU, hC, hD, if_true, if_false, and_self, and_true, and_false,
      true_and, false_and, not_true_eq_false, not_false_eq_true, ite_true, ite_false,
      Bool.false_eq_true] at hok ⊢ <;>
    omega
theorem producer_index_lt (header : ring_buffer_header) (x : Nat)
    (hp : capacity_pow2 header) : u32 (x &&& sub_u32 header.capacity 1) < header.capacity := by
  rw [index_eq_mod header.capacity x hp]
  exact Nat.mod_lt _ (pow2_bounds header.capacity hp).1

theorem u64_load_u64 (b : Buffer) (i : Nat) : u64 (load_u64 b i) = load_u64 b i := by
  have := load_u64_lt b i
  unfold u64
  omega

theorem u64_u64 (x : Nat) : u64 (u64 x) = u64 x := by
  unfold u64; omega

theorem try_ring_buffer_sp_claim_frame (PAD : Nat) (header : ring_buffer_header)
    (buffer : Buffer) (required_capacity x y : Nat) (r : ClaimResult) (o : ClaimOutcome)
    (hl : header_layout header) (hp : capacity_pow2 header)
    (hrc : required_capacity ≤ header.max_msg_length)
    (hr : r = try_ring_buffer_sp_claim PAD header buffer required_capacity x y)
    (ho : o = claim_outcome header.capacity (load_consumer_cache_position header buffer)
      (load_consumer_position header buffer) (load_producer_position header buffer)
      (required_record_capacity required_capacity)) :
    r.ok = o.ok
    ∧ load_consumer_position header r.buffer = load_consumer_position header buffer
    ∧ load_producer_position header r.buffer
        = (if o.ok = true then
            u64 (load_producer_position header buffer
              + required_record_capacity required_capacity + o.padding)
          else load_producer_position header buffer)
    ∧ load_consumer_cache_position header r.buffer
        = (if o.refreshed = true then load_consumer_position header buffer
          else load_consumer_cache_position header buffer)
    ∧ (∀ i, i < header.capacity + 8 →
        r.buffer i = (if o.ok = true ∧ o.padding ≠ 0
            ∧ load_producer_position header buffer % header.capacity ≤ i
            ∧ i < load_producer_position header buffer % header.capacity + 8 then
          store_u64 buffer (load_producer_position header buffer % header.capacity)
            (make_header PAD o.padding) i
          else buffer i)) := by
  have hpi := producer_index_lt header (load_producer_position header buffer) hp
  have hpie := index_eq_mod header.capacity (load_producer_position header buffer) hp
  obtain ⟨h1, h2, h3⟩ := hl
  rw [try_ring_buffer_sp_claim_eq PAD header buffer required_capacity x y ⟨h1, h2, h3⟩ hrc,
    ← ho] at hr
  rw [hpie] at hr hpi
  simp only [load_producer_position] at hpi
  simp only [store_release_msg_header, store_release_producer_position,
    store_consumer_cache_position] at hr
  by_cases hok : o.ok = true <;> by_cases hpad : o.padding = 0 <;>
    by_cases href : o.refreshed = true <;>
    simp only [hok, hpad, href, if_true, if_false, ite_true, ite_false, not_true_eq_false,
      not_false_eq_true, true_and, false_and, Bool.false_eq_true, ne_eq] at hr ⊢ <;>
    subst hr <;>
    simp only [load_consumer_position, load_producer_position, load_consumer_cache_position]
  all_goals
    refine ⟨trivial, ?_, ?_, ?_, ?_⟩
  all_goals
    first
    | (intro i hi
       simp only [store_u64]
       split_ifs <;> first | rfl | omega)
    | (intro i hi; trivial)
    | (repeat (first
        | rw [load_u64_store_u64_same]
        | rw [load_u64_store_u64_disj _ _ _ _ (by omega)])
       try simp only [u64_u64, u64_load_u64])
/-! ### The occupancy bound -/

/-- C2: `try_ring_buffer_sp_claim` preserves the occupancy bound.  In a state
with a power-of-two capacity and `consumer_cache_position ≤ consumer_position ≤
producer_position ≤ consumer_cache_position + capacity`, after the call
(whatever it returns, for every `required_capacity`)
`producer_position - consumer_position ≤ capacity`, both as a difference of
natural numbers and as the wrapping `uint64_t` difference. -/
theorem claim_preserves_occupancy_bound (PAD : Nat) (header : ring_buffer_header)
    (buffer : Buffer) (required_capacity x y : Nat)
    (hl : header_layout header) (hp : capacity_pow2 header)
    (h1 : load_consumer_cache_position header buffer ≤ load_consumer_position header buffer)
    (h2 : load_consumer_position header buffer ≤ load_producer_position header buffer)
    (h3 : load_producer_position header buffer
      ≤ load_consumer_cache_position header buffer + header.capacity) :
    load_producer_position header
        (try_ring_buffer_sp_claim PAD header buffer required_capacity x y).buffer
      - load_consumer_position header
        (try_ring_buffer_sp_claim PAD header buffer required_capacity x y).buffer
      ≤ header.capacity
    ∧ sub_u64
        (load_producer_position header
          (try_ring_buffer_sp_claim PAD header buffer required_capacity x y).buffer)
        (load_consumer_position header
          (try_ring_buffer_sp_claim PAD header buffer required_capacity x y).buffer)
      ≤ header.capacity := by
  have hb := pow2_bounds header.capacity hp
  have hpp := load_u64_lt buffer header.producer_position_index
  have hcp := load_u64_lt buffer header.consumer_position_index
  by_cases hrc : required_capacity > header.max_msg_length
  · rw [try_ring_buffer_sp_claim_oversized PAD header buffer required_capacity x y hrc]
    simp only [load_producer_position, load_consumer_position, load_consumer_cache_position,
      sub_u64, u64] at *
    omega
  · have hf := try_ring_buffer_sp_claim_frame PAD header buffer required_capacity x y _ _ hl hp
      (by omega) rfl rfl
    rw [hf.2.1, hf.2.2.1]
    split
    · rename_i hok
      have hbd := claim_outcome_bound header.capacity _ _ _
        (required_record_capacity required_capacity) hp h1 h2 h3 hpp hok
      simp only [load_producer_position, load_consumer_position, load_consumer_cache_position,
        sub_u64, u64] at *
      omega
    · simp only [load_producer_position, load_consumer_position, load_consumer_cache_position,
        sub_u64, u64] at *
      omega
theorem sample_header_layout : header_layout sample_header :=
  ⟨by decide, by decide, by decide⟩

theorem sample_header_pow2 : capacity_pow2 sample_header := ⟨6, by decide, by decide⟩

/-- Witness of C2: the 64-byte buffer with the producer at 48 and the consumer
at 24; a claim of 16 bytes pads to the end and leaves the producer at 88. -/
theorem claim_preserves_occupancy_bound_witness :
    load_producer_position sample_header
        (try_ring_buffer_sp_claim 4294967295 sample_header wrap_state 16 0 0).buffer = 88
    ∧ load_consumer_position sample_header
        (try_ring_buffer_sp_claim 4294967295 sample_header wrap_state 16 0 0).buffer = 24
    ∧ load_producer_position sample_header
        (try_ring_buffer_sp_claim 4294967295 sample_header wrap_state 16 0 0).buffer
      - load_consumer_position sample_header
        (try_ring_buffer_sp_claim 4294967295 sample_header wrap_state 16 0 0).buffer
      ≤ sample_header.capacity :=
  ⟨by decide, by decide,
    (claim_preserves_occupancy_bound 4294967295 sample_header wrap_state 16 0 0
      sample_header_layout sample_header_pow2 (by decide) (by decide) (by decide)).1⟩

theorem mod_u64_mod (cap x : Nat) (h : ∃ k, k ≤ 31 ∧ cap = 2 ^ k) :
    u64 x % cap = x % cap := by
  obtain ⟨k, hk, rfl⟩ := h
  unfold u64
  apply Nat.mod_mod_of_dvd
  have : (18446744073709551616 : Nat) = 2 ^ 64 := by norm_num
  rw [this]
  exact Nat.pow_dvd_pow 2 (by omega)

theorem add_until_end_mod (cap pp : Nat) (hc : 0 < cap) :
    (pp + (cap - pp % cap)) % cap = 0 := by
  have h1 := Nat.mod_lt pp hc
  have h2 := Nat.div_add_mod pp cap
  have e : pp + (cap - pp % cap) = cap * (pp / cap + 1) := by
    rw [Nat.mul_add, Nat.mul_one]; omega
  rw [e]
  exact Nat.mul_mod_right _ _

theorem make_header_lt (t n : Nat) : make_header t n < 18446744073709551616 := by
  unfold make_header u32
  omega

theorem sub_u32_mod (cap pp : Nat) (h : ∃ k, k ≤ 31 ∧ cap = 2 ^ k) :
    sub_u32 cap (pp % cap) = cap - pp % cap := by
  have hb := pow2_bounds cap h
  have hpi : pp % cap < cap := Nat.mod_lt _ (by omega)
  unfold sub_u32 u32; omega

theorem claim_outcome_padding (cap ccp cp pp S : Nat) (hpow : ∃ k, k ≤ 31 ∧ cap = 2 ^ k)
    (hok : (claim_outcome cap ccp cp pp S).ok = true) :
    (claim_outcome cap ccp cp pp S).padding
      = if S > cap - pp % cap then cap - pp % cap else 0 := by
  unfold claim_outcome at hok ⊢
  simp only [index_eq_mod cap _ hpow, sub_u32_mod cap pp hpow, decide_eq_true_eq] at hok ⊢
  by_cases hA : S > sub_u32 cap (u32 (sub_u64 pp ccp)) <;>
    by_cases hB : S > sub_u32 cap (u32 (sub_u64 pp cp)) <;>
    by_cases hU : S > cap - pp % cap <;> by_cases hC : S > ccp % cap <;>
    by_cases hD : S > cp % cap <;>
    simp only [hA, hB, hU, hC, hD, if_true, if_false, and_self, and_true, and_false,
      true_and, false_and, not_true_eq_false, not_false_eq_true, ite_true, ite_false,
      Bool.false_eq_true] at hok ⊢

theorem try_ring_buffer_sp_claim_outputs (PAD : Nat) (header : ring_buffer_header)
    (buffer : Buffer) (required_capacity x y : Nat) (r : ClaimResult) (o : ClaimOutcome)
    (hl : header_layout header) (hp : capacity_pow2 header)
    (hrc : required_capacity ≤ header.max_msg_length)
    (hr : r = try_ring_buffer_sp_claim PAD header buffer required_capacity x y)
    (ho : o = claim_outcome header.capacity (load_consumer_cache_position header buffer)
      (load_consumer_position header buffer) (load_producer_position header buffer)
      (required_record_capacity required_capacity)) :
    r.claimed_position
        = (if o.ok = true then u64 (load_producer_position header buffer + o.padding) else x)
    ∧ r.claimed_index
        = (if o.ok = true then (load_producer_position header buffer + o.padding)
            % header.capacity else y) := by
  have hpie := index_eq_mod header.capacity (load_producer_position header buffer) hp
  rw [try_ring_buffer_sp_claim_eq PAD header buffer required_capacity x y hl hrc,
    ← ho] at hr
  rw [hpie] at hr
  by_cases hok : o.ok = true <;> by_cases hpad : o.padding = 0 <;>
    simp only [hok, hpad, if_true, if_false, ite_true, ite_false, not_true_eq_false,
      not_false_eq_true, true_and, false_and, Bool.false_eq_true, ne_eq, Nat.add_zero]
      at hr ⊢ <;>
    subst hr <;>
    simp only [load_producer_position, u64_load_u64, index_eq_mod header.capacity _ hp,
      mod_u64_mod header.capacity _ hp, and_self]

/-- C4: wrap padding.  When the record capacity `S` of an admissible claim
exceeds `until_end = capacity - (producer_position & mask)` and the claim
returns true, the header word at the old producer index is
`make_header(RECORD_PADDING_MSG_TYPE_ID, until_end)`, the claimed index is 0,
the claimed position is the old producer position plus `until_end` and the new
producer position is the old one plus `S + until_end` (sums in `uint64_t`; they
are the exact sums when the new producer position is below `2^64`). -/
theorem claim_wrap_padding (PAD : Nat) (header : ring_buffer_header)
    (buffer : Buffer) (required_capacity x y : Nat)
    (hl : header_layout header) (hp : capacity_pow2 header)
    (hrc : required_capacity ≤ header.max_msg_length)
    (hS : required_record_capacity required_capacity
      > header.capacity - (load_producer_position header buffer &&& (header.capacity - 1)))
    (hok : (try_ring_buffer_sp_claim PAD header buffer required_capacity x y).ok = true) :
    load_u64 (try_ring_buffer_sp_claim PAD header buffer required_capacity x y).buffer
        (load_producer_position header buffer &&& (header.capacity - 1))
      = make_header PAD
          (header.capacity - (load_producer_position header buffer &&& (header.capacity - 1)))
    ∧ (try_ring_buffer_sp_claim PAD header buffer required_capacity x y).claimed_index = 0
    ∧ (try_ring_buffer_sp_claim PAD header buffer required_capacity x y).claimed_position
      = u64 (load_producer_position header buffer
          + (header.capacity - (load_producer_position header buffer &&& (header.capacity - 1))))
    ∧ load_producer_position header
        (try_ring_buffer_sp_claim PAD header buffer required_capacity x y).buffer
      = u64 (load_producer_position header buffer
          + required_record_capacity required_capacity
          + (header.capacity - (load_producer_position header buffer &&& (header.capacity - 1))))
    ∧ (load_producer_position header buffer + required_record_capacity required_capacity
          + (header.capacity - (load_producer_position header buffer &&& (header.capacity - 1)))
          < 18446744073709551616 →
        (try_ring_buffer_sp_claim PAD header buffer required_capacity x y).claimed_position
          = load_producer_position header buffer
            + (header.capacity
              - (load_producer_position header buffer &&& (header.capacity - 1)))
        ∧ load_producer_position header
            (try_ring_buffer_sp_claim PAD header buffer required_capacity x y).buffer
          = load_producer_position header buffer
            + required_record_capacity required_capacity
            + (header.capacity
              - (load_producer_position header buffer &&& (header.capacity - 1)))) := by
  have hb := pow2_bounds header.capacity hp
  have hm : sub_u32 header.capacity 1 = header.capacity - 1 := by
    unfold sub_u32 u32; omega
  have hidx := index_eq_mod header.capacity (load_producer_position header buffer) hp
  have hlt : load_producer_position header buffer &&& (header.capacity - 1)
      ≤ header.capacity - 1 := Nat.and_le_right
  rw [hm] at hidx
  have hidx2 : load_producer_position header buffer &&& (header.capacity - 1)
      = load_producer_position header buffer % header.capacity := by
    rw [← hidx]; unfold u32; omega
  rw [hidx2] at hS ⊢
  have hpi : load_producer_position header buffer % header.capacity < header.capacity :=
    Nat.mod_lt _ (by omega)
  have e5 : sub_u32 header.capacity (load_producer_position header buffer % header.capacity)
      = header.capacity - load_producer_position header buffer % header.capacity := by
    unfold sub_u32 u32; omega
  have hf := try_ring_buffer_sp_claim_frame PAD header buffer required_capacity x y _ _ hl hp
      hrc rfl rfl
  rw [hf.1] at hok
  have hpad := claim_outcome_padding header.capacity (load_consumer_cache_position header buffer)
      (load_consumer_position header buffer) (load_producer_position header buffer)
      (required_record_capacity required_capacity) hp hok
  rw [if_pos hS] at hpad
  have hout := try_ring_buffer_sp_claim_outputs PAD header buffer required_capacity x y _ _
    hl hp hrc rfl rfl
  refine ⟨?_, ?_, ?_, ?_, ?_⟩
  · have e : load_u64 (try_ring_buffer_sp_claim PAD header buffer required_capacity x y).buffer
        (load_producer_position header buffer % header.capacity)
        = load_u64 (store_u64 buffer (load_producer_position header buffer % header.capacity)
            (make_header PAD
              (header.capacity - load_producer_position header buffer % header.capacity)))
          (load_producer_position header buffer % header.capacity) := by
      apply load_u64_congr
      intro k hk
      rw [hf.2.2.2.2 _ (by omega), hpad, if_pos]
      exact ⟨hok, by omega, by omega, by omega⟩
    rw [e, load_u64_store_u64_same]
    have := make_header_lt PAD
      (header.capacity - load_producer_position header buffer % header.capacity)
    unfold u64
    omega
  · rw [hout.2, if_pos hok, hpad]
    exact add_until_end_mod _ _ (by omega)
  · rw [hout.1, if_pos hok, hpad]
  · rw [hf.2.2.1, if_pos hok, hpad]
  · intro hno
    rw [hout.1, if_pos hok, hpad, hf.2.2.1, if_pos hok, hpad]
    unfold u64
    omega

/-- Witness of C4: in the 64-byte buffer with the producer at 48 and the
consumer at 24, a claim of 16 bytes (record capacity 24) writes a padding header
of 16 bytes at offset 48 and claims index 0 at position 64. -/
theorem claim_wrap_padding_witness :
    load_u64 (try_ring_buffer_sp_claim 4294967295 sample_header wrap_state 16 0 0).buffer
        (load_producer_position sample_header wrap_state &&& (sample_header.capacity - 1))
      = make_header 4294967295 16
    ∧ (try_ring_buffer_sp_claim 4294967295 sample_header wrap_state 16 0 0).claimed_index = 0
    ∧ (try_ring_buffer_sp_claim 4294967295 sample_header wrap_state 16 0 0).claimed_position
      = 64
    ∧ load_producer_position sample_header
        (try_ring_buffer_sp_claim 4294967295 sample_header wrap_state 16 0 0).buffer = 88 :=
  have h := claim_wrap_padding 4294967295 sample_header wrap_state 16 0 0
    sample_header_layout sample_header_pow2 (by decide) (by decide) (by decide)
  ⟨h.1, h.2.1, h.2.2.1, h.2.2.2.1⟩
/-! ### The batch read loop on laid-out records -/

theorem mod_add_of_lt (cap p d : Nat) (h : p % cap + d < cap) :
    (p + d) % cap = p % cap + d := by
  rw [Nat.add_mod, Nat.mod_eq_of_lt (a := d) (by omega), Nat.mod_eq_of_lt h]

theorem record_length_make_header (t len : Nat) (h : len < 4294967296) :
    record_length (make_header t len) = len := by
  unfold record_length make_header u32
  omega

theorem message_type_id_make_header (t len : Nat) (h : t < 4294967296) :
    message_type_id (make_header t len) = t := by
  unfold message_type_id make_header u32 u64
  omega

theorem rec_size_eq (r : Rec) (h : r.2 ≤ 2147483648) : rec_size r = (r.2 + 7) / 8 * 8 := by
  unfold rec_size align RECORD_ALIGNMENT u32
  omega

theorem batch_read_body_record {γ : Type} (PAD : Nat) (b : Buffer) (cb : MessageConsumer γ)
    (cap cp : Nat) (s : BatchLoop γ) (r : Rec) (hpow : ∃ k, k ≤ 31 ∧ cap = 2 ^ k)
    (hh : load_u64 b ((cp + s.bytes_consumed) % cap) = make_header r.1 r.2)
    (ht : r.1 < 4294967296) (h8 : 8 ≤ r.2) (hlen : r.2 ≤ cap)
    (hfit : cp % cap + s.bytes_consumed < cap) (hmr : s.msg_read + 1 < 4294967296) :
    batch_read_body PAD b cb (cp % cap) s =
      if r.1 ≠ PAD then
        { stop := !(cb r.1 b ((cp + s.bytes_consumed) % cap + 8) (r.2 - 8) s.context).1,
          bytes_consumed := s.bytes_consumed + rec_size r,
          msg_read := s.msg_read + 1,
          context := (cb r.1 b ((cp + s.bytes_consumed) % cap + 8) (r.2 - 8) s.context).2,
          calls := s.calls ++ [⟨r.1, b, (cp + s.bytes_consumed) % cap + 8, r.2 - 8⟩] }
      else { s with bytes_consumed := s.bytes_consumed + rec_size r } := by
  have hb := pow2_bounds cap hpow
  have hidx : u32 (cp % cap + s.bytes_consumed) = (cp + s.bytes_consumed) % cap := by
    rw [mod_add_of_lt cap cp _ hfit]
    unfold u32; omega
  have hsz := rec_size_eq r (by omega)
  unfold batch_read_body
  simp only [load_acquire_msg_reader, hidx, hh, record_length_make_header r.1 r.2 (by omega),
    message_type_id_make_header r.1 r.2 ht]
  rw [if_neg (by omega)]
  have e1 : u32 (s.bytes_consumed + align r.2 RECORD_ALIGNMENT)
      = s.bytes_consumed + rec_size r := by
    unfold rec_size at hsz ⊢
    rw [hsz]; unfold u32; omega
  have e2 : u32 (s.msg_read + 1) = s.msg_read + 1 := by unfold u32; omega
  have e3 : sub_u32 r.2 RECORD_HEADER_LENGTH = r.2 - 8 := by
    unfold sub_u32 u32 RECORD_HEADER_LENGTH; omega
  have hlt : (cp + s.bytes_consumed) % cap < cap := Nat.mod_lt _ (by omega)
  have e4 : u32 ((cp + s.bytes_consumed) % cap + RECORD_HEADER_LENGTH)
      = (cp + s.bytes_consumed) % cap + 8 := by
    unfold u32 RECORD_HEADER_LENGTH; omega
  simp only [e1, e2, e3, e4]

theorem batch_read_body_empty {γ : Type} (PAD : Nat) (b : Buffer) (cb : MessageConsumer γ)
    (cap cp : Nat) (s : BatchLoop γ) (hpow : ∃ k, k ≤ 31 ∧ cap = 2 ^ k)
    (hh : record_length (load_u64 b ((cp + s.bytes_consumed) % cap)) = 0)
    (hfit : cp % cap + s.bytes_consumed < cap) :
    batch_read_body PAD b cb (cp % cap) s = { s with stop := true } := by
  have hb := pow2_bounds cap hpow
  have hidx : u32 (cp % cap + s.bytes_consumed) = (cp + s.bytes_consumed) % cap := by
    rw [mod_add_of_lt cap cp _ hfit]
    unfold u32; omega
  unfold batch_read_body
  simp only [load_acquire_msg_reader, hidx, hh]
  simp
theorem batch_read_guard_false_iff {γ : Type} (rem count : Nat) (s : BatchLoop γ) :
    batch_read_guard rem count s = false
      ↔ (s.stop = true ∨ rem ≤ s.bytes_consumed ∨ count ≤ s.msg_read) := by
  unfold batch_read_guard
  cases hs : s.stop
  · simp only [Bool.not_false, Bool.true_and, Bool.and_eq_false_imp, decide_eq_true_eq,
      decide_eq_false_iff_not, Nat.not_lt, Bool.false_eq_true, false_or]
    constructor
    · intro h; omega
    · intro h h2; omega
  · simp

theorem batch_read_guard_true_iff {γ : Type} (rem count : Nat) (s : BatchLoop γ) :
    batch_read_guard rem count s = true
      ↔ (s.stop = false ∧ s.bytes_consumed < rem ∧ s.msg_read < count) := by
  unfold batch_read_guard
  cases hs : s.stop <;> simp

theorem batch_read_loop_walk {γ : Type} (PAD : Nat) (b : Buffer) (cb : MessageConsumer γ)
    (cap cp count : Nat) (hpow : ∃ k, k ≤ 31 ∧ cap = 2 ^ k) (hcount : count < 4294967296) :
    ∀ (rs : List Rec) (s f : BatchLoop γ),
      f = batch_read_loop PAD b cb (cp % cap) (cap - cp % cap) count rs.length s →
      laid_out cap b (cp + s.bytes_consumed) rs →
      cp % cap + s.bytes_consumed ≤ cap →
      s.msg_read ≤ count →
      ∃ j, j ≤ rs.length
        ∧ f.bytes_consumed = s.bytes_consumed + span (rs.take j)
        ∧ f.calls = s.calls ++ calls_of PAD cap b (cp + s.bytes_consumed) (rs.take j)
        ∧ f.msg_read
            = s.msg_read + (calls_of PAD cap b (cp + s.bytes_consumed) (rs.take j)).length
        ∧ (batch_read_guard (cap - cp % cap) count s = true → rs ≠ [] → 1 ≤ j)
        ∧ (s.stop = false → (∀ t bb i n c, (cb t bb i n c).1 = true) → f.stop = false)
        ∧ (j < rs.length → batch_read_guard (cap - cp % cap) count f = false)
        ∧ cp % cap + f.bytes_consumed ≤ cap := by
  have hb := pow2_bounds cap hpow
  intro rs
  induction rs with
  | nil =>
    intro s f hf _ hfit hmr
    subst hf
    refine ⟨0, Nat.le_refl _, ?_, ?_, ?_, ?_, ?_, ?_, hfit⟩
    · simp [span, batch_read_loop]
    · simp [calls_of, batch_read_loop]
    · simp [calls_of, batch_read_loop]
    · intro _ h; exact absurd rfl h
    · intro h _; exact h
    · intro h; exact absurd h (Nat.lt_irrefl 0)
  | cons r rs ih =>
    intro s f hf hlaid hfit hmr
    subst hf
    obtain ⟨hh, ht, h8, hlen, hns, hrest⟩ := hlaid
    by_cases hg : batch_read_guard (cap - cp % cap) count s = true
    · have hg' := (batch_read_guard_true_iff _ _ _).1 hg
      have hfit' : cp % cap + s.bytes_consumed < cap := by omega
      have hpm := mod_add_of_lt cap cp s.bytes_consumed hfit'
      have hbody := batch_read_body_record PAD b cb cap cp s r hpow hh ht h8 hlen hfit'
        (by omega)
      have hloop : batch_read_loop PAD b cb (cp % cap) (cap - cp % cap) count
          (r :: rs).length s
          = batch_read_loop PAD b cb (cp % cap) (cap - cp % cap) count rs.length
              (batch_read_body PAD b cb (cp % cap) s) := by
        simp only [List.length_cons, batch_read_loop, hg, if_true]
      rw [hloop]
      have hbc : (batch_read_body PAD b cb (cp % cap) s).bytes_consumed
          = s.bytes_consumed + rec_size r := by
        rw [hbody]; split <;> rfl
      have hmr' : (batch_read_body PAD b cb (cp % cap) s).msg_read
          = s.msg_read + (if r.1 ≠ PAD then 1 else 0) := by
        rw [hbody]; split <;> rfl
      have hcalls : (batch_read_body PAD b cb (cp % cap) s).calls
          = s.calls ++ (if r.1 ≠ PAD then
              [(⟨r.1, b, (cp + s.bytes_consumed) % cap + 8, r.2 - 8⟩ : Call)] else []) := by
        rw [hbody]; split <;> simp
      have hstop : (∀ t bb i n c, (cb t bb i n c).1 = true) →
          (batch_read_body PAD b cb (cp % cap) s).stop = false := by
        intro hcb
        rw [hbody]; split
        · simp [hcb]
        · exact hg'.1
      obtain ⟨j, hj, hbcf, hcf, hmf, _, hsf, hef, hfitf⟩ :=
        ih (batch_read_body PAD b cb (cp % cap) s) _ rfl
          (by rw [hbc, ← Nat.add_assoc]; exact hrest)
          (by rw [hbc]; omega)
          (by rw [hmr']; split <;> omega)
      refine ⟨j + 1, by simp only [List.length_cons]; omega, ?_, ?_, ?_, ?_, ?_, ?_,
        hfitf⟩
      · rw [hbcf, hbc]; simp only [List.take_succ_cons, span]; omega
      · rw [hcf, hcalls, hbc]
        simp only [List.take_succ_cons, calls_of, List.append_assoc, Nat.add_assoc]
      · rw [hmf, hmr', hbc]
        simp only [List.take_succ_cons, calls_of, List.length_append, Nat.add_assoc]
        split <;> simp
      · intro _ _; omega
      · intro _ hcb
        exact hsf (hstop hcb) hcb
      · intro hlt
        exact hef (by simp only [List.length_cons] at hlt; omega)
    · have hg' : batch_read_guard (cap - cp % cap) count s = false := by
        simpa using hg
      have hloop : batch_read_loop PAD b cb (cp % cap) (cap - cp % cap) count
          (r :: rs).length s = s := batch_read_loop_of_not_guard _ _ _ _ _ _ _ _ hg'
      rw [hloop]
      refine ⟨0, Nat.zero_le _, ?_, ?_, ?_, ?_, ?_, ?_, hfit⟩
      · simp [span]
      · simp [calls_of]
      · simp [calls_of]
      · intro h; rw [hg'] at h; cases h
      · intro hs _; exact hs
      · intro _; exact hg'

theorem batch_read_loop_add {γ : Type} (PAD : Nat) (b : Buffer) (cb : MessageConsumer γ)
    (ci rem count : Nat) :
    ∀ (m n : Nat) (s : BatchLoop γ),
      batch_read_loop PAD b cb ci rem count (m + n) s
        = batch_read_loop PAD b cb ci rem count n (batch_read_loop PAD b cb ci rem count m s)
    := by
  intro m
  induction m with
  | zero => intro n s; simp [batch_read_loop]
  | succ m ih =>
    intro n s
    rw [show m + 1 + n = (m + n) + 1 by omega]
    by_cases hg : batch_read_guard rem count s = true
    · simp only [batch_read_loop, hg, if_true]
      exact ih n _
    · have hg' : batch_read_guard rem count s = false := by simpa using hg
      simp only [batch_read_loop, hg', Bool.false_eq_true, if_false]
      rw [batch_read_loop_of_not_guard _ _ _ _ _ _ _ _ hg']

theorem batch_read_loop_fuel {γ : Type} (PAD : Nat) (b : Buffer) (cb : MessageConsumer γ)
    (ci rem count m fuel : Nat) (s : BatchLoop γ) (hm : m ≤ fuel)
    (hg : batch_read_guard rem count (batch_read_loop PAD b cb ci rem count m s) = false) :
    batch_read_loop PAD b cb ci rem count fuel s = batch_read_loop PAD b cb ci rem count m s
    := by
  obtain ⟨n, rfl⟩ := Nat.exists_eq_add_of_le hm
  rw [batch_read_loop_add, batch_read_loop_of_not_guard _ _ _ _ _ _ _ _ hg]
theorem batch_read_loop_walk_end {γ : Type} (PAD : Nat) (b : Buffer)
    (cb : MessageConsumer γ) (cap cp count : Nat) (hpow : ∃ k, k ≤ 31 ∧ cap = 2 ^ k)
    (hcount : count < 4294967296) (rs : List Rec) (s f : BatchLoop γ)
    (hf : f = batch_read_loop PAD b cb (cp % cap) (cap - cp % cap) count (rs.length + 1) s)
    (hlaid : laid_out cap b (cp + s.bytes_consumed) rs)
    (hfit : cp % cap + s.bytes_consumed ≤ cap)
    (hmr : s.msg_read ≤ count)
    (hend : s.bytes_consumed + span rs < cap - cp % cap →
        record_length (load_u64 b ((cp + s.bytes_consumed + span rs) % cap)) = 0) :
    ∃ j, j ≤ rs.length
      ∧ batch_read_guard (cap - cp % cap) count f = false
      ∧ f.bytes_consumed = s.bytes_consumed + span (rs.take j)
      ∧ f.calls = s.calls ++ calls_of PAD cap b (cp + s.bytes_consumed) (rs.take j)
      ∧ f.msg_read
          = s.msg_read + (calls_of PAD cap b (cp + s.bytes_consumed) (rs.take j)).length
      ∧ (batch_read_guard (cap - cp % cap) count s = true → rs ≠ [] → 1 ≤ j)
      ∧ (s.stop = false → (∀ t bb i n c, (cb t bb i n c).1 = true) →
          f.stop = true → j = rs.length)
      ∧ cp % cap + f.bytes_consumed ≤ cap := by
  obtain ⟨j, hj, hbc, hcalls, hmsg, h1, hst, hex, hfitf⟩ :=
    batch_read_loop_walk PAD b cb cap cp count hpow hcount rs s _ rfl hlaid hfit hmr
  rw [batch_read_loop_add] at hf
  by_cases hg : batch_read_guard (cap - cp % cap) count
      (batch_read_loop PAD b cb (cp % cap) (cap - cp % cap) count rs.length s) = true
  · have hjl : j = rs.length := by
      by_contra hne
      have := hex (by omega)
      rw [this] at hg
      cases hg
    subst hjl
    have hg' := (batch_read_guard_true_iff _ _ _).1 hg
    rw [List.take_length] at hbc hcalls hmsg
    have hz := hend (by rw [hbc] at hg'; exact hg'.2.1)
    have hbody := batch_read_body_empty PAD b cb cap cp
      (batch_read_loop PAD b cb (cp % cap) (cap - cp % cap) count rs.length s) hpow
      (by rw [hbc, ← Nat.add_assoc]; exact hz) (by omega)
    simp only [batch_read_loop, hg, if_true, hbody] at hf
    subst hf
    refine ⟨rs.length, Nat.le_refl _, ?_, ?_, ?_, ?_, h1, ?_, hfitf⟩
    · simp [batch_read_guard]
    · rw [List.take_length]; exact hbc
    · rw [List.take_length]; exact hcalls
    · rw [List.take_length]; exact hmsg
    · intro _ _ _; trivial
  · have hg' : batch_read_guard (cap - cp % cap) count
        (batch_read_loop PAD b cb (cp % cap) (cap - cp % cap) count rs.length s) = false := by
      simpa using hg
    rw [batch_read_loop_of_not_guard _ _ _ _ _ _ _ _ hg'] at hf
    subst hf
    refine ⟨j, hj, hg', hbc, hcalls, hmsg, h1, ?_, hfitf⟩
    intro hs hcb hstop
    rw [hst hs hcb] at hstop
    cases hstop

theorem ring_buffer_batch_read_records {γ : Type} (PAD fuel : Nat)
    (header : ring_buffer_header) (b : Buffer) (cb : MessageConsumer γ) (count : Nat)
    (context : γ) (rs : List Rec) (cp : Nat)
    (hp : capacity_pow2 header) (hcount : count < 4294967296)
    (hcp : cp = load_consumer_position header b)
    (hlaid : laid_out header.capacity b cp rs)
    (hend : span rs < header.capacity - cp % header.capacity →
      record_length (load_u64 b ((cp + span rs) % header.capacity)) = 0)
    (hfuel : rs.length + 1 ≤ fuel) :
    ∃ j r, j ≤ rs.length
      ∧ ring_buffer_batch_read PAD fuel header b cb count context = some r
      ∧ r.calls = calls_of PAD header.capacity b cp (rs.take j)
      ∧ r.msg_read = r.calls.length
      ∧ r.msg_read ≤ count
      ∧ r.buffer = (if span (rs.take j) ≠ 0 then
          store_release_consumer_position header
            (memset b (cp % header.capacity) 0 (span (rs.take j)))
            (u64 (cp + span (rs.take j)))
          else b)
      ∧ cp % header.capacity + span (rs.take j) ≤ header.capacity
      ∧ (0 < count → rs ≠ [] → 1 ≤ j)
      ∧ ((∀ t bb i n c, (cb t bb i n c).1 = true) →
          j = rs.length ∨ r.msg_read = count
            ∨ span (rs.take j) = header.capacity - cp % header.capacity) := by
  have hb := pow2_bounds header.capacity hp
  have hci : cp % header.capacity < header.capacity := Nat.mod_lt _ (by omega)
  obtain ⟨j, hj, hg, hbc, hcalls, hmr, h1, hst, hfit⟩ :=
    batch_read_loop_walk_end PAD b cb header.capacity cp count hp hcount rs
      { stop := false, bytes_consumed := 0, msg_read := 0, context := context, calls := [] }
      _ rfl (by simpa using hlaid) (by simp only [Nat.add_zero]; omega) (Nat.zero_le _)
      (by simpa using hend)
  have hloop : ring_buffer_batch_read_loop PAD fuel header b cb count context
      = batch_read_loop PAD b cb (cp % header.capacity)
          (header.capacity - cp % header.capacity) count (rs.length + 1)
          { stop := false, bytes_consumed := 0, msg_read := 0, context := context,
            calls := [] } := by
    unfold ring_buffer_batch_read_loop
    simp only [← hcp, index_eq_mod header.capacity _ hp, sub_u32_mod header.capacity _ hp]
    exact batch_read_loop_fuel PAD b cb _ _ count (rs.length + 1) fuel _ hfuel hg
  simp only [Nat.zero_add, List.nil_append, Nat.add_zero] at hbc hcalls hmr
  have hres : ring_buffer_batch_read PAD fuel header b cb count context
      = some ⟨(ring_buffer_batch_read_loop PAD fuel header b cb count context).msg_read,
          (if (ring_buffer_batch_read_loop PAD fuel header b cb count context).bytes_consumed
              ≠ 0 then
            store_release_consumer_position header
              (memset b (cp % header.capacity) 0
                (ring_buffer_batch_read_loop PAD fuel header b cb count context).bytes_consumed)
              (u64 (cp
                + (ring_buffer_batch_read_loop PAD fuel header b cb count
                    context).bytes_consumed))
          else b),
          (ring_buffer_batch_read_loop PAD fuel header b cb count context).context,
          (ring_buffer_batch_read_loop PAD fuel header b cb count context).calls⟩ := by
    have hg2 := hg
    rw [← hloop] at hg2
    unfold ring_buffer_batch_read
    simp only [← hcp, index_eq_mod header.capacity _ hp, sub_u32_mod header.capacity _ hp,
      hg2, Bool.false_eq_true, if_false]
  have hok := batch_read_loop_calls_ok PAD b cb (cp % header.capacity)
    (header.capacity - cp % header.capacity) count hcount (rs.length + 1)
    { stop := false, bytes_consumed := 0, msg_read := 0, context := context, calls := [] }
    ⟨(by intro c hc; cases hc), rfl, Nat.zero_le _⟩
  rw [← hloop] at hbc hcalls hmr hst hfit hok hg
  refine ⟨j, _, hj, hres, ?_, ?_, ?_, ?_, ?_, ?_, ?_⟩
  · exact hcalls
  · simp only [hmr, hcalls]
  · exact hok.2.2
  · simp only [hbc]
  · rw [← hbc]; exact hfit
  · intro hc hne
    apply h1 _ hne
    rw [batch_read_guard_true_iff]
    exact ⟨rfl, by simp only []; omega, hc⟩
  · intro hcb
    rcases (batch_read_guard_false_iff _ _ _).1 hg with h | h | h
    · left; exact hst rfl hcb h
    · right; right; rw [← hbc]; omega
    · right; left
      have := hok.2.2
      simp only []
      omega
/-! ### Positions and indices -/

theorem mod_window_inj (cap w q d : Nat) (hw : w ≤ q) (hq : q < w + cap)
    (hd : w % cap + d < cap) (he : q % cap = w % cap + d) : q = w + d := by
  have hcap : 0 < cap := by omega
  have h1 := Nat.div_add_mod q cap
  have h2 := Nat.div_add_mod w cap
  rcases Nat.lt_trichotomy (q / cap) (w / cap) with h | h | h
  · have := Nat.mul_le_mul_left cap (Nat.succ_le_of_lt h)
    rw [Nat.mul_succ] at this
    omega
  · rw [h] at h1; omega
  · have := Nat.mul_le_mul_left cap (Nat.succ_le_of_lt h)
    rw [Nat.mul_succ] at this
    omega

theorem span_append (xs ys : List Rec) : span (xs ++ ys) = span xs + span ys := by
  induction xs with
  | nil => simp [span]
  | cons x xs ih => rw [List.cons_append]; simp only [span, ih]; omega

theorem span_take_drop (rs : List Rec) (j : Nat) :
    span (rs.take j) + span (rs.drop j) = span rs := by
  rw [← span_append, List.take_append_drop]

theorem laid_out_append (cap : Nat) (b : Buffer) (xs ys : List Rec) :
    ∀ p, laid_out cap b p (xs ++ ys)
      ↔ (laid_out cap b p xs ∧ laid_out cap b (p + span xs) ys) := by
  induction xs with
  | nil => intro p; simp [laid_out, span]
  | cons x xs ih =>
    intro p
    rw [List.cons_append]
    simp only [laid_out, span, ih, ← Nat.add_assoc, and_assoc]

theorem laid_out_drop (cap : Nat) (b : Buffer) (rs : List Rec) (j p : Nat)
    (h : laid_out cap b p rs) : laid_out cap b (p + span (rs.take j)) (rs.drop j) := by
  have := (laid_out_append cap b (rs.take j) (rs.drop j) p).1
    (by rw [List.take_append_drop]; exact h)
  exact this.2

theorem laid_out_take (cap : Nat) (b : Buffer) (rs : List Rec) (j p : Nat)
    (h : laid_out cap b p rs) : laid_out cap b p (rs.take j) := by
  have := (laid_out_append cap b (rs.take j) (rs.drop j) p).1
    (by rw [List.take_append_drop]; exact h)
  exact this.1

theorem calls_of_append (PAD cap : Nat) (b : Buffer) (xs ys : List Rec) :
    ∀ p, calls_of PAD cap b p (xs ++ ys)
      = calls_of PAD cap b p xs ++ calls_of PAD cap b (p + span xs) ys := by
  induction xs with
  | nil => intro p; simp [calls_of, span]
  | cons x xs ih =>
    intro p
    rw [List.cons_append]
    simp only [calls_of, span, ih, ← Nat.add_assoc, List.append_assoc]

theorem rec_size_bounds (r : Rec) (cap : Nat) (hcap : cap ≤ 2147483648)
    (h8 : 8 ≤ r.2) (hlen : r.2 ≤ cap) : 8 ≤ rec_size r ∧ r.2 ≤ rec_size r
      ∧ rec_size r < r.2 + 8 ∧ rec_size r % 8 = 0 := by
  rw [rec_size_eq r (by omega)]
  omega

theorem laid_out_agree (cap : Nat) (b b2 : Buffer) (hcap : cap ≤ 2147483648)
    (rs : List Rec) :
    ∀ p, (∀ q, p ≤ q → q < p + span rs → b2 (q % cap) = b (q % cap)) →
      laid_out cap b p rs → laid_out cap b2 p rs := by
  induction rs with
  | nil => intro p _ _; trivial
  | cons r rs ih =>
    intro p hag h
    obtain ⟨hh, ht, h8, hlen, hns, hrest⟩ := h
    have hsz := rec_size_bounds r cap hcap h8 hlen
    refine ⟨?_, ht, h8, hlen, hns, ?_⟩
    · rw [← hh]
      apply load_u64_congr
      intro k hk
      have e := mod_add_of_lt cap p k (by omega)
      rw [← e]
      apply hag
      · omega
      · simp only [span]; omega
    · apply ih
      · intro q h1 h2
        apply hag
        · omega
        · simp only [span]; omega
      · exact hrest

theorem laid_out_congr_mod (cap : Nat) (b : Buffer) (rs : List Rec) :
    ∀ p p2, p % cap = p2 % cap → laid_out cap b p rs → laid_out cap b p2 rs := by
  induction rs with
  | nil => intro p p2 _ _; trivial
  | cons r rs ih =>
    intro p p2 he h
    obtain ⟨hh, ht, h8, hlen, hns, hrest⟩ := h
    refine ⟨by rw [← he]; exact hh, ht, h8, hlen, by rw [← he]; exact hns, ?_⟩
    apply ih (p + rec_size r)
    · rw [Nat.add_mod, he, ← Nat.add_mod]
    · exact hrest

theorem calls_of_congr_mod (PAD cap : Nat) (b : Buffer) (rs : List Rec) :
    ∀ p p2, p % cap = p2 % cap → calls_of PAD cap b p rs = calls_of PAD cap b p2 rs := by
  induction rs with
  | nil => intro p p2 _; rfl
  | cons r rs ih =>
    intro p p2 he
    simp only [calls_of, he]
    rw [ih (p + rec_size r) (p2 + rec_size r) (by rw [Nat.add_mod, he, ← Nat.add_mod])]
/-! ### The effect of a batch read on the buffer -/

theorem ring_buffer_batch_read_of_loop {γ : Type} (PAD fuel m : Nat)
    (header : ring_buffer_header) (b : Buffer) (cb : MessageConsumer γ) (count : Nat)
    (context : γ) (cp : Nat) (f : BatchLoop γ)
    (hp : capacity_pow2 header)
    (hcp : cp = load_consumer_position header b)
    (hf : f = batch_read_loop PAD b cb (cp % header.capacity)
      (header.capacity - cp % header.capacity) count m
      { stop := false, bytes_consumed := 0, msg_read := 0, context := context, calls := [] })
    (hg : batch_read_guard (header.capacity - cp % header.capacity) count f = false)
    (hfuel : m ≤ fuel) :
    ring_buffer_batch_read PAD fuel header b cb count context
      = some ⟨f.msg_read,
          (if f.bytes_consumed ≠ 0 then
            store_release_consumer_position header
              (memset b (cp % header.capacity) 0 f.bytes_consumed)
              (u64 (cp + f.bytes_consumed))
          else b), f.context, f.calls⟩ := by
  subst hf
  have hloop : ring_buffer_batch_read_loop PAD fuel header b cb count context
      = batch_read_loop PAD b cb (cp % header.capacity)
          (header.capacity - cp % header.capacity) count m
          { stop := false, bytes_consumed := 0, msg_read := 0, context := context,
            calls := [] } := by
    unfold ring_buffer_batch_read_loop
    simp only [← hcp, index_eq_mod header.capacity _ hp, sub_u32_mod header.capacity _ hp]
    exact batch_read_loop_fuel PAD b cb _ _ count m fuel _ hfuel hg
  unfold ring_buffer_batch_read
  simp only [← hcp, index_eq_mod header.capacity _ hp, sub_u32_mod header.capacity _ hp,
    hloop, hg, Bool.false_eq_true, if_false]

theorem read_buffer_frame (header : ring_buffer_header) (b : Buffer) (ci bc v : Nat)
    (hl : header_layout header) (hfit : ci + bc ≤ header.capacity) :
    load_consumer_position header
        (store_release_consumer_position header (memset b ci 0 bc) v) = u64 v
    ∧ load_producer_position header
        (store_release_consumer_position header (memset b ci 0 bc) v)
        = load_producer_position header b
    ∧ load_consumer_cache_position header
        (store_release_consumer_position header (memset b ci 0 bc) v)
        = load_consumer_cache_position header b
    ∧ (∀ i, i < header.capacity + 8 →
        store_release_consumer_position header (memset b ci 0 bc) v i
          = if ci ≤ i ∧ i < ci + bc then 0 else b i) := by
  obtain ⟨h1, h2, h3⟩ := hl
  simp only [load_consumer_position, load_producer_position, load_consumer_cache_position,
    store_release_consumer_position]
  refine ⟨load_u64_store_u64_same _ _ _, ?_, ?_, ?_⟩
  · rw [load_u64_store_u64_disj _ _ _ _ (by omega), load_u64_memset_disj _ _ _ _ _ (by omega)]
  · rw [load_u64_store_u64_disj _ _ _ _ (by omega), load_u64_memset_disj _ _ _ _ _ (by omega)]
  · intro i hi
    rw [store_u64_apply_out _ _ _ _ (by omega)]
    unfold memset
    split <;> rfl

theorem laid_out_after_read (header : ring_buffer_header) (b : Buffer) (cp j v : Nat)
    (rs : List Rec) (hl : header_layout header) (hp : capacity_pow2 header)
    (hlaid : laid_out header.capacity b cp rs) (hspan : span rs ≤ header.capacity)
    (hfit : cp % header.capacity + span (rs.take j) ≤ header.capacity) :
    laid_out header.capacity
      (store_release_consumer_position header
        (memset b (cp % header.capacity) 0 (span (rs.take j))) v)
      (cp + span (rs.take j)) (rs.drop j) := by
  have hb := pow2_bounds header.capacity hp
  have hfr := read_buffer_frame header b (cp % header.capacity) (span (rs.take j)) v hl hfit
  have hsp := span_take_drop rs j
  apply laid_out_agree header.capacity b _ hb.2 _ _ _ (laid_out_drop _ _ _ j _ hlaid)
  intro q hq1 hq2
  have hqm : q % header.capacity < header.capacity := Nat.mod_lt _ (by omega)
  rw [hfr.2.2.2 _ (by omega), if_neg]
  intro hin
  have := mod_window_inj header.capacity cp q (q % header.capacity - cp % header.capacity)
    (by omega) (by omega) (by omega) (by omega)
  omega
/-! ### Bounded batches of equal records -/

theorem span_take_const (S : Nat) (rs : List Rec) (h : ∀ r ∈ rs, rec_size r = S) :
    ∀ j, j ≤ rs.length → span (rs.take j) = j * S := by
  induction rs with
  | nil => intro j hj; simp at hj; subst hj; simp [span]
  | cons r rs ih =>
    intro j hj
    cases j with
    | zero => simp [span]
    | succ j =>
      simp only [List.take_succ_cons, span]
      rw [ih (fun x hx => h x (List.mem_cons_of_mem _ hx)) j
        (by simp only [List.length_cons] at hj; omega), h r (List.mem_cons_self _ _)]
      rw [Nat.succ_mul]; omega

theorem calls_of_length_data (PAD cap : Nat) (b : Buffer) (rs : List Rec)
    (h : ∀ r ∈ rs, r.1 ≠ PAD) : ∀ p, (calls_of PAD cap b p rs).length = rs.length := by
  induction rs with
  | nil => intro p; rfl
  | cons r rs ih =>
    intro p
    simp only [calls_of, List.length_append, List.length_cons,
      ih (fun x hx => h x (List.mem_cons_of_mem _ hx)),
      if_pos (h r (List.mem_cons_self _ _)), List.length_nil]
    omega

theorem batch_read_equal_records {γ : Type} (PAD fuel : Nat) (header : ring_buffer_header)
    (b : Buffer) (cb : MessageConsumer γ) (m : Nat) (context : γ) (rs : List Rec)
    (S cp : Nat) (hl : header_layout header) (hp : capacity_pow2 header)
    (hcp : cp = load_consumer_position header b)
    (hlaid : laid_out header.capacity b cp rs)
    (hdata : ∀ r ∈ rs, r.1 ≠ PAD ∧ rec_size r = S)
    (hk : rs.length * S ≤ header.capacity - cp % header.capacity)
    (hcb : ∀ t bb i n c, (cb t bb i n c).1 = true)
    (hm : m ≤ rs.length) (hfuel : m ≤ fuel) :
    ∃ r, ring_buffer_batch_read PAD fuel header b cb m context = some r
      ∧ r.msg_read = m
      ∧ r.calls = calls_of PAD header.capacity b cp (rs.take m)
      ∧ load_consumer_position header r.buffer = u64 (cp + m * S)
      ∧ laid_out header.capacity r.buffer (cp + m * S) (rs.drop m) := by
  have hb := pow2_bounds header.capacity hp
  have hci : cp % header.capacity < header.capacity := Nat.mod_lt _ (by omega)
  have hmS : m * S ≤ rs.length * S := Nat.mul_le_mul_right S hm
  have hS : rs ≠ [] → 8 ≤ S := by
    intro hne
    cases rs with
    | nil => exact absurd rfl hne
    | cons r rs =>
      obtain ⟨_, _, h8, hlen, _, _⟩ := hlaid
      have := rec_size_bounds r header.capacity hb.2 h8 hlen
      rw [(hdata r (List.mem_cons_self _ _)).2] at this
      exact this.1
  have hmlt : m < 4294967296 := by
    rcases Nat.eq_zero_or_pos m with h0 | h0
    · omega
    · have hne : rs ≠ [] := by
        intro h; rw [h] at hm; simp at hm; omega
      have h8 := hS hne
      have : m * 8 ≤ m * S := Nat.mul_le_mul_left m h8
      omega
  have hlt := laid_out_take header.capacity b rs m cp hlaid
  obtain ⟨j, hj, hbc, hcalls, hmsg, _, hst, hex, hfit⟩ :=
    batch_read_loop_walk PAD b cb header.capacity cp m hp hmlt (rs.take m)
      { stop := false, bytes_consumed := 0, msg_read := 0, context := context, calls := [] }
      _ rfl (by simpa using hlt) (by simp only [Nat.add_zero]; omega) (Nat.zero_le _)
  have hlen : (rs.take m).length = m := by
    rw [List.length_take]; omega
  rw [hlen] at hj hex hbc hcalls hmsg hst hfit
  simp only [Nat.zero_add, List.nil_append, Nat.add_zero, List.take_take] at hbc hcalls hmsg
  have hjm : min j m = j := Nat.min_eq_left hj
  rw [hjm] at hbc hcalls hmsg
  have hsizes : ∀ r ∈ rs, rec_size r = S := fun r hr => (hdata r hr).2
  have hdatas : ∀ r ∈ rs.take j, r.1 ≠ PAD := fun r hr => (hdata r (List.mem_of_mem_take hr)).1
  rw [span_take_const S rs hsizes j (by omega)] at hbc
  rw [calls_of_length_data PAD header.capacity b (rs.take j) hdatas, List.length_take,
    Nat.min_eq_left (by omega)] at hmsg
  have hstop := hst rfl hcb
  have hje : j = m := by
    by_contra hne
    have hg := hex (by omega)
    rcases (batch_read_guard_false_iff _ _ _).1 hg with h | h | h
    · rw [hstop] at h; cases h
    · rw [hbc] at h
      have : (j + 1) * S ≤ m * S := Nat.mul_le_mul_right S (by omega)
      rw [Nat.succ_mul] at this
      have h8 := hS (by intro h0; rw [h0] at hm; simp at hm; omega)
      omega
    · rw [hmsg] at h; omega
  subst hje
  have hg : batch_read_guard (header.capacity - cp % header.capacity) j
      (batch_read_loop PAD b cb (cp % header.capacity)
        (header.capacity - cp % header.capacity) j j
        { stop := false, bytes_consumed := 0, msg_read := 0, context := context,
          calls := [] }) = false := by
    rw [batch_read_guard_false_iff]
    right; right; omega
  have hres := ring_buffer_batch_read_of_loop PAD fuel j header b cb j context cp _ hp hcp
    rfl hg hfuel
  refine ⟨_, hres, hmsg, hcalls, ?_, ?_⟩
  · simp only [hbc]
    split
    · exact (read_buffer_frame header b _ _ _ hl (by omega)).1.trans (u64_u64 _)
    · rename_i h0
      have : j * S = 0 := by
        by_contra hne
        exact h0 hne
      rw [this, Nat.add_zero, hcp, load_consumer_position, u64_load_u64]
  · simp only [hbc]
    split
    · have := laid_out_after_read header b cp j (u64 (cp + j * S)) rs hl hp hlaid
        (by rw [← span_take_const S rs hsizes rs.length (Nat.le_refl _), List.take_length]
              at hk; omega)
        (by rw [span_take_const S rs hsizes j hm]; omega)
      rw [span_take_const S rs hsizes j hm] at this
      exact this
    · rename_i h0
      have h00 : j * S = 0 := by
        by_contra hne
        exact h0 hne
      have := laid_out_drop header.capacity b rs j cp hlaid
      rw [span_take_const S rs hsizes j hm] at this
      exact this
theorem sub_u64_u64_add (cp d : Nat) (hcp : cp < 18446744073709551616)
    (hd : d < 18446744073709551616) : sub_u64 (u64 (cp + d)) cp = d := by
  unfold sub_u64 u64
  omega

/-- C10: bounded batch.  When `rs` are data records of equal record capacity
`S`, laid out back to back from the consumer index, with
`rs.length * S ≤ capacity - (consumer_position & mask)`, and the callback always
returns true, then for every `m ≤ rs.length` a batch read with `count = m`
(and at least `m` iterations of fuel) returns `m`, advances `consumer_position`
by exactly `m * S` and leaves the remaining records laid out at the new
consumer position, so that a second batch read with `count = m2 ≤ rs.length - m`
returns `m2`. -/
theorem bounded_batch {γ : Type} (PAD fuel fuel2 : Nat) (header : ring_buffer_header)
    (b : Buffer) (cb : MessageConsumer γ) (m m2 : Nat) (context : γ) (rs : List Rec)
    (S : Nat) (hl : header_layout header) (hp : capacity_pow2 header)
    (hlaid : laid_out header.capacity b (load_consumer_position header b) rs)
    (hdata : ∀ r ∈ rs, r.1 ≠ PAD ∧ rec_size r = S)
    (hk : rs.length * S
      ≤ header.capacity - load_consumer_position header b % header.capacity)
    (hcb : ∀ t bb i n c, (cb t bb i n c).1 = true)
    (hm : m ≤ rs.length) (hm2 : m2 ≤ rs.length - m)
    (hfuel : m ≤ fuel) (hfuel2 : m2 ≤ fuel2) :
    ∃ r1, ring_buffer_batch_read PAD fuel header b cb m context = some r1
      ∧ r1.msg_read = m
      ∧ sub_u64 (load_consumer_position header r1.buffer) (load_consumer_position header b)
          = m * S
      ∧ laid_out header.capacity r1.buffer (load_consumer_position header b + m * S)
          (rs.drop m)
      ∧ ∃ r2, ring_buffer_batch_read PAD fuel2 header r1.buffer cb m2 r1.context = some r2
          ∧ r2.msg_read = m2 := by
  have hb := pow2_bounds header.capacity hp
  have hcplt := load_u64_lt b header.consumer_position_index
  have hci : load_consumer_position header b % header.capacity < header.capacity :=
    Nat.mod_lt _ (by omega)
  have hmS : m * S ≤ rs.length * S := Nat.mul_le_mul_right S hm
  obtain ⟨r1, hr1, hmsg1, _, hcp1, hlaid1⟩ :=
    batch_read_equal_records PAD fuel header b cb m context rs S _ hl hp rfl hlaid hdata hk
      hcb hm hfuel
  have hmod : load_consumer_position header r1.buffer % header.capacity
      = (load_consumer_position header b + m * S) % header.capacity := by
    rw [hcp1, mod_u64_mod header.capacity _ hp]
  have hk2 : (rs.drop m).length * S
      ≤ header.capacity - load_consumer_position header r1.buffer % header.capacity := by
    rw [hmod, List.length_drop, Nat.sub_mul]
    by_cases hlt : load_consumer_position header b % header.capacity + m * S
        < header.capacity
    · rw [mod_add_of_lt _ _ _ hlt]; omega
    · have hmle := Nat.mod_lt (load_consumer_position header b + m * S)
        (show 0 < header.capacity by omega)
      omega
  obtain ⟨r2, hr2, hmsg2, _, _, _⟩ :=
    batch_read_equal_records PAD fuel2 header r1.buffer cb m2 r1.context (rs.drop m) S _ hl hp
      rfl (laid_out_congr_mod _ _ _ _ _ hmod.symm hlaid1)
      (fun r hr => hdata r (List.mem_of_mem_drop hr)) hk2 hcb
      (by rw [List.length_drop]; exact hm2) hfuel2
  refine ⟨r1, hr1, hmsg1, ?_, hlaid1, r2, hr2, hmsg2⟩
  rw [hcp1]
  apply sub_u64_u64_add
  · exact hcplt
  · omega

theorem sample_header_128_layout : header_layout sample_header_128 :=
  ⟨by decide, by decide, by decide⟩

theorem sample_header_128_pow2 : capacity_pow2 sample_header_128 :=
  ⟨7, by decide, by decide⟩

/-- Witness of C10: ten committed records, a batch of 3 and then 3 more. -/
theorem bounded_batch_witness :
    ∃ r1, ring_buffer_batch_read 4294967295 3 sample_header_128 ten_records accept_all 3 0
        = some r1
      ∧ r1.msg_read = 3
      ∧ sub_u64 (load_consumer_position sample_header_128 r1.buffer)
          (load_consumer_position sample_header_128 ten_records) = 3 * 8
      ∧ laid_out sample_header_128.capacity r1.buffer
          (load_consumer_position sample_header_128 ten_records + 3 * 8)
          ((List.replicate 10 ((7, 8) : Rec)).drop 3)
      ∧ ∃ r2, ring_buffer_batch_read 4294967295 3 sample_header_128 r1.buffer accept_all 3
          r1.context = some r2
          ∧ r2.msg_read = 3 :=
  bounded_batch 4294967295 3 3 sample_header_128 ten_records accept_all 3 3 0
    (List.replicate 10 ((7, 8) : Rec)) 8 sample_header_128_layout sample_header_128_pow2
    (by decide) (by decide) (by decide) (fun _ _ _ _ _ => rfl) (by decide) (by decide)
    (by decide) (by decide)
/-! ### Commit / read round trip -/

theorem and_mask_eq_mod (cap x : Nat) (h : ∃ k, k ≤ 31 ∧ cap = 2 ^ k) :
    x &&& (cap - 1) = x % cap := by
  obtain ⟨k, _, rfl⟩ := h
  exact Nat.and_pow_two_sub_one_eq_mod x k

theorem batch_read_body_calls_prefix {γ : Type} (PAD : Nat) (b : Buffer)
    (cb : MessageConsumer γ) (ci : Nat) (s : BatchLoop γ) :
    ∃ extra, (batch_read_body PAD b cb ci s).calls = s.calls ++ extra := by
  unfold batch_read_body
  simp only []
  split
  · exact ⟨[], by simp⟩
  · split
    · exact ⟨_, rfl⟩
    · exact ⟨[], by simp⟩

theorem batch_read_loop_calls_prefix {γ : Type} (PAD : Nat) (b : Buffer)
    (cb : MessageConsumer γ) (ci rem count : Nat) :
    ∀ (fuel : Nat) (s : BatchLoop γ),
      ∃ extra, (batch_read_loop PAD b cb ci rem count fuel s).calls = s.calls ++ extra := by
  intro fuel
  induction fuel with
  | zero => intro s; exact ⟨[], by simp [batch_read_loop]⟩
  | succ n ih =>
    intro s
    unfold batch_read_loop
    split
    · obtain ⟨e1, h1⟩ := batch_read_body_calls_prefix PAD b cb ci s
      obtain ⟨e2, h2⟩ := ih (batch_read_body PAD b cb ci s)
      exact ⟨e1 ++ e2, by rw [h2, h1, List.append_assoc]⟩
    · exact ⟨[], by simp⟩

/-- C8: commit / read round trip.  For a valid type id `t` and a payload
length `n ≤ max_msg_length`, when a claim of `n` bytes succeeds and returns the
consumer's current index `i`, then after `ring_buffer_commit(buffer, i, t, n)`
the first callback invocation of a batch read with `count ≥ 1` has exactly the
arguments `(t, buffer, i + RECORD_HEADER_LENGTH, n)`; `record_length` and
`message_type_id` invert `make_header(t, n + RECORD_HEADER_LENGTH)`. -/
theorem commit_read_round_trip {γ : Type} (PAD fuel : Nat) (header : ring_buffer_header)
    (buffer : Buffer) (cb : MessageConsumer γ) (count : Nat) (context : γ)
    (t n x y : Nat) (hl : header_layout header) (hp : capacity_pow2 header)
    (hmax : header.max_msg_length + RECORD_HEADER_LENGTH ≤ header.capacity)
    (ht0 : t > 0) (htp : t ≠ PAD) (ht32 : t < 4294967296)
    (hn : n ≤ header.max_msg_length)
    (hok : (try_ring_buffer_sp_claim PAD header buffer n x y).ok = true)
    (hidx : (try_ring_buffer_sp_claim PAD header buffer n x y).claimed_index
      = load_consumer_position header (try_ring_buffer_sp_claim PAD header buffer n x y).buffer
          &&& (header.capacity - 1))
    (hcount : 1 ≤ count) (hfuel : 1 ≤ fuel) :
    (ring_buffer_commit PAD (try_ring_buffer_sp_claim PAD header buffer n x y).buffer
        (try_ring_buffer_sp_claim PAD header buffer n x y).claimed_index t n).1 = true
    ∧ (ring_buffer_batch_read_loop PAD fuel header
        (ring_buffer_commit PAD (try_ring_buffer_sp_claim PAD header buffer n x y).buffer
          (try_ring_buffer_sp_claim PAD header buffer n x y).claimed_index t n).2
        cb count context).calls.head?
      = some ⟨t,
          (ring_buffer_commit PAD (try_ring_buffer_sp_claim PAD header buffer n x y).buffer
            (try_ring_buffer_sp_claim PAD header buffer n x y).claimed_index t n).2,
          (try_ring_buffer_sp_claim PAD header buffer n x y).claimed_index
            + RECORD_HEADER_LENGTH, n⟩
    ∧ (∀ res, ring_buffer_batch_read PAD fuel header
          (ring_buffer_commit PAD (try_ring_buffer_sp_claim PAD header buffer n x y).buffer
            (try_ring_buffer_sp_claim PAD header buffer n x y).claimed_index t n).2
          cb count context = some res →
        res.calls.head?
          = some ⟨t,
            (ring_buffer_commit PAD (try_ring_buffer_sp_claim PAD header buffer n x y).buffer
              (try_ring_buffer_sp_claim PAD header buffer n x y).claimed_index t n).2,
            (try_ring_buffer_sp_claim PAD header buffer n x y).claimed_index
              + RECORD_HEADER_LENGTH, n⟩)
    ∧ record_length (make_header t (n + RECORD_HEADER_LENGTH)) = n + RECORD_HEADER_LENGTH
    ∧ message_type_id (make_header t (n + RECORD_HEADER_LENGTH)) = t := by
  have hb := pow2_bounds header.capacity hp
  have _ := hok
  generalize try_ring_buffer_sp_claim PAD header buffer n x y = r at hidx ⊢
  rw [and_mask_eq_mod header.capacity _ hp] at hidx
  have hilt : r.claimed_index < header.capacity := by
    rw [hidx]; exact Nat.mod_lt _ (by omega)
  have hchk : check_msg_type_id PAD t = true := by
    unfold check_msg_type_id
    simp [htp]; omega
  have hcommit : ring_buffer_commit PAD r.buffer r.claimed_index t n
      = (true, store_u64 r.buffer r.claimed_index (make_header t (n + 8))) := by
    unfold ring_buffer_commit
    simp only [hchk, Bool.not_true, Bool.false_eq_true, if_false, store_release_msg_header,
      RECORD_HEADER_LENGTH]
    have : u32 (n + 8) = n + 8 := by
      unfold u32; unfold RECORD_HEADER_LENGTH at hmax; omega
    rw [this]
  rw [hcommit]
  simp only []
  obtain ⟨h1, h2, h3⟩ := hl
  have hcp : load_consumer_position header
      (store_u64 r.buffer r.claimed_index (make_header t (n + 8)))
      = load_consumer_position header r.buffer := by
    unfold load_consumer_position
    rw [load_u64_store_u64_disj _ _ _ _ (by omega)]
  have hhead : ∀ fuel', 1 ≤ fuel' →
      (ring_buffer_batch_read_loop PAD fuel' header
        (store_u64 r.buffer r.claimed_index (make_header t (n + 8))) cb count
        context).calls.head?
      = some ⟨t, store_u64 r.buffer r.claimed_index (make_header t (n + 8)),
          r.claimed_index + RECORD_HEADER_LENGTH, n⟩ := by
    intro fuel' hf'
    obtain ⟨f, rfl⟩ : ∃ f, fuel' = f + 1 := ⟨fuel' - 1, by omega⟩
    unfold ring_buffer_batch_read_loop
    simp only [hcp, index_eq_mod header.capacity _ hp, sub_u32_mod header.capacity _ hp]
    have hg : batch_read_guard
        (header.capacity - load_consumer_position header r.buffer % header.capacity) count
        ({ stop := false, bytes_consumed := 0, msg_read := 0, context := context,
           calls := [] } : BatchLoop γ) = true := by
      rw [batch_read_guard_true_iff]
      refine ⟨rfl, ?_, ?_⟩
      · simp only []; rw [← hidx]; omega
      · simp only []; omega
    have hbody := batch_read_body_record PAD
      (store_u64 r.buffer r.claimed_index (make_header t (n + 8))) cb header.capacity
      (load_consumer_position header r.buffer)
      { stop := false, bytes_consumed := 0, msg_read := 0, context := context, calls := [] }
      (t, n + 8) hp
      (by simp only [Nat.add_zero]; rw [← hidx, load_u64_store_u64_same]
          have := make_header_lt t (n + 8)
          unfold u64; omega)
      ht32 (by simp) (by simp only []; unfold RECORD_HEADER_LENGTH at hmax; omega)
      (by simp only [Nat.add_zero]; rw [← hidx]; exact hilt) (by simp)
    simp only [batch_read_loop, hg, if_true]
    obtain ⟨extra, hex⟩ := batch_read_loop_calls_prefix PAD
      (store_u64 r.buffer r.claimed_index (make_header t (n + 8))) cb
      (load_consumer_position header r.buffer % header.capacity)
      (header.capacity - load_consumer_position header r.buffer % header.capacity) count f
      (batch_read_body PAD (store_u64 r.buffer r.claimed_index (make_header t (n + 8))) cb
        (load_consumer_position header r.buffer % header.capacity)
        { stop := false, bytes_consumed := 0, msg_read := 0, context := context, calls := [] })
    rw [hex, hbody]
    simp only [if_pos htp, Nat.add_zero, List.nil_append, List.cons_append, List.head?_cons,
      ← hidx, Nat.add_sub_cancel, RECORD_HEADER_LENGTH]
  refine ⟨trivial, hhead fuel hfuel, ?_, ?_, ?_⟩
  · intro res hres
    unfold ring_buffer_batch_read at hres
    simp only [] at hres
    split at hres
    · cases hres
    · cases hres
      exact hhead fuel hfuel
  · apply record_length_make_header
    unfold RECORD_HEADER_LENGTH at hmax ⊢; omega
  · exact message_type_id_make_header t _ ht32

/-- Witness of C8: on the empty 64-byte buffer a claim of 16 bytes is committed
with type id 7 and read back as `(7, 8, 16)`. -/
theorem commit_read_round_trip_witness :
    ((ring_buffer_batch_read_loop 4294967295 1 sample_header
        (ring_buffer_commit 4294967295
          (try_ring_buffer_sp_claim 4294967295 sample_header zero_buffer 16 0 0).buffer
          (try_ring_buffer_sp_claim 4294967295 sample_header zero_buffer 16 0 0).claimed_index
          7 16).2
        accept_all 1 0).calls.head?).map
      (fun c => (c.msg_type_id, c.msg_content_index, c.msg_content_length))
      = some (7, 8, 16) :=
  congrArg (Option.map
      (fun c : Call => (c.msg_type_id, c.msg_content_index, c.msg_content_length)))
    (commit_read_round_trip 4294967295 1 sample_header zero_buffer accept_all 1 0 7 16 0 0
      sample_header_layout sample_header_pow2 (by decide) (by decide) (by decide) (by decide)
      (by decide) (by decide) (by decide) (by decide) (by decide)).2.1

/-! ### The invariant of sequential runs -/

theorem calls_of_triple (PAD cap : Nat) (b : Buffer) (rs : List Rec) :
    ∀ p, (calls_of PAD cap b p rs).map Call.triple = deliveries_of PAD cap p rs := by
  induction rs with
  | nil => intro p; rfl
  | cons r rs ih =>
    intro p
    simp only [calls_of, deliveries_of, List.map_append, ih]
    split <;> rfl

theorem deliveries_of_append (PAD cap : Nat) (xs ys : List Rec) :
    ∀ p, deliveries_of PAD cap p (xs ++ ys)
      = deliveries_of PAD cap p xs ++ deliveries_of PAD cap (p + span xs) ys := by
  induction xs with
  | nil => intro p; simp [deliveries_of, span]
  | cons x xs ih =>
    intro p
    rw [List.cons_append]
    simp only [deliveries_of, span, ih, ← Nat.add_assoc, List.append_assoc]

theorem span_mod8 (cap : Nat) (b : Buffer) (hcap : cap ≤ 2147483648) (rs : List Rec) :
    ∀ p, laid_out cap b p rs → span rs % 8 = 0 := by
  induction rs with
  | nil => intro p _; rfl
  | cons r rs ih =>
    intro p h
    obtain ⟨_, _, h8, hlen, _, hrest⟩ := h
    have := rec_size_bounds r cap hcap h8 hlen
    have := ih _ hrest
    simp only [span]
    omega

theorem span_take_le (rs : List Rec) (j : Nat) : span (rs.take j) ≤ span rs := by
  have := span_take_drop rs j
  omega

theorem required_record_capacity_eq (n cap : Nat) (hcap : cap ≤ 2147483648)
    (hn : n + 8 ≤ cap) :
    required_record_capacity n = (n + 15) / 8 * 8
    ∧ required_record_capacity n = rec_size (0, n + 8) := by
  unfold required_record_capacity rec_size align RECORD_ALIGNMENT RECORD_HEADER_LENGTH u32
  simp only []
  omega

theorem load_u64_zero_buffer (i : Nat) : load_u64 zero_buffer i = 0 := by
  apply load_u64_zero
  intro k _
  rfl

theorem ring_buffer_batch_read_mono {γ : Type} (PAD fuel fuel2 : Nat)
    (header : ring_buffer_header) (b : Buffer) (cb : MessageConsumer γ) (count : Nat)
    (context : γ) (r : BatchResult γ) (hle : fuel ≤ fuel2)
    (hr : ring_buffer_batch_read PAD fuel header b cb count context = some r) :
    ring_buffer_batch_read PAD fuel2 header b cb count context = some r := by
  unfold ring_buffer_batch_read at hr ⊢
  simp only [] at hr ⊢
  split at hr
  · cases hr
  · rename_i hg
    have hg' : batch_read_guard
        (sub_u32 header.capacity
          (u32 (load_consumer_position header b &&& sub_u32 header.capacity 1))) count
        (ring_buffer_batch_read_loop PAD fuel header b cb count context) = false := by
      simpa using hg
    have hl : ring_buffer_batch_read_loop PAD fuel2 header b cb count context
        = ring_buffer_batch_read_loop PAD fuel header b cb count context := by
      unfold ring_buffer_batch_read_loop at hg' ⊢
      exact batch_read_loop_fuel PAD b cb _ _ count fuel fuel2 _ hle hg'
    rw [hl, if_neg hg]
    exact hr

theorem header_ok_facts (header : ring_buffer_header) (hh : header_ok header) :
    8 ≤ header.capacity ∧ header.capacity ≤ 2147483648 ∧ header.capacity % 8 = 0
    ∧ header.max_msg_length + 8 = header.capacity := by
  obtain ⟨_, hp, h8, hmax⟩ := hh
  have hb := pow2_bounds header.capacity hp
  refine ⟨h8, hb.2, ?_, hmax⟩
  obtain ⟨k, hk, he⟩ := hp
  rw [he] at h8 ⊢
  have : 3 ≤ k := by
    by_contra hlt
    have : k ≤ 2 := by omega
    have := Nat.pow_le_pow_right (show 0 < 2 by decide) this
    omega
  obtain ⟨d, rfl⟩ := Nat.exists_eq_add_of_le this
  rw [Nat.pow_add]
  omega

theorem mod_mod8 (cap x : Nat) (hc : cap % 8 = 0) : x % cap % 8 = x % 8 :=
  Nat.mod_mod_of_dvd x (Nat.dvd_of_mod_eq_zero hc)

theorem not_in_consumed (cap cp bc q : Nat) (hfit : cp % cap + bc ≤ cap)
    (h1 : cp + bc ≤ q) (h2 : q < cp + cap) :
    ¬ (cp % cap ≤ q % cap ∧ q % cap < cp % cap + bc) := by
  intro hin
  have := mod_window_inj cap cp q (q % cap - cp % cap) (by omega) h2 (by omega) (by omega)
  omega

theorem in_consumed (cap cp bc q : Nat) (hfit : cp % cap + bc ≤ cap)
    (h1 : cp + cap ≤ q) (h2 : q < cp + bc + cap) :
    cp % cap ≤ q % cap ∧ q % cap < cp % cap + bc := by
  have e : q = cp + (q - cap - cp) + cap := by omega
  have hm : q % cap = cp % cap + (q - cap - cp) := by
    rw [e, Nat.add_mod_right, mod_add_of_lt cap cp _ (by omega)]
    omega
  omega

theorem mod_inj_window (cap w q1 q2 : Nat) (h1 : w ≤ q1) (h2 : q1 < w + cap)
    (h3 : w ≤ q2) (h4 : q2 < w + cap) (he : q1 % cap = q2 % cap) : q1 = q2 := by
  have hcap : 0 < cap := by omega
  have e1 := Nat.div_add_mod q1 cap
  have e2 := Nat.div_add_mod q2 cap
  rcases Nat.lt_trichotomy (q1 / cap) (q2 / cap) with h | h | h
  · have := Nat.mul_le_mul_left cap (Nat.succ_le_of_lt h)
    rw [Nat.mul_succ] at this
    have := Nat.mod_lt q1 hcap
    omega
  · rw [h] at e1; omega
  · have := Nat.mul_le_mul_left cap (Nat.succ_le_of_lt h)
    rw [Nat.mul_succ] at this
    have := Nat.mod_lt q2 hcap
    omega

theorem not_in_slot (cap w p len q : Nat) (hw1 : w ≤ q) (hw2 : q < w + cap)
    (hp1 : w ≤ p) (hp2 : p + len ≤ w + cap) (hfit : p % cap + len ≤ cap)
    (hout : q < p ∨ p + len ≤ q) :
    ¬ (p % cap ≤ q % cap ∧ q % cap < p % cap + len) := by
  intro hin
  have hm := mod_add_of_lt cap p (q % cap - p % cap) (by omega)
  have := mod_inj_window cap w q (p + (q % cap - p % cap)) hw1 hw2 (by omega) (by omega)
    (by rw [hm]; omega)
  omega

theorem claim_outcome_spec (cap ccp cp pp S : Nat) (hpow : ∃ k, k ≤ 31 ∧ cap = 2 ^ k)
    (h1 : ccp ≤ cp) (h2 : cp ≤ pp) (h3 : pp ≤ ccp + cap) (hpp : pp < 18446744073709551616)
    (hok : (claim_outcome cap ccp cp pp S).ok = true) :
    pp + S + (claim_outcome cap ccp cp pp S).padding
      ≤ (if (claim_outcome cap ccp cp pp S).refreshed = true then cp else ccp) + cap := by
  have hb := pow2_bounds cap hpow
  have e1 : u32 (sub_u64 pp ccp) = pp - ccp := by unfold sub_u64 u64 u32; omega
  have e2 : u32 (sub_u64 pp cp) = pp - cp := by unfold sub_u64 u64 u32; omega
  have e3 : sub_u32 cap (pp - ccp) = cap - (pp - ccp) := by unfold sub_u32 u32; omega
  have e4 : sub_u32 cap (pp - cp) = cap - (pp - cp) := by unfold sub_u32 u32; omega
  have hpi : pp % cap < cap := Nat.mod_lt _ (by omega)
  have e5 : sub_u32 cap (pp % cap) = cap - pp % cap := by unfold sub_u32 u32; omega
  have hdm := Nat.div_add_mod pp cap
  unfold claim_outcome at hok ⊢
  simp only [index_eq_mod cap _ hpow, e1, e2, e3, e4, e5, decide_eq_true_eq] at hok ⊢
  have hw : ∀ c, cap * (pp / cap) ≤ c → cap * (pp / cap) + c % cap ≤ c :=
    fun c => mul_div_add_mod_le cap (pp / cap) c
  have hw1 := hw ccp
  have hw2 := hw cp
  by_cases hA : S > cap - (pp - ccp) <;> by_cases hB : S > cap - (pp - cp) <;>
    by_cases hU : S > cap - pp % cap <;> by_cases hC : S > ccp % cap <;>
    by_cases hD : S > cp % cap <;>
    simp only [hA, hB, hU, hC, hD, if_true, if_false, and_self, and_true, and_false,
      true_and, false_and, not_true_eq_false, not_false_eq_true, ite_true, ite_false,
      Bool.false_eq_true, decide_True, decide_False] at hok ⊢ <;>
    omega

/-! ### Headers set up by `init_ring_buffer_header` -/

theorem init_header_ok (h0 header : ring_buffer_header) (length : Nat)
    (hinit : init_ring_buffer_header h0 length = (true, header))
    (h8 : RECORD_HEADER_LENGTH ≤ header.capacity) : header_ok header := by
  unfold init_ring_buffer_header at hinit
  split at hinit
  · cases hinit
  · rename_i hchk
    have hchk2 : ring_buffer_check_capacity length = true := by
      cases h : ring_buffer_check_capacity length
      · rw [h] at hchk; exact absurd rfl hchk
      · rfl
    unfold ring_buffer_check_capacity is_pow_2 at hchk2
    simp only [decide_eq_true_eq] at hchk2
    obtain ⟨k, hk, hke⟩ := hchk2
    simp only [Prod.mk.injEq, true_and] at hinit
    subst hinit
    simp only [RECORD_HEADER_LENGTH] at h8
    have hpow : ∃ k, k ≤ 31 ∧ sub_u32 length RING_BUFFER_TRAILER_LENGTH = 2 ^ k :=
      ⟨k, by omega, hke⟩
    have hb := pow2_bounds _ hpow
    refine ⟨⟨?_, ?_, ?_⟩, hpow, h8, ?_⟩ <;>
      simp only [RING_BUFFER_PRODUCER_POSITION_OFFSET,
        RING_BUFFER_CONSUMER_CACHE_POSITION_OFFSET, RING_BUFFER_CONSUMER_POSITION_OFFSET,
        CACHE_LINE_LENGTH, RECORD_HEADER_LENGTH] <;>
      generalize sub_u32 length RING_BUFFER_TRAILER_LENGTH = c at hb h8 ⊢ <;>
      (try unfold sub_u32) <;> unfold u32 <;> omega

theorem sample_header_init :
    init_ring_buffer_header sample_header 576 = (true, sample_header) := by
  rfl

/-! ### The full-buffer boundary -/

theorem claim_outcome_mod (cap ccp cp pp S : Nat) (hpow : ∃ k, k ≤ 31 ∧ cap = 2 ^ k)
    (h1 : ccp ≤ cp) (h2 : cp ≤ pp) (h3 : pp ≤ ccp + cap) (hpp : pp < 18446744073709551616) :
    claim_outcome cap ccp cp pp S =
      if S > cap - (pp - ccp) ∧ S > cap - (pp - cp) then ⟨false, false, 0⟩
      else if S > cap - pp % cap then
        if S > (if S > cap - (pp - ccp) then cp else ccp) % cap then
          if S > cp % cap then ⟨false, decide (S > cap - (pp - ccp)), 0⟩
          else ⟨true, true, cap - pp % cap⟩
        else ⟨true, decide (S > cap - (pp - ccp)), cap - pp % cap⟩
      else ⟨true, decide (S > cap - (pp - ccp)), 0⟩ := by
  have hb := pow2_bounds cap hpow
  have e1 : u32 (sub_u64 pp ccp) = pp - ccp := by unfold sub_u64 u64 u32; omega
  have e2 : u32 (sub_u64 pp cp) = pp - cp := by unfold sub_u64 u64 u32; omega
  have e3 : sub_u32 cap (pp - ccp) = cap - (pp - ccp) := by unfold sub_u32 u32; omega
  have e4 : sub_u32 cap (pp - cp) = cap - (pp - cp) := by unfold sub_u32 u32; omega
  unfold claim_outcome
  simp only [index_eq_mod cap _ hpow, e1, e2, e3, e4, sub_u32_mod cap pp hpow,
    decide_eq_true_eq]

theorem claim_step_fits (PAD : Nat) (header : ring_buffer_header) (b : Buffer)
    (n x y P S : Nat) (hh : header_ok header) (hn : n ≤ header.max_msg_length)
    (hS : S = required_record_capacity n)
    (hpp : load_producer_position header b = P)
    (hcp : load_consumer_position header b = 0)
    (hccp : load_consumer_cache_position header b = 0)
    (hfit : P + S ≤ header.capacity) :
    (try_ring_buffer_sp_claim PAD header b n x y).ok = true
    ∧ (try_ring_buffer_sp_claim PAD header b n x y).claimed_index = P
    ∧ load_producer_position header (try_ring_buffer_sp_claim PAD header b n x y).buffer
        = P + S
    ∧ load_consumer_position header (try_ring_buffer_sp_claim PAD header b n x y).buffer = 0
    ∧ load_consumer_cache_position header
        (try_ring_buffer_sp_claim PAD header b n x y).buffer = 0 := by
  obtain ⟨h8, hcap, hc8, hmax⟩ := header_ok_facts header hh
  obtain ⟨hl, hp, _, _⟩ := hh
  have hSb := required_record_capacity_eq n header.capacity hcap (by omega)
  have hfr := try_ring_buffer_sp_claim_frame PAD header b n x y _ _ hl hp hn rfl rfl
  have hout := try_ring_buffer_sp_claim_outputs PAD header b n x y _ _ hl hp hn rfl rfl
  rw [hpp, hcp, hccp, ← hS] at hfr hout
  have hPm : P % header.capacity = P := Nat.mod_eq_of_lt (by omega)
  have ho : claim_outcome header.capacity 0 0 P S = ⟨true, false, 0⟩ := by
    rw [claim_outcome_mod header.capacity 0 0 P S hp (Nat.le_refl _) (Nat.zero_le _)
      (by omega) (by omega), hPm]
    simp only [Nat.sub_zero, Nat.zero_mod]
    rw [if_neg (by omega), if_neg (by omega)]
    simp only [ClaimOutcome.mk.injEq, decide_eq_false_iff_not, true_and, and_true]
    omega
  rw [ho] at hfr hout
  simp only [if_true, Bool.false_eq_true, if_false, Nat.add_zero] at hfr hout
  refine ⟨hfr.1, ?_, ?_, hfr.2.1, hfr.2.2.2.1⟩
  · rw [hout.2, hPm]
  · rw [hfr.2.2.1]; unfold u64; omega

theorem claim_repeat_fits (PAD : Nat) (header : ring_buffer_header) (n S : Nat)
    (hh : header_ok header) (hn : n ≤ header.max_msg_length)
    (hS : S = required_record_capacity n) :
    ∀ (k : Nat) (b : Buffer) (P : Nat),
      load_producer_position header b = P →
      load_consumer_position header b = 0 →
      load_consumer_cache_position header b = 0 →
      P + k * S ≤ header.capacity →
      (claim_repeat PAD header n k b).1 = true
      ∧ load_producer_position header (claim_repeat PAD header n k b).2.1 = P + k * S
      ∧ load_consumer_position header (claim_repeat PAD header n k b).2.1 = 0
      ∧ load_consumer_cache_position header (claim_repeat PAD header n k b).2.1 = 0
      ∧ (∀ i ∈ (claim_repeat PAD header n k b).2.2, P ≤ i ∧ i + S ≤ header.capacity)
      ∧ (1 ≤ k → (claim_repeat PAD header n k b).2.2.head? = some P)
      ∧ (∀ i ∈ (claim_repeat PAD header n k b).2.2.tail, P + S ≤ i) := by
  intro k
  induction k with
  | zero =>
    intro b P hpp hcp hccp _
    simp only [claim_repeat, Nat.zero_mul, Nat.add_zero]
    exact ⟨trivial, hpp, hcp, hccp, by simp, by intro h; omega, by simp⟩
  | succ k ih =>
    intro b P hpp hcp hccp hfit
    rw [Nat.succ_mul] at hfit
    obtain ⟨c1, c2, c3, c4, c5⟩ :=
      claim_step_fits PAD header b n 0 0 P S hh hn hS hpp hcp hccp (by omega)
    obtain ⟨r1, r2, r3, r4, r5, _, _⟩ :=
      ih (try_ring_buffer_sp_claim PAD header b n 0 0).buffer (P + S) c3 c4 c5 (by omega)
    simp only [claim_repeat, c1, if_true]
    refine ⟨r1, ?_, r3, r4, ?_, ?_, ?_⟩
    · rw [r2, Nat.succ_mul]; omega
    · intro i hi
      simp only [List.mem_cons] at hi
      rcases hi with hi | hi
      · rw [hi, c2]; omega
      · have := r5 i hi; omega
    · intro _
      simp only [List.head?_cons, c2]
    · intro i hi
      simp only [List.tail_cons] at hi
      exact (r5 i hi).1

theorem claim_when_full (PAD : Nat) (header : ring_buffer_header) (b : Buffer)
    (n x y S : Nat) (hh : header_ok header) (hn : n ≤ header.max_msg_length)
    (hS : S = required_record_capacity n)
    (hpp : load_producer_position header b
      = load_consumer_position header b + header.capacity)
    (hccp : load_consumer_cache_position header b = load_consumer_position header b) :
    try_ring_buffer_sp_claim PAD header b n x y = ⟨false, b, x, y⟩ := by
  obtain ⟨h8, hcap, hc8, hmax⟩ := header_ok_facts header hh
  obtain ⟨hl, hp, _, _⟩ := hh
  have hSb := required_record_capacity_eq n header.capacity hcap (by omega)
  have hpplt : load_producer_position header b < 18446744073709551616 := load_u64_lt _ _
  rw [try_ring_buffer_sp_claim_eq PAD header b n x y hl hn, ← hS, hccp]
  have ho : claim_outcome header.capacity (load_consumer_position header b)
      (load_consumer_position header b) (load_producer_position header b) S
      = ⟨false, false, 0⟩ := by
    rw [claim_outcome_mod header.capacity _ _ _ S hp (Nat.le_refl _) (by omega) (by omega)
      hpplt]
    rw [if_pos]
    rw [hS, hSb.1]
    omega
  rw [ho]
  simp only [Bool.false_eq_true, if_false]

theorem claim_after_release (PAD : Nat) (header : ring_buffer_header) (b : Buffer)
    (n x y S : Nat) (hh : header_ok header) (hn : n ≤ header.max_msg_length)
    (hS : S = required_record_capacity n) (hSC : S ≤ header.capacity)
    (hpp : load_producer_position header b = header.capacity)
    (hcp : load_consumer_position header b = S)
    (hccp : load_consumer_cache_position header b = 0) :
    (try_ring_buffer_sp_claim PAD header b n x y).ok = true
    ∧ load_producer_position header (try_ring_buffer_sp_claim PAD header b n x y).buffer
        = header.capacity + S
    ∧ load_consumer_position header (try_ring_buffer_sp_claim PAD header b n x y).buffer = S
    ∧ load_consumer_cache_position header
        (try_ring_buffer_sp_claim PAD header b n x y).buffer = S := by
  obtain ⟨h8, hcap, hc8, hmax⟩ := header_ok_facts header hh
  obtain ⟨hl, hp, _, _⟩ := hh
  have hSb := required_record_capacity_eq n header.capacity hcap (by omega)
  have hfr := try_ring_buffer_sp_claim_frame PAD header b n x y _ _ hl hp hn rfl rfl
  rw [hpp, hcp, hccp, ← hS] at hfr
  have ho : claim_outcome header.capacity 0 S header.capacity S = ⟨true, true, 0⟩ := by
    rw [claim_outcome_mod header.capacity 0 S header.capacity S hp (Nat.zero_le _) hSC
      (by omega) (by omega), Nat.mod_self]
    have hS8 : 8 ≤ S := by rw [hS, hSb.1]; omega
    rw [if_neg (by omega), if_neg (by omega)]
    simp only [ClaimOutcome.mk.injEq, decide_eq_true_eq, true_and, and_true]
    omega
  rw [ho] at hfr
  simp only [if_true, Nat.add_zero] at hfr
  refine ⟨hfr.1, ?_, hfr.2.1, hfr.2.2.2.1⟩
  rw [hfr.2.2.1]; unfold u64; omega

theorem commit_all_frame (PAD t n : Nat) (hchk : check_msg_type_id PAD t = true) :
    ∀ (l : List Nat) (b : Buffer),
      (commit_all PAD t n l b).1 = true
      ∧ (∀ j, (∀ i ∈ l, i + 8 ≤ j ∨ j + 8 ≤ i) →
          load_u64 (commit_all PAD t n l b).2 j = load_u64 b j) := by
  intro l
  induction l with
  | nil => intro b; exact ⟨rfl, fun _ _ => rfl⟩
  | cons i rest ih =>
    intro b
    have hc : ring_buffer_commit PAD b i t n
        = (true, store_u64 b i (make_header t (u32 (n + RECORD_HEADER_LENGTH)))) := by
      unfold ring_buffer_commit
      simp [hchk, store_release_msg_header]
    simp only [commit_all, hc, Bool.true_and]
    refine ⟨(ih _).1, ?_⟩
    intro j hj
    rw [(ih _).2 j (fun i' hi' => hj i' (List.mem_cons_of_mem _ hi')),
      load_u64_store_u64_disj _ _ _ _ (by have := hj i (List.mem_cons_self _ _); omega)]

theorem init_header_pow2 (h0 header : ring_buffer_header) (length : Nat)
    (hinit : init_ring_buffer_header h0 length = (true, header)) : capacity_pow2 header := by
  unfold init_ring_buffer_header at hinit
  split at hinit
  · cases hinit
  · rename_i hchk
    have hchk2 : ring_buffer_check_capacity length = true := by
      cases h : ring_buffer_check_capacity length
      · rw [h] at hchk; exact absurd rfl hchk
      · rfl
    unfold ring_buffer_check_capacity is_pow_2 at hchk2
    simp only [decide_eq_true_eq] at hchk2
    obtain ⟨k, hk, hke⟩ := hchk2
    simp only [Prod.mk.injEq, true_and] at hinit
    subst hinit
    exact ⟨k, by omega, hke⟩

/-- C5: full-buffer boundary.  On the all-zero buffer of a header set up by
`init_ring_buffer_header`, for a payload length `n` (with `n +
RECORD_HEADER_LENGTH` representable in `index_t`) whose record capacity `S`
divides the capacity `C`: `C / S` consecutive claims all succeed and the next
one returns false; after committing all of them (with a valid type id) a batch
read with `count = 1` returns 1, the next claim succeeds and the claim after
that returns false. -/
theorem full_buffer_boundary {γ : Type} (PAD : Nat) (h0 header : ring_buffer_header)
    (length n t x y fuel : Nat) (cb : MessageConsumer γ) (context : γ)
    (hinit : init_ring_buffer_header h0 length = (true, header))
    (hno : n + RECORD_HEADER_LENGTH < 4294967296)
    (hdiv : required_record_capacity n ∣ header.capacity)
    (hchk : check_msg_type_id PAD t = true) (ht : t < 4294967296)
    (hfuel : 1 ≤ fuel) :
    (claim_repeat PAD header n (header.capacity / required_record_capacity n)
        zero_buffer).1 = true
    ∧ (try_ring_buffer_sp_claim PAD header
        (claim_repeat PAD header n (header.capacity / required_record_capacity n)
          zero_buffer).2.1 n x y).ok = false
    ∧ (commit_all PAD t n
        (claim_repeat PAD header n (header.capacity / required_record_capacity n)
          zero_buffer).2.2
        (try_ring_buffer_sp_claim PAD header
          (claim_repeat PAD header n (header.capacity / required_record_capacity n)
            zero_buffer).2.1 n x y).buffer).1 = true
    ∧ ∃ r, ring_buffer_batch_read PAD fuel header
          (commit_all PAD t n
            (claim_repeat PAD header n (header.capacity / required_record_capacity n)
              zero_buffer).2.2
            (try_ring_buffer_sp_claim PAD header
              (claim_repeat PAD header n (header.capacity / required_record_capacity n)
                zero_buffer).2.1 n x y).buffer).2 cb 1 context = some r
        ∧ r.msg_read = 1
        ∧ (try_ring_buffer_sp_claim PAD header r.buffer n x y).ok = true
        ∧ (try_ring_buffer_sp_claim PAD header
            (try_ring_buffer_sp_claim PAD header r.buffer n x y).buffer n x y).ok = false := by
  have hp := init_header_pow2 h0 header length hinit
  have hb := pow2_bounds header.capacity hp
  have hSle : required_record_capacity n ≤ header.capacity :=
    Nat.le_of_dvd (by omega) hdiv
  have hSpos : required_record_capacity n ≠ 0 := by
    intro h0'
    rw [h0'] at hdiv
    have := Nat.eq_zero_of_zero_dvd hdiv
    omega
  have hSe : required_record_capacity n = (n + 15) / 8 * 8 := by
    have hne := hSpos
    unfold RECORD_HEADER_LENGTH at hno
    unfold required_record_capacity align RECORD_ALIGNMENT RECORD_HEADER_LENGTH u32
      at hne ⊢
    omega
  have h8 : RECORD_HEADER_LENGTH ≤ header.capacity := by
    unfold RECORD_HEADER_LENGTH; omega
  have hh := init_header_ok h0 header length hinit h8
  obtain ⟨_, _, hc8, hmax⟩ := header_ok_facts header hh
  have hn : n ≤ header.max_msg_length := by omega
  have hl := hh.1
  obtain ⟨l1, l2, l3⟩ := hl
  generalize hSdef : required_record_capacity n = S at *
  have hK : header.capacity / S * S = header.capacity := Nat.div_mul_cancel hdiv
  have hK1 : 1 ≤ header.capacity / S := by
    rcases Nat.eq_zero_or_pos (header.capacity / S) with h | h
    · rw [h] at hK; omega
    · exact h
  obtain ⟨c1, c2, c3, c4, c5, c6, c7⟩ :=
    claim_repeat_fits PAD header n S hh hn hSdef.symm (header.capacity / S) zero_buffer 0
      (load_u64_zero_buffer _) (load_u64_zero_buffer _) (load_u64_zero_buffer _) (by omega)
  rw [hK, Nat.zero_add] at c2
  generalize claim_repeat PAD header n (header.capacity / S) zero_buffer = cr at *
  have hfail := claim_when_full PAD header cr.2.1 n x y S hh hn hSdef.symm
    (by rw [c2, c3, Nat.zero_add]) (by rw [c3, c4])
  rw [hfail]
  simp only []
  obtain ⟨m1, m2⟩ := commit_all_frame PAD t n hchk cr.2.2 cr.2.1
  have hwords : ∀ j, header.capacity + 8 ≤ j →
      load_u64 (commit_all PAD t n cr.2.2 cr.2.1).2 j = load_u64 cr.2.1 j := by
    intro j hj
    apply m2
    intro i hi
    have := c5 i hi
    omega
  have hhead : load_u64 (commit_all PAD t n cr.2.2 cr.2.1).2 0 = make_header t (n + 8) := by
    have hne := c6 hK1
    cases hlist : cr.2.2 with
    | nil => rw [hlist] at hne; simp at hne
    | cons i0 tl =>
      rw [hlist] at hne c7
      simp only [List.head?_cons, Option.some.injEq] at hne
      subst hne
      have hc : ring_buffer_commit PAD cr.2.1 0 t n
          = (true, store_u64 cr.2.1 0 (make_header t (n + 8))) := by
        unfold ring_buffer_commit
        simp only [hchk, Bool.not_true, Bool.false_eq_true, if_false, store_release_msg_header,
          RECORD_HEADER_LENGTH]
        have : u32 (n + 8) = n + 8 := by unfold u32; omega
        rw [this]
      simp only [commit_all, hc]
      rw [(commit_all_frame PAD t n hchk tl _).2 0
        (by intro i hi; have := c7 i (by simpa using hi); omega), load_u64_store_u64_same]
      have := make_header_lt t (n + 8)
      unfold u64; omega
  generalize (commit_all PAD t n cr.2.2 cr.2.1).2 = bm at *
  have htp : t ≠ PAD := by
    unfold check_msg_type_id at hchk
    simp only [Bool.and_eq_true, decide_eq_true_eq] at hchk
    exact hchk.1
  have hcp0 : load_consumer_position header bm = 0 := by
    unfold load_consumer_position at c3 ⊢
    rw [hwords _ (by omega)]; exact c3
  have hrs : rec_size (t, n + 8) = S := by
    rw [rec_size_eq _ (by simp only []; omega)]
    simp only []
    omega
  have hlaid : laid_out header.capacity bm (0 + 0) [(t, n + 8)] := by
    refine ⟨?_, ht, by simp, by simp only []; omega, ?_, trivial⟩
    · simp only [Nat.add_zero, Nat.zero_mod]; exact hhead
    · simp only [Nat.add_zero, Nat.zero_mod, Nat.zero_add, hrs]; exact hSle
  obtain ⟨j, hj, hbc, hcalls, hmsg, hj1, _, _, _⟩ :=
    batch_read_loop_walk PAD bm cb header.capacity 0 1 hp (by decide) [(t, n + 8)]
      { stop := false, bytes_consumed := 0, msg_read := 0, context := context, calls := [] }
      _ rfl hlaid (by simp only [Nat.zero_mod]; omega) (by simp)
  simp only [List.length_cons, List.length_nil, Nat.zero_add] at hbc hcalls hmsg hj1 hj
  have hj1' : j = 1 := by
    have := hj1 (by
      rw [batch_read_guard_true_iff]
      exact ⟨rfl, by simp only [Nat.zero_mod]; omega, by simp⟩) (by simp)
    omega
  subst hj1'
  simp only [List.take_succ_cons, List.take_zero, span, calls_of, if_pos htp, Nat.add_zero,
    Nat.zero_add, List.append_nil, List.length_cons, List.length_nil, hrs,
    List.nil_append] at hbc hmsg
  have hg : batch_read_guard (header.capacity - 0 % header.capacity) 1
      (batch_read_loop PAD bm cb (0 % header.capacity)
        (header.capacity - 0 % header.capacity) 1 1
        { stop := false, bytes_consumed := 0, msg_read := 0, context := context,
          calls := [] }) = false := by
    rw [batch_read_guard_false_iff]
    right; right; omega
  have hres := ring_buffer_batch_read_of_loop PAD fuel 1 header bm cb 1 context 0 _ hp
    hcp0.symm rfl hg hfuel
  rw [hbc, hmsg] at hres
  have hS0 : S ≠ 0 := hSpos
  simp only [ne_eq, hS0, not_false_eq_true, if_true, Nat.zero_mod, Nat.zero_add] at hres
  have hfr := read_buffer_frame header bm 0 S (u64 S) ⟨l1, l2, l3⟩ (by omega)
  have hppm : load_producer_position header bm = header.capacity := by
    unfold load_producer_position at c2 ⊢
    rw [hwords _ (by omega)]; exact c2
  have hccpm : load_consumer_cache_position header bm = 0 := by
    unfold load_consumer_cache_position at c4 ⊢
    rw [hwords _ (by omega)]; exact c4
  obtain ⟨g1, g2, g3, g4⟩ := claim_after_release PAD header _ n x y S hh hn hSdef.symm hSle
    (hfr.2.1.trans hppm)
    (hfr.1.trans (by unfold u64; omega))
    (hfr.2.2.1.trans hccpm)
  refine ⟨c1, by first | rfl | trivial, m1, _, hres, rfl, g1, ?_⟩
  rw [claim_when_full PAD header _ n x y S hh hn hSdef.symm (by rw [g2, g3]; omega)
    (by rw [g3, g4])]

/-- Witness of C5: capacity 64 and payload 8 (record capacity 16): four claims
succeed, the fifth fails; after one record is consumed exactly one more claim
succeeds. -/
theorem full_buffer_boundary_witness :
    (claim_repeat 4294967295 sample_header 8 4 zero_buffer).1 = true
    ∧ (try_ring_buffer_sp_claim 4294967295 sample_header
        (claim_repeat 4294967295 sample_header 8 4 zero_buffer).2.1 8 0 0).ok = false
    ∧ ∃ r, ring_buffer_batch_read 4294967295 1 sample_header
          (commit_all 4294967295 7 8
            (claim_repeat 4294967295 sample_header 8 4 zero_buffer).2.2
            (try_ring_buffer_sp_claim 4294967295 sample_header
              (claim_repeat 4294967295 sample_header 8 4 zero_buffer).2.1 8 0 0).buffer).2
          accept_all 1 0 = some r
        ∧ r.msg_read = 1
        ∧ (try_ring_buffer_sp_claim 4294967295 sample_header r.buffer 8 0 0).ok = true
        ∧ (try_ring_buffer_sp_claim 4294967295 sample_header
            (try_ring_buffer_sp_claim 4294967295 sample_header r.buffer 8 0 0).buffer
            8 0 0).ok = false :=
  have h := full_buffer_boundary 4294967295 sample_header sample_header 576 8 7 0 0 1
    accept_all 0 sample_header_init (by decide) (by decide) (by decide) (by decide)
    (by decide)
  ⟨h.1, h.2.1, h.2.2.2⟩
/-! ### The size observer -/

/-- C14 (size observer, sequential model).  On every buffer, with no store
between its loads, `ring_buffer_size` leaves its loop after one iteration (fuel
1 suffices, and more fuel gives the same result) and returns
`producer_position - consumer_position`, computed in `uint64_t` and truncated to
`index_t`: exactly the difference when the consumer position is at most the
producer position and the difference fits `index_t`, and 0 when the two
positions are equal, that is, when everything claimed has been consumed.  The
function has no store: its embedding returns the value alone. -/
theorem ring_buffer_size_sequential (header : ring_buffer_header) (buffer : Buffer)
    (fuel : Nat) (hfuel : 1 ≤ fuel) :
    ring_buffer_size 1 header buffer
        = some (u32 (sub_u64 (load_producer_position header buffer)
            (load_consumer_position header buffer)))
    ∧ ring_buffer_size fuel header buffer = ring_buffer_size 1 header buffer
    ∧ (load_consumer_position header buffer ≤ load_producer_position header buffer →
        load_producer_position header buffer - load_consumer_position header buffer
          < 4294967296 →
        ring_buffer_size fuel header buffer
          = some (load_producer_position header buffer
              - load_consumer_position header buffer))
    ∧ (load_consumer_position header buffer = load_producer_position header buffer →
        ring_buffer_size fuel header buffer = some 0) := by
  obtain ⟨m, rfl⟩ : ∃ m, fuel = m + 1 := ⟨fuel - 1, by omega⟩
  have hcp := load_u64_lt buffer header.consumer_position_index
  have hpp := load_u64_lt buffer header.producer_position_index
  have hval : ∀ f, ring_buffer_size (f + 1) header buffer
      = some (u32 (sub_u64 (load_producer_position header buffer)
            (load_consumer_position header buffer))) := by
    intro f
    simp [ring_buffer_size, ring_buffer_size_loop, load_acquire_consumer_position,
      load_acquire_producer_position, load_producer_position, load_consumer_position]
  refine ⟨hval 0, ?_, ?_, ?_⟩
  · rw [hval m, hval 0]
  · intro hle hlt
    rw [hval m]
    simp only [load_producer_position, load_consumer_position] at hle hlt ⊢
    simp only [u32, sub_u64, u64]
    congr 1
    omega
  · intro heq
    rw [hval m]
    simp only [load_producer_position, load_consumer_position] at heq ⊢
    simp only [u32, sub_u64, u64]
    congr 1
    omega

/-- Witness of C14: after claim, commit and read of one record both positions
are 24 and the size is 0. -/
theorem ring_buffer_size_sequential_witness :
    ring_buffer_size 1 sample_header sample_run.buffer = some 0
    ∧ ring_buffer_size 3 sample_header sample_run.buffer = some 0 :=
  ⟨by decide,
    (ring_buffer_size_sequential sample_header sample_run.buffer 3 (by decide)).2.2.2
      (by decide)⟩

/-! ### Initialisation: layout and rejected lengths -/

theorem check_capacity_iff (length : Nat) (hlen : length < 4294967296) :
    ring_buffer_check_capacity length = true
      ↔ ∃ k, length = 2 ^ k + 8 * CACHE_LINE_LENGTH := by
  simp only [ring_buffer_check_capacity, is_pow_2, decide_eq_true_eq,
    RING_BUFFER_TRAILER_LENGTH, CACHE_LINE_LENGTH, sub_u32, u32]
  constructor
  · rintro ⟨k, hk, he⟩
    have h31 : (2 : Nat) ^ k ≤ 2 ^ 31 := Nat.pow_le_pow_right (by decide) (by omega)
    have hpos : 0 < (2 : Nat) ^ k := Nat.two_pow_pos k
    refine ⟨k, ?_⟩
    generalize (2 : Nat) ^ k = c at he h31 hpos
    norm_num at h31
    omega
  · rintro ⟨k, he⟩
    have hk : k < 32 := by
      by_contra hge
      have h32 : (2 : Nat) ^ 32 ≤ 2 ^ k := Nat.pow_le_pow_right (by decide) (by omega)
      norm_num at h32
      omega
    refine ⟨k, hk, ?_⟩
    generalize (2 : Nat) ^ k = c at he
    omega

theorem init_fields (h0 : ring_buffer_header) (length : Nat)
    (hchk : ring_buffer_check_capacity length = true) :
    init_ring_buffer_header h0 length
      = (true,
          { capacity := sub_u32 length RING_BUFFER_TRAILER_LENGTH,
            max_msg_length :=
              sub_u32 (sub_u32 length RING_BUFFER_TRAILER_LENGTH) RECORD_HEADER_LENGTH,
            producer_position_index :=
              u32 (sub_u32 length RING_BUFFER_TRAILER_LENGTH
                + RING_BUFFER_PRODUCER_POSITION_OFFSET),
            consumer_cache_position_index :=
              u32 (sub_u32 length RING_BUFFER_TRAILER_LENGTH
                + RING_BUFFER_CONSUMER_CACHE_POSITION_OFFSET),
            consumer_position_index :=
              u32 (sub_u32 length RING_BUFFER_TRAILER_LENGTH
                + RING_BUFFER_CONSUMER_POSITION_OFFSET) }) := by
  simp [init_ring_buffer_header, hchk]

/-- C15 (layout).  For every `index_t` value `length` that is a power of two
plus `8 * CACHE_LINE_LENGTH`, `init_ring_buffer_header` returns true and sets
`capacity = length - 8 * CACHE_LINE_LENGTH`, `max_msg_length = capacity -
RECORD_HEADER_LENGTH` (the `index_t` difference, which is the exact difference
once the capacity is at least the header length) and the three position indices
to `capacity + 2, 4, 6 * CACHE_LINE_LENGTH`; so the three 8-byte position words
lie inside `[capacity, length)`, two cache lines apart from each other and from
the data region. -/
theorem init_layout (h0 : ring_buffer_header) (length k : Nat)
    (hlen : length < 4294967296) (hk : length = 2 ^ k + 8 * CACHE_LINE_LENGTH) :
    (init_ring_buffer_header h0 length).1 = true
    ∧ (init_ring_buffer_header h0 length).2.capacity = length - 8 * CACHE_LINE_LENGTH
    ∧ (init_ring_buffer_header h0 length).2.capacity = 2 ^ k
    ∧ (init_ring_buffer_header h0 length).2.max_msg_length
        = sub_u32 (init_ring_buffer_header h0 length).2.capacity RECORD_HEADER_LENGTH
    ∧ (RECORD_HEADER_LENGTH ≤ (init_ring_buffer_header h0 length).2.capacity →
        (init_ring_buffer_header h0 length).2.max_msg_length
          = (init_ring_buffer_header h0 length).2.capacity - RECORD_HEADER_LENGTH)
    ∧ (init_ring_buffer_header h0 length).2.producer_position_index
        = (init_ring_buffer_header h0 length).2.capacity + 2 * CACHE_LINE_LENGTH
    ∧ (init_ring_buffer_header h0 length).2.consumer_cache_position_index
        = (init_ring_buffer_header h0 length).2.capacity + 4 * CACHE_LINE_LENGTH
    ∧ (init_ring_buffer_header h0 length).2.consumer_position_index
        = (init_ring_buffer_header h0 length).2.capacity + 6 * CACHE_LINE_LENGTH
    ∧ (init_ring_buffer_header h0 length).2.capacity + 2 * CACHE_LINE_LENGTH
        ≤ (init_ring_buffer_header h0 length).2.producer_position_index
    ∧ (init_ring_buffer_header h0 length).2.producer_position_index + 2 * CACHE_LINE_LENGTH
        ≤ (init_ring_buffer_header h0 length).2.consumer_cache_position_index
    ∧ (init_ring_buffer_header h0 length).2.consumer_cache_position_index
          + 2 * CACHE_LINE_LENGTH
        ≤ (init_ring_buffer_header h0 length).2.consumer_position_index
    ∧ (init_ring_buffer_header h0 length).2.consumer_position_index + 8 ≤ length := by
  have hchk := (check_capacity_iff length hlen).2 ⟨k, hk⟩
  rw [init_fields h0 length hchk]
  simp only [RING_BUFFER_TRAILER_LENGTH, RING_BUFFER_PRODUCER_POSITION_OFFSET,
    RING_BUFFER_CONSUMER_CACHE_POSITION_OFFSET, RING_BUFFER_CONSUMER_POSITION_OFFSET,
    CACHE_LINE_LENGTH, RECORD_HEADER_LENGTH, sub_u32, u32] at hk ⊢
  generalize (2 : Nat) ^ k = c at hk ⊢
  subst hk
  refine ⟨trivial, ?_, ?_, ?_, ?_, ?_, ?_, ?_, ?_, ?_, ?_, ?_⟩ <;> intros <;> first | exact True.intro | omega

/-- Witness of C15: length 576 gives the header of the 64-byte buffer. -/
theorem init_layout_witness :
    (init_ring_buffer_header sample_header_128 576).1 = true
    ∧ (init_ring_buffer_header sample_header_128 576).2.capacity = 64
    ∧ (init_ring_buffer_header sample_header_128 576).2.producer_position_index = 192 :=
  ⟨(init_layout sample_header_128 576 6 (by decide) (by decide)).1, by decide, by decide⟩

/-- C17 (init rejects bad geometry atomically).  For every `index_t` value
`length`, `init_ring_buffer_header` returns false exactly when `length` is not a
power of two plus `8 * CACHE_LINE_LENGTH`, and then the header is the header
before the call. -/
theorem init_rejects_bad_geometry (h0 : ring_buffer_header) (length : Nat)
    (hlen : length < 4294967296) :
    ((init_ring_buffer_header h0 length).1 = false
        ↔ ¬ ∃ k, length = 2 ^ k + 8 * CACHE_LINE_LENGTH)
    ∧ ((init_ring_buffer_header h0 length).1 = false →
        (init_ring_buffer_header h0 length).2 = h0) := by
  have hiff := check_capacity_iff length hlen
  cases hchk : ring_buffer_check_capacity length with
  | true =>
    rw [init_fields h0 length hchk]
    refine ⟨⟨fun h => (by cases h), fun h => absurd (hiff.1 hchk) h⟩, fun h => (by cases h)⟩
  | false =>
    have hinit : init_ring_buffer_header h0 length = (false, h0) := by
      simp [init_ring_buffer_header, hchk]
    rw [hinit]
    refine ⟨⟨fun _ hex => ?_, fun _ => rfl⟩, fun _ => rfl⟩
    rw [hiff.2 hex] at hchk
    cases hchk

/-- Witness of C17: length 600 is rejected (88 is not a power of two) and the
header is left as it was. -/
theorem init_rejects_bad_geometry_witness :
    (init_ring_buffer_header sample_header_128 600).1 = false
    ∧ (init_ring_buffer_header sample_header_128 600).2 = sample_header_128 :=
  ⟨by decide,
    (init_rejects_bad_geometry sample_header_128 600 (by decide)).2 (by decide)⟩


/-! ### Capacity / init round trip -/

theorem next_pow_2_from_spec (value : Nat) :
    ∀ (fuel j : Nat), (j = 0 ∨ 2 ^ (j - 1) < value) →
      ∃ i, next_pow_2_from value fuel (2 ^ j) = 2 ^ i ∧ j ≤ i ∧ i ≤ j + fuel
        ∧ (value ≤ 2 ^ i ∨ i = j + fuel) ∧ (i = 0 ∨ 2 ^ (i - 1) < value) := by
  intro fuel
  induction fuel with
  | zero =>
    intro j hj
    exact ⟨j, rfl, le_refl _, le_refl _, Or.inr rfl, hj⟩
  | succ fuel ih =>
    intro j hj
    by_cases hv : value ≤ 2 ^ j
    · refine ⟨j, ?_, le_refl _, by omega, Or.inl hv, hj⟩
      simp [next_pow_2_from, hv]
    · have hrec : next_pow_2_from value (fuel + 1) (2 ^ j)
          = next_pow_2_from value fuel (2 ^ (j + 1)) := by
        simp [next_pow_2_from, hv, Nat.pow_succ, Nat.mul_comm]
      obtain ⟨i, hi, h1, h2, h3, h4⟩ := ih (j + 1) (Or.inr (by simpa using hv))
      refine ⟨i, by rw [hrec, hi], by omega, by omega, ?_, h4⟩
      rcases h3 with h3 | h3
      · exact Or.inl h3
      · exact Or.inr (by omega)

/-- C16 (capacity / init round trip).  For every `requested_capacity >= 1`
whose next power of two plus `8 * CACHE_LINE_LENGTH` fits `index_t`,
`init_ring_buffer_header` on the length `ring_buffer_capacity
requested_capacity` returns true and sets the capacity to `next_pow_2
requested_capacity`, which is a power of two, at least `requested_capacity` and
the least such power. -/
theorem capacity_init_round_trip (h0 : ring_buffer_header) (requested_capacity : Nat)
    (h1 : 1 ≤ requested_capacity)
    (h2 : next_pow_2_from requested_capacity 32 1 + 8 * CACHE_LINE_LENGTH < 4294967296) :
    (init_ring_buffer_header h0 (ring_buffer_capacity requested_capacity)).1 = true
    ∧ (init_ring_buffer_header h0 (ring_buffer_capacity requested_capacity)).2.capacity
        = next_pow_2 requested_capacity
    ∧ (∃ k, next_pow_2 requested_capacity = 2 ^ k)
    ∧ requested_capacity ≤ next_pow_2 requested_capacity
    ∧ (∀ j, requested_capacity ≤ 2 ^ j → next_pow_2 requested_capacity ≤ 2 ^ j) := by
  obtain ⟨i, hi, _, h32, hge, hmin⟩ := next_pow_2_from_spec requested_capacity 32 0 (Or.inl rfl)
  simp only [pow_zero] at hi
  rw [hi] at h2
  simp only [CACHE_LINE_LENGTH] at h2
  have hi31 : i ≤ 31 := by
    by_contra hgt
    have : (2 : Nat) ^ 32 ≤ 2 ^ i := Nat.pow_le_pow_right (by decide) (by omega)
    norm_num at this
    omega
  have hnp : next_pow_2 requested_capacity = 2 ^ i := by
    simp only [next_pow_2, hi, u32]
    exact Nat.mod_eq_of_lt (by omega)
  have hcap : ring_buffer_capacity requested_capacity = 2 ^ i + 8 * CACHE_LINE_LENGTH := by
    simp only [ring_buffer_capacity, hnp, RING_BUFFER_TRAILER_LENGTH, CACHE_LINE_LENGTH, u32]
    omega
  have hlen : ring_buffer_capacity requested_capacity < 4294967296 := by
    rw [hcap]; simp only [CACHE_LINE_LENGTH]; omega
  have hchk := (check_capacity_iff _ hlen).2 ⟨i, hcap⟩
  rw [init_fields h0 _ hchk, hnp]
  have hge2 : requested_capacity ≤ 2 ^ i := by
    rcases hge with hge | hge
    · exact hge
    · omega
  refine ⟨rfl, ?_, ⟨i, rfl⟩, hge2, ?_⟩
  · show sub_u32 (ring_buffer_capacity requested_capacity) RING_BUFFER_TRAILER_LENGTH = 2 ^ i
    rw [hcap]
    simp only [sub_u32, u32, RING_BUFFER_TRAILER_LENGTH, CACHE_LINE_LENGTH]
    omega
  · intro j hj
    rcases hmin with hmin | hmin
    · subst hmin; simpa using Nat.one_le_two_pow
    · by_contra hlt
      have hji : j ≤ i - 1 := by
        by_contra hge3
        have : (2 : Nat) ^ i ≤ 2 ^ j := Nat.pow_le_pow_right (by decide) (by omega)
        omega
      have : (2 : Nat) ^ j ≤ 2 ^ (i - 1) := Nat.pow_le_pow_right (by decide) hji
      omega

/-- Witness of C16: a requested capacity of 100 bytes gives a length of 640 and
a capacity of 128. -/
theorem capacity_init_round_trip_witness :
    ring_buffer_capacity 100 = 640
    ∧ (init_ring_buffer_header sample_header (ring_buffer_capacity 100)).1 = true
    ∧ (init_ring_buffer_header sample_header (ring_buffer_capacity 100)).2.capacity = 128 :=
  ⟨by decide,
    (capacity_init_round_trip sample_header 100 (by decide) (by decide)).1, by decide⟩

/-! ### The wrap scenario on the 64-byte buffer -/

/-- Counterexample to C19 as stated: on the 64-byte buffer, after claim, commit
and read of a first record of 16 payload bytes, the second claim of 16 bytes
succeeds at index 24 without padding: the word at offset 48 is still zero, and
the producer position is 48. -/
theorem second_claim_does_not_wrap :
    sample_read_result.msg_read = 1
    ∧ wrap_claim_2.ok = true
    ∧ wrap_claim_2.claimed_index = 24
    ∧ wrap_claim_2.claimed_position = 24
    ∧ load_u64 wrap_claim_2.buffer 48 = 0
    ∧ load_producer_position sample_header wrap_claim_2.buffer = 48
    ∧ ¬ (wrap_claim_2.claimed_index = 0
          ∧ load_u64 wrap_claim_2.buffer 48 = make_header 4294967295 16) := by
  refine ⟨by decide, by decide, by decide, by decide, by decide, by decide, by decide⟩

/-- C19, amended.  On the 64-byte buffer with records of stride 24 (payload 16)
and padding id `0xFFFFFFFF`, starting from the all-zero buffer: the first claim
is at index 0 and the second, made after the first record has been committed
and read, at index 24, both without padding; after the second record has been
committed and read too, the third claim writes a padding header of length 16 at
offset 48 and places the record at offset 0, at position 64, and moves the
producer position to 88. -/
theorem wrap_scenario :
    (try_ring_buffer_sp_claim 4294967295 sample_header zero_buffer 16 0 0).ok = true
    ∧ (try_ring_buffer_sp_claim 4294967295 sample_header zero_buffer 16 0 0).claimed_index = 0
    ∧ sample_read_result.msg_read = 1
    ∧ wrap_claim_2.ok = true
    ∧ wrap_claim_2.claimed_index = 24
    ∧ load_u64 wrap_claim_2.buffer 48 = 0
    ∧ wrap_read_2.msg_read = 1
    ∧ load_consumer_position sample_header wrap_read_2.buffer = 48
    ∧ wrap_claim_3.ok = true
    ∧ load_u64 wrap_claim_3.buffer 48 = make_header 4294967295 16
    ∧ wrap_claim_3.claimed_index = 0
    ∧ wrap_claim_3.claimed_position = 64
    ∧ load_producer_position sample_header wrap_claim_3.buffer = 88 := by
  refine ⟨by decide, by decide, by decide, by decide, by decide, by decide, by decide,
    by decide, by decide, by decide, by decide, by decide, by decide⟩

/-! ### Sequential runs: the data region -/

theorem residue_in_window (cap p i : Nat) (hi : i < cap) :
    ∃ q, p ≤ q ∧ q < p + cap ∧ q % cap = i := by
  have hd := Nat.div_add_mod p cap
  have hm : p % cap < cap := Nat.mod_lt _ (by omega)
  by_cases h : p % cap ≤ i
  · refine ⟨cap * (p / cap) + i, by omega, by omega, ?_⟩
    rw [Nat.mul_add_mod]
    exact Nat.mod_eq_of_lt hi
  · refine ⟨cap * (p / cap + 1) + i, ?_, ?_, ?_⟩
    · rw [Nat.mul_add, Nat.mul_one]; omega
    · rw [Nat.mul_add, Nat.mul_one]; omega
    · rw [Nat.mul_add_mod]
      exact Nat.mod_eq_of_lt hi

/-- C20 (a claimed slot is contiguous and free).  In every state with an
init-style header (capacity `2^k`, position words after the data region) and
`consumer_cache_position <= consumer_position <= producer_position <=
consumer_cache_position + capacity`, a successful claim of record capacity `S =
required_record_capacity required_capacity` returns `claimed_index =
claimed_position & mask` with `claimed_index + S <= capacity`.  The padding
length `claimed_position - producer_position` is 0, or it is the number of bytes
from the old producer index to the end of the data region: then the padding
header is at the old producer index and the claimed index is 0.  No unconsumed
position `q` in `[consumer_position, producer_position)` has its index `q & mask`
among the slot bytes `[claimed_index, claimed_index + S)` or among the bytes of
the padding record, which start at the old producer index. -/
theorem claimed_slot_contiguous_and_free (PAD : Nat) (header : ring_buffer_header)
    (buffer : Buffer) (required_capacity x y : Nat)
    (hl : header_layout header) (hp : capacity_pow2 header)
    (h1 : load_consumer_cache_position header buffer ≤ load_consumer_position header buffer)
    (h2 : load_consumer_position header buffer ≤ load_producer_position header buffer)
    (h3 : load_producer_position header buffer
      ≤ load_consumer_cache_position header buffer + header.capacity)
    (hok : (try_ring_buffer_sp_claim PAD header buffer required_capacity x y).ok = true) :
    (try_ring_buffer_sp_claim PAD header buffer required_capacity x y).claimed_index
        = u32 ((try_ring_buffer_sp_claim PAD header buffer required_capacity x y).claimed_position
            &&& sub_u32 header.capacity 1)
    ∧ (try_ring_buffer_sp_claim PAD header buffer required_capacity x y).claimed_index
          + required_record_capacity required_capacity ≤ header.capacity
    ∧ (sub_u64 (try_ring_buffer_sp_claim PAD header buffer required_capacity x y).claimed_position
            (load_producer_position header buffer) = 0
        ∨ (sub_u64
              (try_ring_buffer_sp_claim PAD header buffer required_capacity x y).claimed_position
              (load_producer_position header buffer)
            = header.capacity
                - u32 (load_producer_position header buffer &&& sub_u32 header.capacity 1)
          ∧ load_u64 (try_ring_buffer_sp_claim PAD header buffer required_capacity x y).buffer
              (u32 (load_producer_position header buffer &&& sub_u32 header.capacity 1))
            = make_header PAD (header.capacity
                - u32 (load_producer_position header buffer &&& sub_u32 header.capacity 1))
          ∧ (try_ring_buffer_sp_claim PAD header buffer required_capacity x y).claimed_index
              = 0))
    ∧ (∀ q, load_consumer_position header buffer ≤ q →
        q < load_producer_position header buffer →
        ¬ ((try_ring_buffer_sp_claim PAD header buffer required_capacity x y).claimed_index
              ≤ u32 (q &&& sub_u32 header.capacity 1)
            ∧ u32 (q &&& sub_u32 header.capacity 1)
              < (try_ring_buffer_sp_claim PAD header buffer required_capacity x y).claimed_index
                + required_record_capacity required_capacity))
    ∧ (∀ q, load_consumer_position header buffer ≤ q →
        q < load_producer_position header buffer →
        ¬ (u32 (load_producer_position header buffer &&& sub_u32 header.capacity 1)
              ≤ u32 (q &&& sub_u32 header.capacity 1)
            ∧ u32 (q &&& sub_u32 header.capacity 1)
              < u32 (load_producer_position header buffer &&& sub_u32 header.capacity 1)
                + sub_u64
                    (try_ring_buffer_sp_claim PAD header buffer required_capacity x
                      y).claimed_position
                    (load_producer_position header buffer))) := by
  have hrc : required_capacity ≤ header.max_msg_length := by
    by_contra hgt
    rw [try_ring_buffer_sp_claim_oversized PAD header buffer required_capacity x y
      (by omega)] at hok
    cases hok
  have hpplt := load_u64_lt buffer header.producer_position_index
  obtain ⟨hcap1, hcap2⟩ := pow2_bounds header.capacity hp
  obtain ⟨hfok, _, _, _, hfbuf⟩ := try_ring_buffer_sp_claim_frame PAD header buffer
    required_capacity x y _ _ hl hp hrc rfl rfl
  obtain ⟨hopos, hoidx⟩ := try_ring_buffer_sp_claim_outputs PAD header buffer
    required_capacity x y _ _ hl hp hrc rfl rfl
  rw [hok] at hfok
  have hook := hfok.symm
  have hbound := claim_outcome_bound header.capacity _ _ _
    (required_record_capacity required_capacity) hp h1 h2 h3
    (by simp only [load_producer_position]; exact hpplt) hook
  have hpad := claim_outcome_padding header.capacity _ _ _
    (required_record_capacity required_capacity) hp hook
  rw [if_pos hook] at hopos hoidx
  rw [hopos, hoidx]
  simp only [hook, true_and] at hfbuf
  simp only [index_eq_mod _ _ hp, mod_u64_mod _ _ hp]
  simp only [load_producer_position, load_consumer_position, load_consumer_cache_position]
    at h1 h2 h3 hbound hpad hfbuf ⊢
  generalize load_u64 buffer header.producer_position_index = pp at *
  generalize load_u64 buffer header.consumer_position_index = cp at *
  generalize load_u64 buffer header.consumer_cache_position_index = ccp at *
  generalize required_record_capacity required_capacity = S at *
  generalize hpd : (claim_outcome header.capacity ccp cp pp S).padding = padding at *
  have hm : pp % header.capacity < header.capacity := Nat.mod_lt _ (by omega)
  have hsub : sub_u64 (u64 (pp + padding)) pp = padding :=
    sub_u64_u64_add pp padding hpplt (by omega)
  rw [hsub]
  have hfit0 : pp % header.capacity + padding ≤ header.capacity := by
    rw [hpad]; split <;> omega
  have hfit1 : (pp + padding) % header.capacity + S ≤ header.capacity := by
    by_cases hS : S > header.capacity - pp % header.capacity
    · rw [if_pos hS] at hpad
      rw [hpad, add_until_end_mod _ _ (by omega)]
      omega
    · rw [if_neg hS] at hpad
      rw [hpad, Nat.add_zero]
      omega
  refine ⟨trivial, hfit1, ?_, ?_, ?_⟩
  · by_cases hS : S > header.capacity - pp % header.capacity
    · rw [if_pos hS] at hpad
      right
      refine ⟨hpad, ?_, ?_⟩
      · have hne : padding ≠ 0 := by omega
        rw [load_u64_congr _ (store_u64 buffer (pp % header.capacity) (make_header PAD padding))
          (pp % header.capacity) (by
            intro k hk
            rw [hfbuf _ (by omega), if_pos ⟨hne, by omega, by omega⟩]),
          load_u64_store_u64_same, hpad]
        exact Nat.mod_eq_of_lt (make_header_lt _ _)
      · rw [hpad, add_until_end_mod _ _ (by omega)]
    · rw [if_neg hS] at hpad
      exact Or.inl hpad
  · intro q hq1 hq2
    exact not_in_slot header.capacity cp (pp + padding) S q hq1 (by omega) (by omega)
      (by omega) hfit1 (Or.inl (by omega))
  · intro q hq1 hq2
    exact not_in_slot header.capacity cp pp padding q hq1 (by omega) (by omega)
      (by omega) hfit0 (Or.inl hq2)


/-! ### The callback veto: one iteration of the loop -/

theorem batch_read_loop_succ_of_guard {γ : Type} (PAD : Nat) (b : Buffer)
    (cb : MessageConsumer γ) (ci rem count m : Nat) (s0 : BatchLoop γ)
    (hg : batch_read_guard rem count (batch_read_loop PAD b cb ci rem count m s0) = true) :
    batch_read_loop PAD b cb ci rem count (m + 1) s0
      = batch_read_body PAD b cb ci (batch_read_loop PAD b cb ci rem count m s0) := by
  rw [batch_read_loop_add PAD b cb ci rem count m 1 s0]
  simp [batch_read_loop, hg]

theorem batch_read_body_data {γ : Type} (PAD : Nat) (b : Buffer) (cb : MessageConsumer γ)
    (ci : Nat) (s : BatchLoop γ)
    (hlen : 0 < record_length (load_acquire_msg_reader b (u32 (ci + s.bytes_consumed))))
    (hty : message_type_id (load_acquire_msg_reader b (u32 (ci + s.bytes_consumed))) ≠ PAD) :
    batch_read_body PAD b cb ci s =
      { stop := !(cb (message_type_id (load_acquire_msg_reader b (u32 (ci + s.bytes_consumed))))
            b (u32 (u32 (ci + s.bytes_consumed) + RECORD_HEADER_LENGTH))
            (sub_u32 (record_length (load_acquire_msg_reader b (u32 (ci + s.bytes_consumed))))
              RECORD_HEADER_LENGTH) s.context).1,
        bytes_consumed := u32 (s.bytes_consumed
          + align (record_length (load_acquire_msg_reader b (u32 (ci + s.bytes_consumed))))
              RECORD_ALIGNMENT),
        msg_read := u32 (s.msg_read + 1),
        context := (cb (message_type_id (load_acquire_msg_reader b (u32 (ci + s.bytes_consumed))))
            b (u32 (u32 (ci + s.bytes_consumed) + RECORD_HEADER_LENGTH))
            (sub_u32 (record_length (load_acquire_msg_reader b (u32 (ci + s.bytes_consumed))))
              RECORD_HEADER_LENGTH) s.context).2,
        calls := s.calls ++
          [⟨message_type_id (load_acquire_msg_reader b (u32 (ci + s.bytes_consumed))), b,
            u32 (u32 (ci + s.bytes_consumed) + RECORD_HEADER_LENGTH),
            sub_u32 (record_length (load_acquire_msg_reader b (u32 (ci + s.bytes_consumed))))
              RECORD_HEADER_LENGTH⟩] } := by
  unfold batch_read_body
  simp only []
  rw [if_neg (by omega), if_pos hty]

/-! ### The claimed slot in the wrap state -/

/-- Witness of C20: the claim of 16 bytes in `wrap_state` (producer at 48,
consumer at 24) is placed at index 0, and the 24 bytes of the slot end before
the unconsumed bytes. -/
theorem claimed_slot_contiguous_and_free_witness :
    (try_ring_buffer_sp_claim 4294967295 sample_header wrap_state 16 0 0).claimed_index = 0
    ∧ (try_ring_buffer_sp_claim 4294967295 sample_header wrap_state 16 0 0).claimed_index
          + required_record_capacity 16 ≤ sample_header.capacity :=
  ⟨by decide,
    (claimed_slot_contiguous_and_free 4294967295 sample_header wrap_state 16 0 0
      (by decide) (by decide) (by decide) (by decide) (by decide) (by decide)).2.1⟩

/-! ### Failed claims -/

theorem try_ring_buffer_sp_claim_failed (PAD : Nat) (header : ring_buffer_header)
    (buffer : Buffer) (required_capacity x y : Nat) (hl : header_layout header)
    (hfail : (try_ring_buffer_sp_claim PAD header buffer required_capacity x y).ok = false) :
    try_ring_buffer_sp_claim PAD header buffer required_capacity x y
        = ⟨false, buffer, x, y⟩
    ∨ try_ring_buffer_sp_claim PAD header buffer required_capacity x y
        = ⟨false,
            store_consumer_cache_position header buffer (load_consumer_position header buffer),
            x, y⟩ := by
  by_cases hrc : required_capacity > header.max_msg_length
  · exact Or.inl (try_ring_buffer_sp_claim_oversized PAD header buffer required_capacity x y hrc)
  · have heq := try_ring_buffer_sp_claim_eq PAD header buffer required_capacity x y hl
      (by omega)
    rw [heq] at hfail ⊢
    by_cases hok : (claim_outcome header.capacity (load_consumer_cache_position header buffer)
        (load_consumer_position header buffer) (load_producer_position header buffer)
        (required_record_capacity required_capacity)).ok = true
    · rw [if_pos hok] at hfail
      split at hfail <;> cases hfail
    · rw [if_neg hok]
      by_cases href : (claim_outcome header.capacity
          (load_consumer_cache_position header buffer)
          (load_consumer_position header buffer) (load_producer_position header buffer)
          (required_record_capacity required_capacity)).refreshed = true
      · rw [if_pos href]; exact Or.inr rfl
      · rw [if_neg href]; exact Or.inl rfl

/-- C21 (a failed claim publishes nothing).  For every state with the position
words laid out as `init_ring_buffer_header` does and every `required_capacity`,
when `try_ring_buffer_sp_claim` returns false the producer position and the
consumer position are unchanged, every byte of the data region is unchanged,
indeed every byte that is not part of the `consumer_cache_position` word, and
the out parameters `claimed_position` and `claimed_index` hold what they held
before the call; the cached consumer position is either unchanged or it is now
the consumer position. -/
theorem failed_claim_publishes_nothing (PAD : Nat) (header : ring_buffer_header)
    (buffer : Buffer) (required_capacity x y : Nat) (hl : header_layout header)
    (hfail : (try_ring_buffer_sp_claim PAD header buffer required_capacity x y).ok = false) :
    load_producer_position header
        (try_ring_buffer_sp_claim PAD header buffer required_capacity x y).buffer
      = load_producer_position header buffer
    ∧ load_consumer_position header
        (try_ring_buffer_sp_claim PAD header buffer required_capacity x y).buffer
      = load_consumer_position header buffer
    ∧ (∀ i, i < header.capacity →
        (try_ring_buffer_sp_claim PAD header buffer required_capacity x y).buffer i = buffer i)
    ∧ (∀ a, (a < header.consumer_cache_position_index
          ∨ header.consumer_cache_position_index + 8 ≤ a) →
        (try_ring_buffer_sp_claim PAD header buffer required_capacity x y).buffer a = buffer a)
    ∧ (try_ring_buffer_sp_claim PAD header buffer required_capacity x y).claimed_position = x
    ∧ (try_ring_buffer_sp_claim PAD header buffer required_capacity x y).claimed_index = y
    ∧ (load_consumer_cache_position header
          (try_ring_buffer_sp_claim PAD header buffer required_capacity x y).buffer
        = load_consumer_cache_position header buffer
      ∨ load_consumer_cache_position header
          (try_ring_buffer_sp_claim PAD header buffer required_capacity x y).buffer
        = load_consumer_position header buffer) := by
  obtain ⟨l1, l2, l3⟩ := hl
  rcases try_ring_buffer_sp_claim_failed PAD header buffer required_capacity x y
    ⟨l1, l2, l3⟩ hfail with h | h
  · rw [h]
    exact ⟨rfl, rfl, fun _ _ => rfl, fun _ _ => rfl, rfl, rfl, Or.inl rfl⟩
  · rw [h]
    simp only [load_producer_position, load_consumer_position, load_consumer_cache_position,
      store_consumer_cache_position]
    refine ⟨?_, ?_, ?_, ?_, True.intro, True.intro, Or.inr ?_⟩
    · exact load_u64_store_u64_disj _ _ _ _ (Or.inl (by omega))
    · exact load_u64_store_u64_disj _ _ _ _ (Or.inr (by omega))
    · intro i hi
      exact store_u64_apply_out _ _ _ _ (Or.inl (by omega))
    · intro a ha
      exact store_u64_apply_out _ _ _ _ ha
    · rw [load_u64_store_u64_same]
      exact u64_load_u64 _ _

set_option maxRecDepth 100000 in
/-- Witness of C21: on the 64-byte buffer with all positions at 8 but the cached
consumer position still 0, the claim of 56 payload bytes fails; the out
parameters keep their values 5 and 6, the producer position is still 8 and the
cached consumer position is now 8. -/
theorem failed_claim_publishes_nothing_witness :
    refused_claim.ok = false
    ∧ refused_claim.claimed_position = 5
    ∧ refused_claim.claimed_index = 6
    ∧ load_consumer_cache_position sample_header small_read_result.buffer = 0
    ∧ load_consumer_cache_position sample_header refused_claim.buffer = 8
    ∧ load_producer_position sample_header refused_claim.buffer
        = load_producer_position sample_header small_read_result.buffer :=
  ⟨by decide, by decide, by decide, by decide, by decide,
    (failed_claim_publishes_nothing 4294967295 sample_header small_read_result.buffer 56 5 6
      (by decide) (by decide)).1⟩

/-! ### Claims on an empty buffer -/

/-- C22, amended.  For every header as `init_ring_buffer_header` sets it up
(capacity a power of two of at least 8 bytes, `max_msg_length = capacity -
RECORD_HEADER_LENGTH`), every state in which the three positions are equal and
every `required_capacity <= max_msg_length`, `try_ring_buffer_sp_claim` returns
true exactly when the record capacity `S = required_record_capacity
required_capacity` fits the bytes from the producer index to the end of the data
region or the bytes before the consumer index; so it returns true whenever the
index of the positions is 0, and whenever `2 * S <= capacity`. -/
theorem empty_buffer_claim (PAD : Nat) (header : ring_buffer_header) (buffer : Buffer)
    (required_capacity x y : Nat) (hh : header_ok header)
    (hccp : load_consumer_cache_position header buffer = load_consumer_position header buffer)
    (hpp : load_producer_position header buffer = load_consumer_position header buffer)
    (hrc : required_capacity ≤ header.max_msg_length) :
    ((try_ring_buffer_sp_claim PAD header buffer required_capacity x y).ok = true
        ↔ (required_record_capacity required_capacity
              ≤ header.capacity
                - u32 (load_producer_position header buffer &&& sub_u32 header.capacity 1)
          ∨ required_record_capacity required_capacity
              ≤ u32 (load_consumer_position header buffer &&& sub_u32 header.capacity 1)))
    ∧ (u32 (load_producer_position header buffer &&& sub_u32 header.capacity 1) = 0 →
        (try_ring_buffer_sp_claim PAD header buffer required_capacity x y).ok = true)
    ∧ (2 * required_record_capacity required_capacity ≤ header.capacity →
        (try_ring_buffer_sp_claim PAD header buffer required_capacity x y).ok = true) := by
  obtain ⟨h8, hcap, hc8, hmax⟩ := header_ok_facts header hh
  obtain ⟨hl, hp, _, _⟩ := hh
  obtain ⟨hfok, _⟩ := try_ring_buffer_sp_claim_frame PAD header buffer
    required_capacity x y _ _ hl hp hrc rfl rfl
  have hS := (required_record_capacity_eq required_capacity header.capacity hcap
    (by omega)).1
  have hSle : required_record_capacity required_capacity ≤ header.capacity := by
    rw [hS]; omega
  have hcplt := load_u64_lt buffer header.consumer_position_index
  rw [hfok, hccp, hpp]
  rw [claim_outcome_mod header.capacity _ _ _ _ hp (le_refl _) (le_refl _)
    (Nat.le_add_right _ _) (by simp only [load_consumer_position]; exact hcplt)]
  simp only [index_eq_mod _ _ hp]
  generalize required_record_capacity required_capacity = S at hSle ⊢
  generalize load_consumer_position header buffer = p
  have hm : p % header.capacity < header.capacity := Nat.mod_lt _ (by omega)
  have hfull : ¬ (S > header.capacity - (p - p) ∧ S > header.capacity - (p - p)) := by
    omega
  rw [if_neg hfull]
  have hd : decide (S > header.capacity - (p - p)) = false := by
    simp only [decide_eq_false_iff_not]; omega
  have hi : (if S > header.capacity - (p - p) then p else p) = p := by split <;> rfl
  rw [hd, hi]
  have key : (if S > header.capacity - p % header.capacity then
        if S > p % header.capacity then
          if S > p % header.capacity then (⟨false, false, 0⟩ : ClaimOutcome)
          else ⟨true, true, header.capacity - p % header.capacity⟩
        else ⟨true, false, header.capacity - p % header.capacity⟩
      else ⟨true, false, 0⟩).ok = true
      ↔ (S ≤ header.capacity - p % header.capacity ∨ S ≤ p % header.capacity) := by
    by_cases h1 : S > header.capacity - p % header.capacity
    · rw [if_pos h1]
      by_cases h2 : S > p % header.capacity
      · rw [if_pos h2, if_pos h2]
        constructor
        · intro h; cases h
        · intro h; omega
      · rw [if_neg h2]
        exact ⟨fun _ => Or.inr (by omega), fun _ => rfl⟩
    · rw [if_neg h1]
      exact ⟨fun _ => Or.inl (by omega), fun _ => rfl⟩
  refine ⟨key, ?_, ?_⟩
  · intro h0
    exact key.2 (Or.inl (by omega))
  · intro h2
    exact key.2 (by omega)

set_option maxRecDepth 100000 in
/-- Witness of C22, amended: in the state `empty_at_8` the claim of 48 payload
bytes, a record of 56 bytes, fits the 56 bytes until the end of the data region
and succeeds. -/
theorem empty_buffer_claim_witness :
    required_record_capacity 48 = 56
    ∧ (try_ring_buffer_sp_claim 4294967295 sample_header empty_at_8 48 0 0).ok = true :=
  ⟨by decide,
    (empty_buffer_claim 4294967295 sample_header empty_at_8 48 0 0
      (init_header_ok sample_header sample_header 576 sample_header_init (by decide))
      (by decide) (by decide) (by decide)).1.2 (Or.inl (by decide))⟩

/-! ### Slots between the consumer and the producer position -/

theorem slots_span_append (xs ys : List Slot) :
    slots_span (xs ++ ys) = slots_span xs + slots_span ys := by
  induction xs with
  | nil => simp [slots_span]
  | cons x xs ih =>
    rw [List.cons_append]
    simp only [slots_span, ih, Nat.add_assoc]

theorem slots_ok_append (mx cap : Nat) (b : Buffer) (xs ys : List Slot) :
    ∀ p, slots_ok mx cap b p (xs ++ ys)
      ↔ (slots_ok mx cap b p xs ∧ slots_ok mx cap b (p + slots_span xs) ys) := by
  induction xs with
  | nil => intro p; simp [slots_ok, slots_span]
  | cons x xs ih =>
    intro p
    rw [List.cons_append]
    cases x with
    | claimed n =>
      simp only [slots_ok, slots_span, Slot.size, ih, ← Nat.add_assoc, and_assoc]
    | written r =>
      simp only [slots_ok, slots_span, Slot.size, ih, ← Nat.add_assoc, and_assoc]

theorem claimed_size_bounds (mx cap n : Nat) (hcap : cap ≤ 2147483648) (hmx : mx + 8 ≤ cap)
    (hn : n ≤ mx) :
    8 ≤ required_record_capacity n ∧ n + 8 ≤ required_record_capacity n
    ∧ required_record_capacity n % 8 = 0 := by
  have hS := (required_record_capacity_eq n cap hcap (by omega)).1
  rw [hS]
  omega

theorem slots_ok_agree (mx cap : Nat) (b b2 : Buffer) (hcap : cap ≤ 2147483648)
    (hmx : mx + 8 ≤ cap) (xs : List Slot) :
    ∀ p, (∀ q, p ≤ q → q < p + slots_span xs → b2 (q % cap) = b (q % cap)) →
      slots_ok mx cap b p xs → slots_ok mx cap b2 p xs := by
  induction xs with
  | nil => intro p _ _; trivial
  | cons x xs ih =>
    intro p hag h
    cases x with
    | claimed n =>
      obtain ⟨hn, hz, hfit, hrest⟩ := h
      have hsz := claimed_size_bounds mx cap n hcap hmx hn
      refine ⟨hn, ?_, hfit, ?_⟩
      · intro k hk
        have e := mod_add_of_lt cap p k (by omega)
        rw [← e, hag _ (by omega) (by simp only [slots_span, Slot.size]; omega), e]
        exact hz k hk
      · apply ih
        · intro q h1 h2
          apply hag
          · omega
          · simp only [slots_span, Slot.size]; omega
        · exact hrest
    | written r =>
      obtain ⟨hh, ht, h8, hlen, hns, hrest⟩ := h
      have hsz := rec_size_bounds r cap hcap h8 hlen
      refine ⟨?_, ht, h8, hlen, hns, ?_⟩
      · rw [← hh]
        apply load_u64_congr
        intro k hk
        have e := mod_add_of_lt cap p k (by omega)
        rw [← e]
        apply hag
        · omega
        · simp only [slots_span, Slot.size]; omega
      · apply ih
        · intro q h1 h2
          apply hag
          · omega
          · simp only [slots_span, Slot.size]; omega
        · exact hrest

theorem slots_span_mod8 (mx cap : Nat) (b : Buffer) (hcap : cap ≤ 2147483648)
    (hmx : mx + 8 ≤ cap) (xs : List Slot) :
    ∀ p, slots_ok mx cap b p xs → slots_span xs % 8 = 0 := by
  induction xs with
  | nil => intro p _; rfl
  | cons x xs ih =>
    intro p h
    cases x with
    | claimed n =>
      obtain ⟨hn, _, _, hrest⟩ := h
      have := claimed_size_bounds mx cap n hcap hmx hn
      have := ih _ hrest
      simp only [slots_span, Slot.size]
      omega
    | written r =>
      obtain ⟨_, _, h8, hlen, _, hrest⟩ := h
      have := rec_size_bounds r cap hcap h8 hlen
      have := ih _ hrest
      simp only [slots_span, Slot.size]
      omega

theorem claimed_of_append (cap : Nat) (xs ys : List Slot) :
    ∀ p, claimed_of cap p (xs ++ ys)
      = claimed_of cap p xs ++ claimed_of cap (p + slots_span xs) ys := by
  induction xs with
  | nil => intro p; simp [claimed_of, slots_span]
  | cons x xs ih =>
    intro p
    rw [List.cons_append]
    cases x with
    | claimed n =>
      simp only [claimed_of, slots_span, Slot.size, ih, ← Nat.add_assoc, List.cons_append]
    | written r =>
      simp only [claimed_of, slots_span, Slot.size, ih, ← Nat.add_assoc]

theorem deliveries_slots_append (PAD cap : Nat) (xs ys : List Slot) :
    ∀ p, deliveries_slots PAD cap p (xs ++ ys)
      = deliveries_slots PAD cap p xs ++ deliveries_slots PAD cap (p + slots_span xs) ys := by
  induction xs with
  | nil => intro p; simp [deliveries_slots, slots_span]
  | cons x xs ih =>
    intro p
    rw [List.cons_append]
    cases x with
    | claimed n =>
      simp only [deliveries_slots, slots_span, Slot.size, ih, ← Nat.add_assoc]
    | written r =>
      simp only [deliveries_slots, slots_span, Slot.size, ih, ← Nat.add_assoc,
        List.append_assoc]

theorem mem_claimed_of (cap i n : Nat) (xs : List Slot) :
    ∀ p, (i, n) ∈ claimed_of cap p xs →
      ∃ a b, xs = a ++ Slot.claimed n :: b ∧ i = (p + slots_span a) % cap
        ∧ (i, n) ∉ claimed_of cap p a := by
  induction xs with
  | nil => intro p h; simp [claimed_of] at h
  | cons x xs ih =>
    intro p h
    cases x with
    | claimed m =>
      simp only [claimed_of, List.mem_cons] at h
      by_cases he : (i, n) = (p % cap, m)
      · simp only [Prod.mk.injEq] at he
        obtain ⟨rfl, rfl⟩ := he
        exact ⟨[], xs, rfl, by simp [slots_span], by simp [claimed_of]⟩
      · rcases h with h | h
        · exact absurd h he
        · obtain ⟨a, b, hx, hi, hni⟩ := ih _ h
          refine ⟨Slot.claimed m :: a, b, by rw [hx]; rfl, ?_, ?_⟩
          · rw [hi]; simp only [slots_span, Slot.size, Nat.add_assoc]
          · simp only [claimed_of, List.mem_cons, not_or]
            exact ⟨he, hni⟩
    | written r =>
      simp only [claimed_of] at h
      obtain ⟨a, b, hx, hi, hni⟩ := ih _ h
      refine ⟨Slot.written r :: a, b, by rw [hx]; rfl, ?_, ?_⟩
      · rw [hi]; simp only [slots_span, Slot.size, Nat.add_assoc]
      · simp only [claimed_of]
        exact hni

theorem written_front_laid_out (mx cap : Nat) (b : Buffer) (xs : List Slot) :
    ∀ p, slots_ok mx cap b p xs → laid_out cap b p (written_front xs) := by
  induction xs with
  | nil => intro p _; trivial
  | cons x xs ih =>
    intro p h
    cases x with
    | claimed n => trivial
    | written r =>
      obtain ⟨hh, ht, h8, hlen, hns, hrest⟩ := h
      exact ⟨hh, ht, h8, hlen, hns, ih _ hrest⟩

theorem written_front_span_le (xs : List Slot) :
    span (written_front xs) ≤ slots_span xs := by
  induction xs with
  | nil => simp [written_front, span]
  | cons x xs ih =>
    cases x with
    | claimed n => simp [written_front, span]
    | written r => simp only [written_front, span, slots_span, Slot.size]; omega

theorem written_front_end_zero (mx cap : Nat) (b : Buffer) (xs : List Slot) :
    ∀ p, slots_ok mx cap b p xs → span (written_front xs) < slots_span xs →
      ∀ k, k < 8 → b ((p + span (written_front xs)) % cap + k) = 0 := by
  induction xs with
  | nil => intro p _ h; simp [written_front, span, slots_span] at h
  | cons x xs ih =>
    intro p h hlt
    cases x with
    | claimed n =>
      obtain ⟨_, hz, _, _⟩ := h
      simpa [written_front, span] using hz
    | written r =>
      obtain ⟨_, _, _, _, _, hrest⟩ := h
      simp only [written_front, span, slots_span, Slot.size] at hlt ⊢
      rw [← Nat.add_assoc]
      exact ih _ hrest (by omega)

theorem slots_drop_written (PAD mx cap : Nat) (b : Buffer) :
    ∀ (j : Nat) (xs : List Slot) (p : Nat), j ≤ (written_front xs).length →
      slots_span xs = span ((written_front xs).take j) + slots_span (xs.drop j)
      ∧ (slots_ok mx cap b p xs →
          slots_ok mx cap b (p + span ((written_front xs).take j)) (xs.drop j))
      ∧ claimed_of cap p xs
          = claimed_of cap (p + span ((written_front xs).take j)) (xs.drop j)
      ∧ deliveries_slots PAD cap p xs
          = deliveries_of PAD cap p ((written_front xs).take j)
            ++ deliveries_slots PAD cap (p + span ((written_front xs).take j)) (xs.drop j)
      ∧ (pads_after_claim PAD xs → pads_after_claim PAD (xs.drop j)) := by
  intro j
  induction j with
  | zero =>
    intro xs p _
    simp [span, deliveries_of]
  | succ j ih =>
    intro xs p hj
    cases xs with
    | nil => simp [written_front] at hj
    | cons x xs =>
      cases x with
      | claimed n => simp [written_front] at hj
      | written r =>
        simp only [written_front, List.length_cons, Nat.add_le_add_iff_right] at hj
        obtain ⟨h1, h2, h3, h4, h5⟩ := ih xs (p + rec_size r) hj
        simp only [written_front, List.take_succ_cons, List.drop_succ_cons, span, slots_span,
          Slot.size, claimed_of, deliveries_slots, deliveries_of, pads_after_claim,
          ← Nat.add_assoc, List.append_assoc]
        refine ⟨by omega, ?_, h3, by rw [h4], h5⟩
        intro h
        exact h2 h.2.2.2.2.2

theorem pads_of_all (PAD : Nat) (xs : List Slot)
    (h : ∀ r, Slot.written r ∈ xs → r.1 = PAD) : pads_after_claim PAD xs := by
  induction xs with
  | nil => trivial
  | cons x xs ih =>
    cases x with
    | claimed n =>
      intro r hr
      exact h r (List.mem_cons_of_mem _ hr)
    | written r0 =>
      exact ih (fun r hr => h r (List.mem_cons_of_mem _ hr))

theorem pads_after_claim_append (PAD : Nat) (ys : List Slot)
    (hys : ∀ r, Slot.written r ∈ ys → r.1 = PAD) :
    ∀ xs, pads_after_claim PAD xs → pads_after_claim PAD (xs ++ ys) := by
  intro xs
  induction xs with
  | nil => intro _; exact pads_of_all PAD ys hys
  | cons x xs ih =>
    intro h
    rw [List.cons_append]
    cases x with
    | claimed n =>
      intro r hr
      rcases List.mem_append.1 hr with hr | hr
      · exact h r hr
      · exact hys r hr
    | written r0 => exact ih h

theorem deliveries_slots_pads (PAD cap : Nat) (xs : List Slot) :
    ∀ p, (∀ r, Slot.written r ∈ xs → r.1 = PAD) → deliveries_slots PAD cap p xs = [] := by
  induction xs with
  | nil => intro p _; rfl
  | cons x xs ih =>
    intro p h
    cases x with
    | claimed n =>
      simp only [deliveries_slots]
      exact ih _ (fun r hr => h r (List.mem_cons_of_mem _ hr))
    | written r0 =>
      simp only [deliveries_slots]
      rw [if_neg (by simp [h r0 (List.mem_cons_self _ _)]),
        ih _ (fun r hr => h r (List.mem_cons_of_mem _ hr))]
      rfl

theorem pads_after_first_claim (PAD cap n : Nat) (b : List Slot) :
    ∀ (a : List Slot) (p : Nat), claimed_of cap p a = [] →
      pads_after_claim PAD (a ++ Slot.claimed n :: b) →
      ∀ r, Slot.written r ∈ b → r.1 = PAD := by
  intro a
  induction a with
  | nil => intro p _ h; exact h
  | cons x a ih =>
    intro p hc h
    cases x with
    | claimed m => simp [claimed_of] at hc
    | written r0 => exact ih _ hc h

theorem pads_after_commit_front (PAD cap : Nat) (r0 : Rec) (b : List Slot)
    (hb : ∀ r, Slot.written r ∈ b → r.1 = PAD) :
    ∀ (a : List Slot) (p : Nat), claimed_of cap p a = [] →
      pads_after_claim PAD (a ++ Slot.written r0 :: b) := by
  intro a
  induction a with
  | nil => intro p _; exact pads_of_all PAD b hb
  | cons x a ih =>
    intro p hc
    cases x with
    | claimed m => simp [claimed_of] at hc
    | written r1 => exact ih _ hc

/-! ### The invariant of sequential runs: claims, writes, commits and reads -/

theorem run_inv_init (PAD : Nat) (header : ring_buffer_header) (in_order : Bool) :
    run_inv PAD header in_order ⟨zero_buffer, [], [], []⟩ [] := by
  unfold run_inv
  refine ⟨?_, ?_, ?_, ?_, ?_, ?_, ?_, ?_, ?_, ?_⟩ <;>
    simp [load_consumer_cache_position, load_consumer_position, load_producer_position,
      load_u64_zero_buffer, slots_ok, slots_span, claimed_of, deliveries_slots,
      pads_after_claim, zero_buffer]

theorem run_inv_end_zero (PAD : Nat) (header : ring_buffer_header) (in_order : Bool)
    (s : RunState) (slots : List Slot) (hh : header_ok header)
    (hinv : run_inv PAD header in_order s slots) :
    span (written_front slots)
        < header.capacity - load_consumer_position header s.buffer % header.capacity →
      record_length (load_u64 s.buffer
        ((load_consumer_position header s.buffer + span (written_front slots))
          % header.capacity)) = 0 := by
  obtain ⟨h8, hcap, hc8, hmax⟩ := header_ok_facts header hh
  obtain ⟨i1, i2, i3, i4, i5, i6, i7, i8, i9, i10⟩ := hinv
  simp only [load_consumer_cache_position, load_consumer_position, load_producer_position]
    at i1 i2 i3 i4 i5 i6 i7 i8 i9 i10 ⊢
  generalize load_u64 s.buffer header.consumer_position_index = cp at *
  generalize load_u64 s.buffer header.producer_position_index = pp at *
  generalize load_u64 s.buffer header.consumer_cache_position_index = ccp at *
  have hci : cp % header.capacity < header.capacity := Nat.mod_lt _ (by omega)
  have hci8 : cp % header.capacity % 8 = 0 := by rw [mod_mod8 _ _ hc8]; exact i4
  have hlaid := written_front_laid_out _ _ _ slots cp i6
  have hsp8 := span_mod8 header.capacity s.buffer hcap (written_front slots) cp hlaid
  have hle := written_front_span_le slots
  intro hlt
  have hidx : (cp + span (written_front slots)) % header.capacity
      = cp % header.capacity + span (written_front slots) :=
    mod_add_of_lt _ _ _ (by omega)
  have hz : load_u64 s.buffer ((cp + span (written_front slots)) % header.capacity) = 0 := by
    apply load_u64_zero
    intro k hk
    by_cases hlt2 : span (written_front slots) < slots_span slots
    · exact written_front_end_zero _ _ _ slots cp i6 hlt2 k hk
    · have := i7 (cp + span (written_front slots) + k) (by omega) (by omega)
      rw [mod_add_of_lt _ _ _ (by omega)] at this
      exact this
  rw [hz]
  rfl

theorem run_inv_read {γ : Type} (PAD : Nat) (header : ring_buffer_header) (in_order : Bool)
    (s : RunState) (slots : List Slot) (fuel count : Nat) (cb : MessageConsumer γ)
    (context : γ) (r : BatchResult γ) (hh : header_ok header)
    (hinv : run_inv PAD header in_order s slots) (hcount : count < 4294967296)
    (hr : ring_buffer_batch_read PAD fuel header s.buffer cb count context = some r) :
    ∃ j, j ≤ (written_front slots).length
      ∧ r.calls.map Call.triple
          = deliveries_of PAD header.capacity (load_consumer_position header s.buffer)
              ((written_front slots).take j)
      ∧ load_consumer_position header r.buffer
          = load_consumer_position header s.buffer + span ((written_front slots).take j)
      ∧ load_consumer_position header s.buffer % header.capacity
            + span ((written_front slots).take j)
          ≤ header.capacity
      ∧ load_producer_position header r.buffer = load_producer_position header s.buffer
      ∧ run_inv PAD header in_order
          ⟨r.buffer, s.claimed, s.committed, s.delivered ++ r.calls.map Call.triple⟩
          (slots.drop j) := by
  obtain ⟨h8, hcap, hc8, hmax⟩ := header_ok_facts header hh
  have hend := run_inv_end_zero PAD header in_order s slots hh hinv
  obtain ⟨hl, hp, _, _⟩ := hh
  obtain ⟨i1, i2, i3, i4, i5, i6, i7, i8, i9, i10⟩ := hinv
  have hpplt := load_u64_lt s.buffer header.producer_position_index
  have hcplt := load_u64_lt s.buffer header.consumer_position_index
  simp only [load_consumer_cache_position, load_consumer_position, load_producer_position]
    at i1 i2 i3 i4 i5 i6 i7 i8 i9 i10 hend ⊢
  generalize hcpe : load_u64 s.buffer header.consumer_position_index = cp at *
  generalize hppe : load_u64 s.buffer header.producer_position_index = pp at *
  generalize hccpe : load_u64 s.buffer header.consumer_cache_position_index = ccp at *
  have hci : cp % header.capacity < header.capacity := Nat.mod_lt _ (by omega)
  have hci8 : cp % header.capacity % 8 = 0 := by rw [mod_mod8 _ _ hc8]; exact i4
  have hlaid := written_front_laid_out _ _ _ slots cp i6
  have hle := written_front_span_le slots
  generalize hrs : written_front slots = rs at *
  obtain ⟨j, r2, hj, hr2, hcalls, _, _, hbuf, hfit, _, _⟩ :=
    ring_buffer_batch_read_records PAD (max fuel (rs.length + 1)) header s.buffer cb
      count context rs cp hp hcount
      (by simp only [load_consumer_position]; exact hcpe.symm) hlaid hend
      (Nat.le_max_right _ _)
  have hr' := ring_buffer_batch_read_mono PAD fuel (max fuel (rs.length + 1)) header
    s.buffer cb count context r (Nat.le_max_left _ _) hr
  rw [hr2] at hr'
  cases hr'
  have hbc_le := span_take_le rs j
  have hbc8 := span_mod8 header.capacity s.buffer hcap (rs.take j) cp
    (laid_out_take _ _ _ j _ hlaid)
  obtain ⟨d1, d2, d3, d4, d5⟩ :=
    slots_drop_written PAD header.max_msg_length header.capacity s.buffer j slots cp
      (by rw [hrs]; exact hj)
  rw [hrs] at d1 d2 d3 d4
  have hF : load_u64 r.buffer header.consumer_position_index = cp + span (rs.take j)
      ∧ load_u64 r.buffer header.producer_position_index = pp
      ∧ load_u64 r.buffer header.consumer_cache_position_index = ccp
      ∧ (∀ i, i < header.capacity + 8 →
          r.buffer i = if cp % header.capacity ≤ i
              ∧ i < cp % header.capacity + span (rs.take j) then 0
            else s.buffer i) := by
    rw [hbuf]
    split
    · have hfr := read_buffer_frame header s.buffer (cp % header.capacity)
        (span (rs.take j)) (u64 (cp + span (rs.take j))) hl hfit
      simp only [load_consumer_position, load_producer_position,
        load_consumer_cache_position] at hfr
      refine ⟨?_, ?_, ?_, hfr.2.2.2⟩
      · rw [hfr.1]; unfold u64; omega
      · rw [hfr.2.1]; exact hppe
      · rw [hfr.2.2.1]; exact hccpe
    · rename_i h0
      have h00 : span (rs.take j) = 0 := by
        by_contra hne
        exact h0 hne
      refine ⟨by rw [h00]; exact hcpe, hppe, hccpe, ?_⟩
      intro i _
      rw [h00, if_neg (by omega)]
  obtain ⟨hF1, hF2, hF3, hF4⟩ := hF
  have hqm : ∀ q, q % header.capacity < header.capacity + 8 := by
    intro q
    have := Nat.mod_lt q (show 0 < header.capacity by omega)
    omega
  refine ⟨j, hj, ?_, hF1, hfit, hF2, ?_⟩
  · rw [hcalls, calls_of_triple]
  · unfold run_inv
    simp only [load_consumer_cache_position, load_consumer_position, load_producer_position,
      hF1, hF2, hF3]
    refine ⟨by omega, by omega, by omega, by omega, i5, ?_, ?_, by omega, ?_, ?_⟩
    · apply slots_ok_agree header.max_msg_length header.capacity s.buffer _ hcap (by omega)
        _ _ _ (d2 i6)
      intro q hq1 hq2
      rw [hF4 _ (hqm q), if_neg (not_in_consumed _ _ _ _ hfit hq1 (by omega))]
    · intro q hq1 hq2
      rw [hF4 _ (hqm q)]
      split
      · rfl
      · rename_i hnin
        by_cases hq : q < cp + header.capacity
        · exact i7 q hq1 hq
        · exact absurd (in_consumed _ _ _ _ hfit (by omega) hq2) hnin
    · rw [i9, d3]
    · intro hio
      obtain ⟨g1, g2⟩ := i10 hio
      refine ⟨d5 g1, ?_⟩
      rw [g2, d4, hcalls, calls_of_triple, List.append_assoc]

theorem run_inv_write (PAD : Nat) (header : ring_buffer_header) (in_order : Bool)
    (s : RunState) (slots : List Slot) (i n k v : Nat) (hh : header_ok header)
    (hinv : run_inv PAD header in_order s slots) (hcl : (i, n) ∈ s.claimed) (hk : k < n) :
    run_inv PAD header in_order
      ⟨write_payload s.buffer i k v, s.claimed, s.committed, s.delivered⟩ slots := by
  obtain ⟨h8, hcap, hc8, hmax⟩ := header_ok_facts header hh
  obtain ⟨hl, hp, _, _⟩ := hh
  obtain ⟨l1, l2, l3⟩ := hl
  obtain ⟨i1, i2, i3, i4, i5, i6, i7, i8, i9, i10⟩ := hinv
  rw [i9] at hcl
  obtain ⟨a, b, hx, hi, _⟩ := mem_claimed_of _ _ _ _ _ hcl
  subst hx
  rw [slots_ok_append] at i6
  obtain ⟨oka, hn, hz, hfit, okb⟩ := i6
  rw [slots_span_append] at i8
  simp only [slots_span, Slot.size] at i8
  have hsz := claimed_size_bounds header.max_msg_length header.capacity n hcap (by omega) hn
  have hload : ∀ j, header.capacity + 8 ≤ j →
      load_u64 (write_payload s.buffer i k v) j = load_u64 s.buffer j := by
    intro j hj
    apply load_u64_congr
    intro d _
    unfold write_payload RECORD_HEADER_LENGTH
    rw [if_neg (by omega)]
  simp only [load_consumer_cache_position, load_consumer_position, load_producer_position]
    at i1 i2 i3 i4 i5 oka hz hfit okb i7 i8 i9 i10 hi
  unfold run_inv
  simp only [load_consumer_cache_position, load_consumer_position, load_producer_position,
    hload _ (show header.capacity + 8 ≤ header.producer_position_index by omega),
    hload _ (show header.capacity + 8 ≤ header.consumer_cache_position_index by omega),
    hload _ (show header.capacity + 8 ≤ header.consumer_position_index by omega)]
  generalize load_u64 s.buffer header.consumer_position_index = cp at *
  generalize load_u64 s.buffer header.producer_position_index = pp at *
  generalize load_u64 s.buffer header.consumer_cache_position_index = ccp at *
  have hbyte : ∀ q, cp ≤ q → q < cp + header.capacity →
      (q < cp + slots_span a ∨ cp + slots_span a + required_record_capacity n ≤ q) →
      write_payload s.buffer i k v (q % header.capacity) = s.buffer (q % header.capacity) := by
    intro q hq1 hq2 hq3
    have := not_in_slot header.capacity cp (cp + slots_span a) (required_record_capacity n) q
      hq1 hq2 (by omega) (by omega) hfit hq3
    rw [← hi] at this
    unfold write_payload RECORD_HEADER_LENGTH
    rw [if_neg (by omega)]
  refine ⟨i1, i2, i3, i4, i5, ?_, ?_, ?_, i9, i10⟩
  · rw [slots_ok_append]
    refine ⟨?_, hn, ?_, hfit, ?_⟩
    · apply slots_ok_agree _ header.capacity s.buffer _ hcap (by omega) _ _ _ oka
      intro q hq1 hq2
      exact hbyte q hq1 (by omega) (Or.inl hq2)
    · intro d hd
      unfold write_payload RECORD_HEADER_LENGTH
      rw [if_neg (by omega)]
      exact hz d hd
    · apply slots_ok_agree _ header.capacity s.buffer _ hcap (by omega) _ _ _ okb
      intro q hq1 hq2
      exact hbyte q (by omega) (by omega) (Or.inr hq1)
  · intro q hq1 hq2
    rw [hbyte q (by omega) hq2 (Or.inr (by omega))]
    exact i7 q hq1 hq2
  · rw [slots_span_append]
    simp only [slots_span, Slot.size]
    exact i8

theorem run_inv_commit (PAD : Nat) (header : ring_buffer_header) (in_order : Bool)
    (s : RunState) (slots : List Slot) (i n t : Nat) (hh : header_ok header)
    (hinv : run_inv PAD header in_order s slots) (hcl : (i, n) ∈ s.claimed)
    (hord : in_order = true → s.claimed.head? = some (i, n))
    (hchk : check_msg_type_id PAD t = true) (ht : t < 4294967296) :
    ∃ slots2, run_inv PAD header in_order
      ⟨(ring_buffer_commit PAD s.buffer i t n).2, s.claimed.erase (i, n),
        s.committed ++ [(t, i + RECORD_HEADER_LENGTH, n)], s.delivered⟩ slots2 := by
  obtain ⟨h8, hcap, hc8, hmax⟩ := header_ok_facts header hh
  obtain ⟨hl, hp, _, _⟩ := hh
  obtain ⟨l1, l2, l3⟩ := hl
  obtain ⟨i1, i2, i3, i4, i5, i6, i7, i8, i9, i10⟩ := hinv
  rw [i9] at hcl
  obtain ⟨a, b, hx, hi, hni⟩ := mem_claimed_of _ _ _ _ _ hcl
  subst hx
  rw [slots_ok_append] at i6
  obtain ⟨oka, hn, hz, hfit, okb⟩ := i6
  rw [slots_span_append] at i8
  simp only [slots_span, Slot.size] at i8
  rw [claimed_of_append] at i9
  simp only [claimed_of] at i9
  rw [deliveries_slots_append] at i10
  simp only [deliveries_slots] at i10
  have hsz := claimed_size_bounds header.max_msg_length header.capacity n hcap (by omega) hn
  have hS := required_record_capacity_eq n header.capacity hcap (by omega)
  have hSr : rec_size (t, n + 8) = required_record_capacity n := by
    rw [hS.2]; rfl
  have hb' : (ring_buffer_commit PAD s.buffer i t n).2
      = store_u64 s.buffer i (make_header t (n + 8)) := by
    unfold ring_buffer_commit
    simp only [hchk, Bool.not_true, Bool.false_eq_true, if_false, store_release_msg_header,
      RECORD_HEADER_LENGTH]
    have : u32 (n + 8) = n + 8 := by unfold u32; omega
    rw [this]
  have htp : t ≠ PAD := by
    unfold check_msg_type_id at hchk
    simp only [Bool.and_eq_true, decide_eq_true_eq] at hchk
    exact hchk.1
  rw [hb']
  simp only [load_consumer_cache_position, load_consumer_position, load_producer_position]
    at i1 i2 i3 i4 i5 oka hz hfit okb i7 i8 i9 i10 hi hni
  refine ⟨a ++ Slot.written (t, n + 8) :: b, ?_⟩
  unfold run_inv
  simp only [load_consumer_cache_position, load_consumer_position, load_producer_position]
  rw [load_u64_store_u64_disj _ _ _ _ (by omega), load_u64_store_u64_disj _ _ _ _ (by omega),
    load_u64_store_u64_disj _ _ _ _ (by omega)]
  generalize load_u64 s.buffer header.consumer_position_index = cp at *
  generalize load_u64 s.buffer header.producer_position_index = pp at *
  generalize load_u64 s.buffer header.consumer_cache_position_index = ccp at *
  have hbyte : ∀ q, cp ≤ q → q < cp + header.capacity →
      (q < cp + slots_span a ∨ cp + slots_span a + 8 ≤ q) →
      store_u64 s.buffer i (make_header t (n + 8)) (q % header.capacity)
        = s.buffer (q % header.capacity) := by
    intro q hq1 hq2 hq3
    have := not_in_slot header.capacity cp (cp + slots_span a) 8 q hq1 hq2 (by omega)
      (by omega) (by omega) hq3
    rw [← hi] at this
    apply store_u64_apply_out
    omega
  refine ⟨i1, i2, i3, i4, i5, ?_, ?_, ?_, ?_, ?_⟩
  · rw [slots_ok_append]
    refine ⟨?_, ?_, ht, by simp, by simp only []; omega, ?_, ?_⟩
    · apply slots_ok_agree _ header.capacity s.buffer _ hcap (by omega) _ _ _ oka
      intro q hq1 hq2
      exact hbyte q hq1 (by omega) (Or.inl hq2)
    · show load_u64 _ ((cp + slots_span a) % header.capacity) = make_header t (n + 8)
      rw [← hi, load_u64_store_u64_same]
      have := make_header_lt t (n + 8)
      unfold u64; omega
    · rw [hSr]; exact hfit
    · rw [hSr]
      apply slots_ok_agree _ header.capacity s.buffer _ hcap (by omega) _ _ _ okb
      intro q hq1 hq2
      exact hbyte q (by omega) (by omega) (Or.inr (by omega))
  · intro q hq1 hq2
    rw [hbyte q (by omega) hq2 (Or.inr (by omega))]
    exact i7 q hq1 hq2
  · rw [slots_span_append]
    simp only [slots_span, Slot.size, hSr]
    exact i8
  · rw [i9, ← hi, List.erase_append_right _ hni, List.erase_cons_head, claimed_of_append]
    simp only [claimed_of, hSr]
  · intro hio
    obtain ⟨g1, g2⟩ := i10 hio
    have hhead := hord hio
    have hca : claimed_of header.capacity cp a = [] := by
      cases hc : claimed_of header.capacity cp a with
      | nil => rfl
      | cons c cs =>
        rw [i9, hc] at hhead
        simp only [List.cons_append, List.head?_cons, Option.some.injEq] at hhead
        rw [hc, hhead] at hni
        exact absurd (List.mem_cons_self _ _) hni
    have hpb := pads_after_first_claim PAD header.capacity n b a cp hca g1
    refine ⟨pads_after_commit_front PAD header.capacity _ b hpb a cp hca, ?_⟩
    rw [g2, deliveries_slots_append]
    simp only [deliveries_slots, deliveries_slots_pads PAD header.capacity b _ hpb,
      if_pos htp, List.append_nil, List.append_assoc, ← hi, RECORD_HEADER_LENGTH,
      Nat.add_sub_cancel]

theorem run_inv_claim (PAD : Nat) (header : ring_buffer_header) (in_order : Bool)
    (s : RunState) (slots : List Slot) (n x y : Nat) (hh : header_ok header)
    (hPAD : PAD < 4294967296) (hinv : run_inv PAD header in_order s slots)
    (hno : load_producer_position header s.buffer + header.capacity
      < 18446744073709551616) :
    ∃ slots2, run_inv PAD header in_order
      ⟨(try_ring_buffer_sp_claim PAD header s.buffer n x y).buffer,
        if (try_ring_buffer_sp_claim PAD header s.buffer n x y).ok = true then
          s.claimed ++ [((try_ring_buffer_sp_claim PAD header s.buffer n x y).claimed_index, n)]
        else s.claimed,
        s.committed, s.delivered⟩ slots2 := by
  by_cases hrc : n > header.max_msg_length
  · rw [try_ring_buffer_sp_claim_oversized PAD header s.buffer n x y hrc]
    simp only [Bool.false_eq_true, if_false]
    exact ⟨slots, hinv⟩
  · obtain ⟨h8, hcap, hc8, hmax⟩ := header_ok_facts header hh
    obtain ⟨hl, hp, _, _⟩ := hh
    have hfr := try_ring_buffer_sp_claim_frame PAD header s.buffer n x y _ _ hl hp
      (by omega) rfl rfl
    have hout := try_ring_buffer_sp_claim_outputs PAD header s.buffer n x y _ _ hl hp
      (by omega) rfl rfl
    obtain ⟨i1, i2, i3, i4, i5, i6, i7, i8, i9, i10⟩ := hinv
    have hpplt := load_u64_lt s.buffer header.producer_position_index
    have hS := required_record_capacity_eq n header.capacity hcap (by omega)
    have hsz := claimed_size_bounds header.max_msg_length header.capacity n hcap (by omega)
      (by omega)
    obtain ⟨f1, f2, f3, f4, f5⟩ := hfr
    obtain ⟨o1, o2⟩ := hout
    generalize hr : try_ring_buffer_sp_claim PAD header s.buffer n x y = r at *
    generalize ho : claim_outcome header.capacity (load_consumer_cache_position header s.buffer)
      (load_consumer_position header s.buffer) (load_producer_position header s.buffer)
      (required_record_capacity n) = o at *
    have hspec : o.ok = true →
        load_producer_position header s.buffer + required_record_capacity n + o.padding
        ≤ (if o.refreshed = true then load_consumer_position header s.buffer
            else load_consumer_cache_position header s.buffer) + header.capacity := by
      intro hok
      rw [← ho] at hok ⊢
      exact claim_outcome_spec header.capacity _ _ _ _ hp i1 i2 i3 hpplt hok
    have hpad : o.ok = true → o.padding
        = if required_record_capacity n
              > header.capacity - load_producer_position header s.buffer % header.capacity
          then header.capacity - load_producer_position header s.buffer % header.capacity
          else 0 := by
      intro hok
      rw [← ho] at hok ⊢
      exact claim_outcome_padding header.capacity _ _ _ _ hp hok
    unfold run_inv
    simp only [f2, f3, f4, f1]
    generalize load_consumer_position header s.buffer = cp at *
    generalize load_producer_position header s.buffer = pp at *
    generalize load_consumer_cache_position header s.buffer = ccp at *
    have hpi : pp % header.capacity < header.capacity := Nat.mod_lt _ (by omega)
    have hpi8 : pp % header.capacity % 8 = 0 := by rw [mod_mod8 _ _ hc8]; exact i5
    have hqm : ∀ q, q % header.capacity < header.capacity + 8 := by
      intro q
      have := Nat.mod_lt q (show 0 < header.capacity by omega)
      omega
    by_cases hok : o.ok = true
    · have hbd := hspec hok
      have hpd := hpad hok
      simp only [hok, if_true, true_and] at f5 o1 o2 ⊢
      by_cases hU : required_record_capacity n > header.capacity - pp % header.capacity
      · rw [if_pos hU] at hpd
        have hu : u64 (pp + required_record_capacity n + o.padding)
            = pp + required_record_capacity n + o.padding := by
          unfold u64; split at hbd <;> omega
        rw [hu]
        have hue8 : 8 ≤ o.padding ∧ o.padding % 8 = 0 := by omega
        have hrs : rec_size (PAD, o.padding) = o.padding := by
          rw [rec_size_eq _ (by simp only []; omega)]
          simp only []
          omega
        have hbyte : ∀ q, cp ≤ q → q < cp + header.capacity → (q < pp ∨ pp + 8 ≤ q) →
            r.buffer (q % header.capacity) = s.buffer (q % header.capacity) := by
          intro q hq1 hq2 hq3
          have := not_in_slot header.capacity cp pp 8 q hq1 hq2 (by omega)
            (by split at hbd <;> omega) (by omega) hq3
          rw [f5 _ (hqm q), if_neg]
          omega
        have hz0 : (pp + o.padding) % header.capacity = 0 := by
          rw [hpd]; exact add_until_end_mod _ _ (by omega)
        refine ⟨slots ++ [Slot.written (PAD, o.padding), Slot.claimed n],
          ?_, ?_, ?_, i4, ?_, ?_, ?_, ?_, ?_, ?_⟩
        · split <;> omega
        · omega
        · exact hbd
        · omega
        · rw [slots_ok_append]
          constructor
          · apply slots_ok_agree _ header.capacity s.buffer _ hcap (by omega) _ _ _ i6
            intro q hq1 hq2
            exact hbyte q hq1 (by omega) (Or.inl (by omega))
          · rw [i8]
            refine ⟨?_, hPAD, hue8.1, by simp only []; omega, ?_, ?_, ?_, ?_, trivial⟩
            · show load_u64 r.buffer (pp % header.capacity) = make_header PAD o.padding
              have e : load_u64 r.buffer (pp % header.capacity)
                  = load_u64 (store_u64 s.buffer (pp % header.capacity)
                      (make_header PAD o.padding)) (pp % header.capacity) := by
                apply load_u64_congr
                intro k hk
                rw [f5 _ (by omega), if_pos]
                exact ⟨by omega, by omega, by omega⟩
              rw [e, load_u64_store_u64_same]
              have := make_header_lt PAD o.padding
              unfold u64; omega
            · rw [hrs]; omega
            · omega
            · intro k hk
              rw [hrs, hz0, Nat.zero_add]
              have hq := i7 (pp + o.padding + k) (by omega) (by split at hbd <;> omega)
              have hk' : (pp + o.padding + k) % header.capacity = k := by
                rw [Nat.add_mod, hz0, Nat.zero_add, Nat.mod_mod, Nat.mod_eq_of_lt (by omega)]
              rw [hk'] at hq
              rw [f5 _ (by omega), if_neg (by omega)]
              exact hq
            · rw [hrs, hz0]; split at hbd <;> omega
        · intro q hq1 hq2
          rw [hbyte q (by omega) hq2 (Or.inr (by omega))]
          exact i7 q (by omega) hq2
        · rw [slots_span_append]
          simp only [slots_span, Slot.size, hrs]
          omega
        · rw [claimed_of_append, i9, i8]
          simp only [claimed_of, hrs, o2]
        · intro hio
          obtain ⟨g1, g2⟩ := i10 hio
          refine ⟨?_, ?_⟩
          · apply pads_after_claim_append PAD _ _ _ g1
            intro r0 hr0
            simp only [List.mem_cons, Slot.written.injEq, List.mem_singleton, reduceCtorEq,
              or_false, List.not_mem_nil] at hr0
            rw [hr0]
          · rw [g2, deliveries_slots_append]
            simp [deliveries_slots]
      · rw [if_neg hU] at hpd
        rw [hpd] at hbd o1 o2 f5
        simp only [Nat.add_zero, ne_eq, not_true_eq_false, false_and, if_false] at hbd o1 o2 f5 ⊢
        rw [hpd]
        have hu : u64 (pp + required_record_capacity n + 0) = pp + required_record_capacity n := by
          unfold u64; split at hbd <;> omega
        rw [hu]
        refine ⟨slots ++ [Slot.claimed n], ?_, ?_, ?_, i4, ?_, ?_, ?_, ?_, ?_, ?_⟩
        · split <;> omega
        · omega
        · exact hbd
        · omega
        · rw [slots_ok_append]
          constructor
          · apply slots_ok_agree _ header.capacity s.buffer _ hcap (by omega) _ _ _ i6
            intro q _ _
            exact f5 _ (hqm q)
          · rw [i8]
            refine ⟨by omega, ?_, by omega, trivial⟩
            intro k hk
            rw [f5 _ (by omega)]
            have hq := i7 (pp + k) (by omega) (by split at hbd <;> omega)
            rw [mod_add_of_lt _ _ _ (by omega)] at hq
            exact hq
        · intro q hq1 hq2
          rw [f5 _ (hqm q)]
          exact i7 q (by omega) hq2
        · rw [slots_span_append]
          simp only [slots_span, Slot.size]
          omega
        · rw [claimed_of_append, i9, i8]
          simp only [claimed_of, o2]
        · intro hio
          obtain ⟨g1, g2⟩ := i10 hio
          refine ⟨?_, ?_⟩
          · apply pads_after_claim_append PAD _ _ _ g1
            intro r0 hr0
            simp at hr0
          · rw [g2, deliveries_slots_append]
            simp [deliveries_slots]
    · simp only [hok, Bool.false_eq_true, if_false, false_and] at f5 ⊢
      refine ⟨slots, ?_, i2, ?_, i4, i5, ?_, ?_, i8, i9, i10⟩
      · split <;> omega
      · split <;> omega
      · apply slots_ok_agree _ header.capacity s.buffer _ hcap (by omega) _ _ _ i6
        intro q _ _
        exact f5 _ (hqm q)
      · intro q hq1 hq2
        rw [f5 _ (hqm q)]
        exact i7 q hq1 hq2

theorem reachable_inv (PAD : Nat) (header : ring_buffer_header) (in_order : Bool)
    (hh : header_ok header) (hPAD : PAD < 4294967296) (s : RunState)
    (hs : Reachable PAD header in_order s) :
    ∃ slots, run_inv PAD header in_order s slots := by
  induction hs with
  | init => exact ⟨[], run_inv_init PAD header in_order⟩
  | claim s n x y _ hno ih =>
    obtain ⟨slots, hinv⟩ := ih
    exact run_inv_claim PAD header in_order s slots n x y hh hPAD hinv hno
  | write s i n k v _ hcl hk ih =>
    obtain ⟨slots, hinv⟩ := ih
    exact ⟨slots, run_inv_write PAD header in_order s slots i n k v hh hinv hcl hk⟩
  | commit s i n t _ hcl hord hchk ht ih =>
    obtain ⟨slots, hinv⟩ := ih
    exact run_inv_commit PAD header in_order s slots i n t hh hinv hcl hord hchk ht
  | read s fuel count cb context r _ hcount hr ih =>
    obtain ⟨slots, hinv⟩ := ih
    obtain ⟨j, _, _, _, _, _, h⟩ :=
      run_inv_read PAD header in_order s slots fuel count cb context r hh hinv hcount hr
    exact ⟨_, h⟩

theorem tiny_header_init :
    init_ring_buffer_header sample_header 516 = (true, tiny_header) := by
  rfl

theorem sample_run_reachable : Reachable 4294967295 sample_header true sample_run :=
  Reachable.read ⟨sample_committed, [], [(7, 8, 16)], []⟩ 1 1 accept_all 0
    sample_read_result
    (Reachable.commit ⟨sample_claimed, [(0, 16)], [], []⟩ 0 16 7
      (Reachable.claim ⟨zero_buffer, [], [], []⟩ 16 0 0 Reachable.init (by decide))
      (by decide) (fun _ => rfl) (by decide) (by decide))
    (by decide) rfl

set_option maxRecDepth 100000 in
theorem two_claims_reachable (in_order : Bool) :
    Reachable 4294967295 sample_header in_order
      ⟨two_claim_2.buffer, [(0, 16), (24, 16)], [], []⟩ :=
  Reachable.claim ⟨two_claim_1.buffer, [(0, 16)], [], []⟩ 16 0 0
    (Reachable.claim ⟨zero_buffer, [], [], []⟩ 16 0 0 Reachable.init (by decide))
    (by decide)

set_option maxRecDepth 100000 in
theorem two_run_reachable : Reachable 4294967295 sample_header true two_run :=
  Reachable.read ⟨two_committed, [], [(1, 8, 16), (2, 32, 16)], []⟩ 2 2 accept_all 0
    two_read_result
    (Reachable.commit
      ⟨(ring_buffer_commit 4294967295 two_claim_2.buffer two_claim_1.claimed_index 1 16).2,
        [(24, 16)], [(1, 8, 16)], []⟩ 24 16 2
      (Reachable.commit ⟨two_claim_2.buffer, [(0, 16), (24, 16)], [], []⟩ 0 16 1
        (two_claims_reachable true) (by decide) (fun _ => rfl) (by decide) (by decide))
      (by decide) (fun _ => rfl) (by decide) (by decide))
    (by decide) rfl

set_option maxRecDepth 100000 in
theorem wrap_run_3_reachable : Reachable 4294967295 sample_header true wrap_run_3 :=
  Reachable.commit ⟨wrap_claim_3.buffer, [(0, 16)], [(7, 8, 16), (7, 32, 16)],
      [(7, 8, 16), (7, 32, 16)]⟩ 0 16 7
    (Reachable.claim ⟨wrap_read_2.buffer, [], [(7, 8, 16), (7, 32, 16)],
        [(7, 8, 16), (7, 32, 16)]⟩ 16 0 0
      (Reachable.read ⟨wrap_committed_2, [], [(7, 8, 16), (7, 32, 16)], [(7, 8, 16)]⟩
          1 1 accept_all 0 wrap_read_2
        (Reachable.commit ⟨wrap_claim_2.buffer, [(24, 16)], [(7, 8, 16)],
            [(7, 8, 16)]⟩ 24 16 7
          (Reachable.claim sample_run 16 0 0 sample_run_reachable (by decide))
          (by decide) (fun _ => rfl) (by decide) (by decide))
        (by decide) rfl)
      (by decide))
    (by decide) (fun _ => rfl) (by decide) (by decide)

set_option maxRecDepth 100000 in
theorem wrap_run_reachable : Reachable 4294967295 sample_header true wrap_run :=
  Reachable.read ⟨wrap_read_3.buffer, [], [(7, 8, 16), (7, 32, 16), (7, 8, 16)],
      [(7, 8, 16), (7, 32, 16)]⟩ 2 2 accept_all 0 wrap_read_4
    (Reachable.read wrap_run_3 2 2 accept_all 0 wrap_read_3 wrap_run_3_reachable
      (by decide) rfl)
    (by decide) rfl

set_option maxRecDepth 100000 in
theorem empty_at_8_reachable :
    Reachable 4294967295 sample_header true ⟨empty_at_8, [], [(7, 8, 0)], [(7, 8, 0)]⟩ :=
  Reachable.claim ⟨small_read_result.buffer, [], [(7, 8, 0)], [(7, 8, 0)]⟩ 56 5 6
    (Reachable.read ⟨small_committed, [], [(7, 8, 0)], []⟩ 1 1 accept_all 0
      small_read_result
      (Reachable.commit ⟨small_claimed, [(0, 0)], [], []⟩ 0 0 7
        (Reachable.claim ⟨zero_buffer, [], [], []⟩ 0 0 0 Reachable.init (by decide))
        (by decide) (fun _ => rfl) (by decide) (by decide))
      (by decide) rfl)
    (by decide)

set_option maxRecDepth 100000 in
theorem tiny_claimed_reachable (in_order : Bool) :
    Reachable 4294967295 tiny_header in_order tiny_claimed_state :=
  Reachable.claim ⟨zero_buffer, [], [], []⟩ 4294967287 0 0 Reachable.init (by decide)

set_option maxRecDepth 100000 in
theorem tiny_committed_reachable (in_order : Bool) :
    Reachable 4294967295 tiny_header in_order tiny_committed_state :=
  Reachable.commit tiny_claimed_state 0 4294967287 7 (tiny_claimed_reachable in_order)
    (by decide) (fun _ => rfl) (by decide) (by decide)

set_option maxRecDepth 100000 in
theorem tiny_run_reachable (in_order : Bool) :
    Reachable 4294967295 tiny_header in_order tiny_run :=
  Reachable.read tiny_committed_state 3 3 accept_all 0 tiny_read_result
    (tiny_committed_reachable in_order) (by decide) rfl

set_option maxRecDepth 100000 in
/-- Counterexample to C1 as stated: on the buffer that `init_ring_buffer_header`
sets up for the length 516 (a data region of 4 bytes), the run claim of
4294967287 payload bytes, commit with type id 7, one batch read with count 3 and
a callback that always returns true passes the one committed record to the
callback three times: the record capacity and the aligned length of the record
are 0 in `index_t`, so the consumer does not move. -/
theorem record_delivered_three_times :
    init_ring_buffer_header sample_header 516 = (true, tiny_header)
    ∧ tiny_claim.ok = true
    ∧ (ring_buffer_commit 4294967295 tiny_claim.buffer tiny_claim.claimed_index 7
        4294967287).1 = true
    ∧ ring_buffer_batch_read 4294967295 3 tiny_header tiny_committed accept_all 3 0
        = some tiny_read_result
    ∧ (∀ t b i n c, (accept_all t b i n c).1 = true)
    ∧ Reachable 4294967295 tiny_header true tiny_run
    ∧ tiny_run.committed = [(7, 8, 4294967287)]
    ∧ tiny_run.delivered = tiny_read_result.calls.map Call.triple
    ∧ tiny_run.delivered
        = [(7, 8, 4294967287), (7, 8, 4294967287), (7, 8, 4294967287)]
    ∧ ¬ (tiny_run.delivered <+: tiny_run.committed) := by
  refine ⟨tiny_header_init, by decide, by decide, rfl, fun _ _ _ _ _ => rfl,
    tiny_run_reachable true, rfl, by decide, rfl, by decide⟩

/-- C1, amended: FIFO delivery in the sequential model.  In every state of
well-formed sequential use of a buffer that `init_ring_buffer_header` has set up
with a data region of at least `RECORD_HEADER_LENGTH` bytes (the padding id a
`uint32_t`), starting from the all-zero buffer, with the claims committed in
claim order (in particular each claim followed by its commit), the sequence of
`(type id, payload index, payload length)` passed to the callback over all
batch reads is a prefix of the sequence of committed records, in commit order;
the committed records that are not yet delivered are exactly the data records
among the slots laid out in the buffer from the consumer position up to the
producer position, so none is delivered twice and none is skipped. -/
theorem fifo_delivery (PAD : Nat) (h0 header : ring_buffer_header) (length : Nat)
    (s : RunState)
    (hinit : init_ring_buffer_header h0 length = (true, header))
    (h8 : RECORD_HEADER_LENGTH ≤ header.capacity) (hPAD : PAD < 4294967296)
    (hs : Reachable PAD header true s) :
    s.delivered <+: s.committed
    ∧ ∃ slots, s.committed
        = s.delivered ++ deliveries_slots PAD header.capacity
            (load_consumer_position header s.buffer) slots
      ∧ slots_ok header.max_msg_length header.capacity s.buffer
          (load_consumer_position header s.buffer) slots
      ∧ load_consumer_position header s.buffer + slots_span slots
          = load_producer_position header s.buffer := by
  have hh := init_header_ok h0 header length hinit h8
  obtain ⟨slots, hinv⟩ := reachable_inv PAD header true hh hPAD s hs
  obtain ⟨i1, i2, i3, i4, i5, i6, i7, i8, i9, i10⟩ := hinv
  obtain ⟨_, g2⟩ := i10 rfl
  exact ⟨⟨_, g2.symm⟩, slots, g2, i6, i8⟩

set_option maxRecDepth 100000 in
/-- Witness of C1, amended: in the run `two_run` two claims are made, committed
in claim order with type ids 1 and 2 and read in one batch: the records are
delivered in commit order. -/
theorem fifo_delivery_witness :
    two_run.committed = [(1, 8, 16), (2, 32, 16)]
    ∧ two_run.delivered = two_read_result.calls.map Call.triple
    ∧ two_run.delivered = [(1, 8, 16), (2, 32, 16)]
    ∧ two_run.delivered <+: two_run.committed :=
  ⟨rfl, by decide, rfl,
    (fifo_delivery 4294967295 sample_header sample_header 576 two_run
      sample_header_init (by decide) (by decide) two_run_reachable).1⟩

/-! ### Batch reads and the data region -/

set_option maxRecDepth 100000 in
/-- Counterexample to C13 as stated: on the buffer that `init_ring_buffer_header`
sets up for the length 516 (a data region of 4 bytes), after the claim of
4294967287 payload bytes and its commit with type id 7 the consumer position and
the producer position are both 0, and the four bytes of the data region hold
the length field `0xFFFFFFFF` of the committed header. -/
theorem nonzero_after_quiescence :
    init_ring_buffer_header sample_header 516 = (true, tiny_header)
    ∧ tiny_header.capacity = 4
    ∧ Reachable 4294967295 tiny_header true tiny_committed_state
    ∧ load_consumer_position tiny_header tiny_committed_state.buffer = 0
    ∧ load_producer_position tiny_header tiny_committed_state.buffer = 0
    ∧ tiny_committed_state.buffer 0 = 255
    ∧ tiny_committed_state.buffer 3 = 255
    ∧ ¬ (∀ i, i < tiny_header.capacity → tiny_committed_state.buffer i = 0) := by
  refine ⟨tiny_header_init, by decide, tiny_committed_reachable true, by decide, by decide,
    by decide, by decide, by decide⟩

/-- C13, amended (zero after quiescence).  In every state of a sequential run
(claims committed in claim order or in any order, payload writes inside the
claimed payload bytes) on a buffer that `init_ring_buffer_header` has set up with
a data region of at least `RECORD_HEADER_LENGTH` bytes, in which the consumer
position equals the producer position, every byte of the data region `[0,
capacity)` is zero. -/
theorem zero_after_quiescence (PAD : Nat) (h0 header : ring_buffer_header) (length : Nat)
    (in_order : Bool) (s : RunState)
    (hinit : init_ring_buffer_header h0 length = (true, header))
    (h8 : RECORD_HEADER_LENGTH ≤ header.capacity) (hPAD : PAD < 4294967296)
    (hs : Reachable PAD header in_order s)
    (hq : load_consumer_position header s.buffer = load_producer_position header s.buffer) :
    ∀ i, i < header.capacity → s.buffer i = 0 := by
  have hh := init_header_ok h0 header length hinit h8
  obtain ⟨slots, hinv⟩ := reachable_inv PAD header in_order hh hPAD s hs
  obtain ⟨_, _, _, _, _, _, hzero, _, _, _⟩ := hinv
  intro i hi
  obtain ⟨q, hq1, hq2, hq3⟩ :=
    residue_in_window header.capacity (load_producer_position header s.buffer) i hi
  rw [← hq3]
  exact hzero q hq1 (by rw [hq]; exact hq2)

set_option maxRecDepth 100000 in
/-- Witness of C13, amended: in the run `wrap_run` both positions are 88, and the
bytes at offset 48, where the padding header was, and at offset 0 are zero. -/
theorem zero_after_quiescence_witness :
    load_consumer_position sample_header wrap_run.buffer = 88
    ∧ load_producer_position sample_header wrap_run.buffer = 88
    ∧ wrap_run.buffer 48 = 0 ∧ wrap_run.buffer 0 = 0 :=
  ⟨by decide, by decide,
    zero_after_quiescence 4294967295 sample_header sample_header 576 true wrap_run
      sample_header_init (by decide) (by decide) wrap_run_reachable (by decide) 48
      (by decide),
    by decide⟩

/-! ### Claims on an empty buffer: the state that refuses -/

set_option maxRecDepth 100000 in
/-- Counterexample to C22 as stated: the 64-byte buffer in the state `empty_at_8`,
reached by claiming, committing and reading one record of 8 bytes, is empty: the
capacity 64 is a power of two, the three positions are 8, a multiple of
`RECORD_ALIGNMENT`, and every byte of the data region is zero.  The claim of 56
payload bytes, which is `max_msg_length`, needs 64 bytes; they fit neither the 56
bytes until the end of the data region nor the 8 bytes before the consumer
index, and the claim returns false. -/
theorem empty_buffer_refuses_claim :
    capacity_pow2 sample_header
    ∧ RECORD_ALIGNMENT ≤ sample_header.capacity
    ∧ Reachable 4294967295 sample_header true ⟨empty_at_8, [], [(7, 8, 0)], [(7, 8, 0)]⟩
    ∧ load_consumer_cache_position sample_header empty_at_8 = 8
    ∧ load_consumer_position sample_header empty_at_8 = 8
    ∧ load_producer_position sample_header empty_at_8 = 8
    ∧ 8 % RECORD_ALIGNMENT = 0
    ∧ (∀ i, i < sample_header.capacity → empty_at_8 i = 0)
    ∧ 56 ≤ sample_header.max_msg_length
    ∧ (try_ring_buffer_sp_claim 4294967295 sample_header empty_at_8 56 0 0).ok = false := by
  refine ⟨by decide, by decide, empty_at_8_reachable, by decide, by decide, by decide,
    by decide, by decide, by decide, by decide⟩

/-! ### Commit / read round trip on a data region below one record header -/

set_option maxRecDepth 100000 in
/-- Counterexample to C8 as stated: on the buffer that `init_ring_buffer_header`
sets up for the length 516 (a data region of 4 bytes, `max_msg_length =
4294967292`), the payload length 4294967288 is at most `max_msg_length`, the
claim of that many bytes succeeds at index 0, which is the consumer's index, and
the commit with the valid type id 7 returns true; the length field it stores is
`4294967288 + 8 = 0` in `index_t`, so a batch read with count 1 returns 0 and
invokes no callback. -/
theorem round_trip_lost :
    init_ring_buffer_header sample_header 516 = (true, tiny_header)
    ∧ check_msg_type_id 4294967295 7 = true
    ∧ 4294967288 ≤ tiny_header.max_msg_length
    ∧ tiny_claim_8.ok = true
    ∧ tiny_claim_8.claimed_index
        = load_consumer_position tiny_header tiny_claim_8.buffer &&& (tiny_header.capacity - 1)
    ∧ (ring_buffer_commit 4294967295 tiny_claim_8.buffer tiny_claim_8.claimed_index 7
        4294967288).1 = true
    ∧ record_length (load_u64 tiny_committed_8 tiny_claim_8.claimed_index) = 0
    ∧ ring_buffer_batch_read 4294967295 1 tiny_header tiny_committed_8 accept_all 1 0
        = some tiny_read_8
    ∧ tiny_read_8.msg_read = 0
    ∧ tiny_read_8.calls.map Call.triple = []
    ∧ ¬ ((tiny_read_8.calls.map Call.triple).head?
          = some (7, tiny_claim_8.claimed_index + RECORD_HEADER_LENGTH, 4294967288)) := by
  refine ⟨tiny_header_init, by decide, by decide, by decide, by decide, by decide, by decide,
    rfl, by decide, by decide, by decide⟩

/-! ### The callback veto -/

set_option maxRecDepth 100000 in
/-- Counterexample to C11 as stated, on the 64-byte buffer with a callback that
returns false.  In `long_record` the header at index 0 has type id 7 and the
length field `0xFFFFFFF9`, as `ring_buffer_commit` writes it for the payload
length 4294967281; its aligned length is 0 in `index_t`: the batch read invokes
the callback and returns 1, but the consumer position is still 0 and the bytes
of the record are not zeroed.  In `wide_record` the header at index 0 has the
length field 512: the batch read returns 1 and advances the consumer position
to 512, and byte 449 of the record, a byte of the consumer position word, is 2
and not zero. -/
theorem vetoed_record_not_consumed :
    capacity_pow2 sample_header
    ∧ message_type_id (load_u64 long_record 0) = 7
    ∧ record_length (load_u64 long_record 0) = 4294967289
    ∧ align (record_length (load_u64 long_record 0)) RECORD_ALIGNMENT = 0
    ∧ (∀ t b i n c, (reject_all t b i n c).1 = false)
    ∧ ring_buffer_batch_read 4294967295 1 sample_header long_record reject_all 5 0
        = some long_record_read
    ∧ long_record_read.msg_read = 1
    ∧ long_record_read.calls.length = 1
    ∧ load_consumer_position sample_header long_record = 0
    ∧ load_consumer_position sample_header long_record_read.buffer = 0
    ∧ long_record_read.buffer 0 = 249
    ∧ record_length (load_u64 wide_record 0) = 512
    ∧ ring_buffer_batch_read 4294967295 1 sample_header wide_record reject_all 5 0
        = some wide_record_read
    ∧ wide_record_read.msg_read = 1
    ∧ load_consumer_position sample_header wide_record_read.buffer = 512
    ∧ sample_header.consumer_position_index = 448
    ∧ wide_record_read.buffer 449 = 2 := by
  refine ⟨by decide, by decide, by decide, by decide, fun _ _ _ _ _ => rfl, rfl, by decide,
    by decide, by decide, by decide, by decide, by decide, rfl, by decide, by decide,
    by decide, by decide⟩

/-- C11, amended (callback veto).  Take any buffer and count, a header whose
capacity is a power of two, and the loop of `ring_buffer_batch_read` at the
start of one of its iterations (`s` is the loop state after `m` iterations and
the guard holds), where the record at `msg_index` is a data record (length field
positive, type id not the padding id) on which the callback returns false, and
the bytes walked before the record plus its length rounded up to
`RECORD_ALIGNMENT` fit `index_t` (as they do for every length field up to
`2^31`).  Then the call returns, with any fuel above `m`; the callback is not
invoked again: the log of the call is the log so far followed by this
invocation; the returned count is the count so far plus one, and it is the
number of invocations; the consumer position is advanced by the bytes walked
before the record plus the aligned length of the record; and every byte of the
record, other than bytes of the consumer position word itself, is zero. -/
theorem callback_veto {γ : Type} (PAD fuel m : Nat) (header : ring_buffer_header)
    (buffer : Buffer) (cb : MessageConsumer γ) (count : Nat) (context : γ)
    (s : BatchLoop γ) (consumer_index msg_index msg_header : Nat)
    (hp : capacity_pow2 header) (hcount : count < 4294967296)
    (hci : consumer_index
      = u32 (load_consumer_position header buffer &&& sub_u32 header.capacity 1))
    (hs : s = ring_buffer_batch_read_loop PAD m header buffer cb count context)
    (hg : batch_read_guard (sub_u32 header.capacity consumer_index) count s = true)
    (hmi : msg_index = u32 (consumer_index + s.bytes_consumed))
    (hmh : msg_header = load_acquire_msg_reader buffer msg_index)
    (hlen : 0 < record_length msg_header)
    (hfit : s.bytes_consumed + (record_length msg_header + 7) / 8 * 8 < 4294967296)
    (hty : message_type_id msg_header ≠ PAD)
    (hcb : (cb (message_type_id msg_header) buffer (u32 (msg_index + RECORD_HEADER_LENGTH))
      (sub_u32 (record_length msg_header) RECORD_HEADER_LENGTH) s.context).1 = false)
    (hfuel : m < fuel) :
    ∃ r, ring_buffer_batch_read PAD fuel header buffer cb count context = some r
      ∧ r.calls = s.calls ++
          [⟨message_type_id msg_header, buffer, u32 (msg_index + RECORD_HEADER_LENGTH),
            sub_u32 (record_length msg_header) RECORD_HEADER_LENGTH⟩]
      ∧ r.msg_read = s.msg_read + 1
      ∧ r.msg_read = r.calls.length
      ∧ msg_index = consumer_index + s.bytes_consumed
      ∧ 0 < align (record_length msg_header) RECORD_ALIGNMENT
      ∧ align (record_length msg_header) RECORD_ALIGNMENT % RECORD_ALIGNMENT = 0
      ∧ record_length msg_header ≤ align (record_length msg_header) RECORD_ALIGNMENT
      ∧ load_consumer_position header r.buffer
          = u64 (load_consumer_position header buffer + s.bytes_consumed
              + align (record_length msg_header) RECORD_ALIGNMENT)
      ∧ (∀ a, msg_index ≤ a →
          a < msg_index + align (record_length msg_header) RECORD_ALIGNMENT →
          (a < header.consumer_position_index ∨ header.consumer_position_index + 8 ≤ a) →
          r.buffer a = 0) := by
  obtain ⟨hcap1, hcap2⟩ := pow2_bounds header.capacity hp
  have hidx := index_eq_mod header.capacity (load_consumer_position header buffer) hp
  have hrem := sub_u32_mod header.capacity (load_consumer_position header buffer) hp
  rw [hidx] at hci
  subst hci
  rw [hrem] at hg
  have hm : load_consumer_position header buffer % header.capacity < header.capacity :=
    Nat.mod_lt _ (by omega)
  have hs2 : s = batch_read_loop PAD buffer cb
      (load_consumer_position header buffer % header.capacity)
      (header.capacity - load_consumer_position header buffer % header.capacity) count m
      { stop := false, bytes_consumed := 0, msg_read := 0, context := context, calls := [] }
      := by
    rw [hs]
    simp only [ring_buffer_batch_read_loop, hidx, hrem]
  have hok : calls_ok PAD count s := by
    rw [hs2]
    exact batch_read_loop_calls_ok PAD buffer cb _ _ count hcount m _
      ⟨(by intro c hc; cases hc), rfl, Nat.zero_le _⟩
  obtain ⟨_, hmr, _⟩ := hok
  obtain ⟨_, hbc, hmc⟩ := (batch_read_guard_true_iff _ _ _).1 hg
  have hmi2 : msg_index = load_consumer_position header buffer % header.capacity
      + s.bytes_consumed := by
    rw [hmi]; exact Nat.mod_eq_of_lt (by omega)
  rw [hmh, hmi] at hlen hty
  have hbody := batch_read_body_data PAD buffer cb
    (load_consumer_position header buffer % header.capacity) s hlen hty
  rw [← hmi, ← hmh] at hbody hlen hty
  rw [hcb] at hbody
  have hsucc := batch_read_loop_succ_of_guard PAD buffer cb
    (load_consumer_position header buffer % header.capacity)
    (header.capacity - load_consumer_position header buffer % header.capacity) count m
    { stop := false, bytes_consumed := 0, msg_read := 0, context := context, calls := [] }
    (by rw [← hs2]; exact hg)
  rw [← hs2, hbody] at hsucc
  have hal : align (record_length msg_header) RECORD_ALIGNMENT
      = (record_length msg_header + 7) / 8 * 8 := by
    simp only [align, RECORD_ALIGNMENT, u32]
    exact Nat.mod_eq_of_lt (by omega)
  have hres := ring_buffer_batch_read_of_loop PAD fuel (m + 1) header buffer cb count context
    (load_consumer_position header buffer) _ hp rfl hsucc.symm
    ((batch_read_guard_false_iff _ _ _).2 (Or.inl (by simp))) (by omega)
  refine ⟨_, hres, rfl, ?_, ?_, hmi2, by omega, ?_, by omega, ?_, ?_⟩
  · show u32 (s.msg_read + 1) = s.msg_read + 1
    exact Nat.mod_eq_of_lt (by omega)
  · show u32 (s.msg_read + 1) = (s.calls ++ [_]).length
    rw [List.length_append, List.length_singleton, ← hmr]
    exact Nat.mod_eq_of_lt (by omega)
  · rw [hal]; simp only [RECORD_ALIGNMENT]; omega
  · simp only []
    have hbcv : u32 (s.bytes_consumed + align (record_length msg_header) RECORD_ALIGNMENT)
        = s.bytes_consumed + align (record_length msg_header) RECORD_ALIGNMENT :=
      Nat.mod_eq_of_lt (by omega)
    rw [hbcv, if_pos (by omega)]
    simp only [load_consumer_position, store_release_consumer_position,
      load_u64_store_u64_same, u64_u64, Nat.add_assoc]
  · intro a ha1 ha2 hout
    simp only []
    have hbcv : u32 (s.bytes_consumed + align (record_length msg_header) RECORD_ALIGNMENT)
        = s.bytes_consumed + align (record_length msg_header) RECORD_ALIGNMENT :=
      Nat.mod_eq_of_lt (by omega)
    rw [hbcv, if_pos (by omega)]
    simp only [store_release_consumer_position]
    rw [store_u64_apply_out _ _ _ _ hout]
    exact memset_apply_in _ _ _ _ ⟨by omega, by omega⟩

/-- Witness of C11, amended: on ten records of 8 bytes with a callback that accepts the
first record only, a batch read of up to 5 records returns 2 and advances the
consumer position to 16. -/
theorem callback_veto_witness :
    ∃ r, ring_buffer_batch_read 4294967295 5 sample_header_128 ten_records accept_first 5 0
        = some r
      ∧ r.msg_read = 2
      ∧ load_consumer_position sample_header_128 r.buffer = 16 := by
  obtain ⟨r, h1, _, h3, _, _, _, _, _, h9, _⟩ :=
    callback_veto 4294967295 5 1 sample_header_128 ten_records accept_first 5 0
      (ring_buffer_batch_read_loop 4294967295 1 sample_header_128 ten_records accept_first 5 0)
      0 8 (load_acquire_msg_reader ten_records 8)
      (by decide) (by decide) (by decide) rfl (by decide) (by decide) rfl (by decide)
      (by decide) (by decide) (by decide) (by decide)
  exact ⟨r, h1, h3.trans (by decide), h9.trans (by decide)⟩

/-! ### The length field of a committed record -/

set_option maxRecDepth 100000 in
/-- Counterexample to C18 as stated.  Committing a claim with a payload of 12
bytes (at most the `max_msg_length` 56 of the 64-byte buffer) and type id 7
succeeds and stores the length 20 in the header word, and 20 is not a multiple
of `RECORD_ALIGNMENT`.  And for the header that `init_ring_buffer_header` sets up
for the length 516 (a data region of 4 bytes, `max_msg_length = 4294967292`),
committing the payload length 4294967288 succeeds and stores the length 0. -/
theorem committed_length_not_aligned :
    12 ≤ sample_header.max_msg_length
    ∧ (ring_buffer_commit 4294967295 zero_buffer 0 7 12).1 = true
    ∧ record_length (load_u64 (ring_buffer_commit 4294967295 zero_buffer 0 7 12).2 0) = 20
    ∧ ¬ (record_length (load_u64 (ring_buffer_commit 4294967295 zero_buffer 0 7 12).2 0)
          % RECORD_ALIGNMENT = 0)
    ∧ init_ring_buffer_header sample_header 516 = (true, tiny_header)
    ∧ 4294967288 ≤ tiny_header.max_msg_length
    ∧ (ring_buffer_commit 4294967295 zero_buffer 0 7 4294967288).1 = true
    ∧ ¬ (0 < record_length
          (load_u64 (ring_buffer_commit 4294967295 zero_buffer 0 7 4294967288).2 0)) := by
  refine ⟨by decide, by decide, by decide, by decide, tiny_header_init, by decide, by decide,
    by decide⟩

/-- C18, amended.  For every header that `init_ring_buffer_header` has set up
with a data region of at least `RECORD_HEADER_LENGTH` bytes, every valid type id
and every payload length up to `max_msg_length`, `ring_buffer_commit` returns
true and the length field of the header word written at `msg_index` is
`msg_content_length + RECORD_HEADER_LENGTH`: it is positive, and it is a
multiple of `RECORD_ALIGNMENT` exactly when the payload length is.  What is
always a multiple of `RECORD_ALIGNMENT` is the aligned length `align (length,
RECORD_ALIGNMENT)` by which the reader advances; it is at least the length and
less than the length plus the alignment. -/
theorem committed_record_length (PAD : Nat) (h0 header : ring_buffer_header) (length : Nat)
    (buffer : Buffer) (msg_index msg_type_id msg_content_length : Nat)
    (hinit : init_ring_buffer_header h0 length = (true, header))
    (h8 : RECORD_HEADER_LENGTH ≤ header.capacity)
    (hid : check_msg_type_id PAD msg_type_id = true)
    (hmsg : msg_content_length ≤ header.max_msg_length) :
    (ring_buffer_commit PAD buffer msg_index msg_type_id msg_content_length).1 = true
    ∧ record_length (load_u64
          (ring_buffer_commit PAD buffer msg_index msg_type_id msg_content_length).2
          msg_index)
        = msg_content_length + RECORD_HEADER_LENGTH
    ∧ 0 < record_length (load_u64
          (ring_buffer_commit PAD buffer msg_index msg_type_id msg_content_length).2
          msg_index)
    ∧ (record_length (load_u64
          (ring_buffer_commit PAD buffer msg_index msg_type_id msg_content_length).2
          msg_index) % RECORD_ALIGNMENT = 0
        ↔ msg_content_length % RECORD_ALIGNMENT = 0)
    ∧ align (record_length (load_u64
          (ring_buffer_commit PAD buffer msg_index msg_type_id msg_content_length).2
          msg_index)) RECORD_ALIGNMENT % RECORD_ALIGNMENT = 0
    ∧ record_length (load_u64
          (ring_buffer_commit PAD buffer msg_index msg_type_id msg_content_length).2
          msg_index)
        ≤ align (record_length (load_u64
          (ring_buffer_commit PAD buffer msg_index msg_type_id msg_content_length).2
          msg_index)) RECORD_ALIGNMENT
    ∧ align (record_length (load_u64
          (ring_buffer_commit PAD buffer msg_index msg_type_id msg_content_length).2
          msg_index)) RECORD_ALIGNMENT
        < msg_content_length + RECORD_HEADER_LENGTH + RECORD_ALIGNMENT := by
  obtain ⟨_, hcap, _, hmax⟩ :=
    header_ok_facts header (init_header_ok h0 header length hinit h8)
  have hn : msg_content_length + RECORD_HEADER_LENGTH ≤ 2147483648 := by
    simp only [RECORD_HEADER_LENGTH]; omega
  have hlen : record_length (load_u64
      (ring_buffer_commit PAD buffer msg_index msg_type_id msg_content_length).2 msg_index)
      = msg_content_length + RECORD_HEADER_LENGTH := by
    simp only [ring_buffer_commit, hid, Bool.not_true, Bool.false_eq_true, if_false,
      store_release_msg_header, load_u64_store_u64_same]
    have hlt := make_header_lt msg_type_id (u32 (msg_content_length + RECORD_HEADER_LENGTH))
    have hu : u32 (msg_content_length + RECORD_HEADER_LENGTH)
        = msg_content_length + RECORD_HEADER_LENGTH := Nat.mod_eq_of_lt (by omega)
    rw [hu] at hlt ⊢
    have h64 : u64 (make_header msg_type_id (msg_content_length + RECORD_HEADER_LENGTH))
        = make_header msg_type_id (msg_content_length + RECORD_HEADER_LENGTH) :=
      Nat.mod_eq_of_lt hlt
    rw [h64]
    exact record_length_make_header _ _ (by omega)
  rw [hlen]
  refine ⟨?_, rfl, ?_, ?_, ?_, ?_, ?_⟩
  · simp [ring_buffer_commit, hid]
  · simp only [RECORD_HEADER_LENGTH]; omega
  · simp only [RECORD_HEADER_LENGTH, RECORD_ALIGNMENT]; omega
  all_goals
    simp only [RECORD_HEADER_LENGTH, RECORD_ALIGNMENT, align, u32] at hn ⊢
    omega

/-- Witness of C18, amended: on the 64-byte buffer a payload of 12 bytes gives
the length 20 and the aligned length 24. -/
theorem committed_record_length_witness :
    record_length (load_u64 (ring_buffer_commit 4294967295 zero_buffer 0 7 12).2 0) = 12 + 8
    ∧ align (record_length (load_u64 (ring_buffer_commit 4294967295 zero_buffer 0 7 12).2 0))
        RECORD_ALIGNMENT = 24 :=
  ⟨(committed_record_length 4294967295 sample_header sample_header 576 zero_buffer 0 7 12
      sample_header_init (by decide) (by decide) (by decide)).2.1,
    by decide⟩

end FranzFlow
